import Mathlib

/-!
# CuraEngine `multiVolumes.cpp`: carving, bonding overlap and cutting meshes

A shallow embedding of the three functions of `src/multiVolumes.cpp`

* `carveMultipleVolumes`            (lines 17-68),
* `generateMultipleVolumesOverlap`  (lines 72-116),
* `MultiVolumes::carveCuttingMeshes` (lines 118-192),

followed by theorems about them.

The store `std::vector<Slicer*>` is a `List (Slicer P)`; a pointer is the index of
its slot, every slot being its own object.  A read outside a vector (undefined
behaviour in C++) makes the embedded function return `none`.  The polygon class
`Polygons` with its boolean operations is not part of the file under study: the
functions are written over an arbitrary record of operations `PolygonOps P`, and
the point-set reading of areas is the instance `pointSet`.

The library function `std::sort` is an argument of `carveMultipleVolumes`.  The
theorems on carving hold for every sort that meets the contract `StdSortContract`;
the sort of libstdc++ is embedded as `sort` (introsort: partition around a median of
three, heap sort when the depth limit is reached, a final insertion sort) and shown to
return and to meet the contract.
-/

namespace cura

/-! ## Data model -/

/-- The enum `ESurfaceMode` of `settings/EnumSettings.h`. -/
inductive ESurfaceMode where
  | NORMAL
  | SURFACE
  | BOTH
  deriving DecidableEq, Repr

/-- The enum `ClipperLib::PolyFillType`, as far as it is used here. -/
inductive PolyFillType where
  | pftEvenOdd
  | pftNonZero
  deriving DecidableEq, Repr

/-- The class `Point3`: integer coordinates. -/
structure Point3 where
  x : Int
  y : Int
  z : Int
  deriving DecidableEq, Repr

/-- The class `AABB3D`: an axis-aligned box given by its two extreme corners. -/
structure AABB3D where
  min : Point3
  max : Point3
  deriving DecidableEq, Repr

/-- Modelled from the spec: `AABB3D::hit` is not in the file under study; the spec
speaks of two bounding volumes that "intersect".  Two boxes hit unless they are
separated along one of the three axes. -/
def AABB3D.hit (a other : AABB3D) : Bool :=
  !(decide (a.max.x < other.min.x) || decide (a.min.x > other.max.x)
    || decide (a.max.y < other.min.y) || decide (a.min.y > other.max.y)
    || decide (a.max.z < other.min.z) || decide (a.min.z > other.max.z))

/-- Modelled from the spec: `AABB3D::expandXY` is not in the file under study; the spec
speaks of the bounding volume "expanded on the two in-plane axes" by a margin. -/
def AABB3D.expandXY (a : AABB3D) (outset : Int) : AABB3D :=
  { min := { x := a.min.x - outset, y := a.min.y - outset, z := a.min.z }
    max := { x := a.max.x + outset, y := a.max.y + outset, z := a.max.z } }

/-- The settings read by `multiVolumes.cpp`, one field per key of
`settings.get<T>("key")`. -/
structure Settings where
  infill_mesh : Bool
  anti_overhang_mesh : Bool
  support_mesh : Bool
  cutting_mesh : Bool
  magic_mesh_surface_mode : ESurfaceMode
  infill_mesh_order : Int
  multiple_mesh_overlap : Int
  meshfix_union_all : Bool
  wall_line_width_0 : Int
  deriving DecidableEq, Repr

/-- The class `Mesh`, as far as it is read here: its settings and its bounding box. -/
structure Mesh where
  settings : Settings
  aabb : AABB3D
  deriving DecidableEq, Repr

/-- The accessor `Mesh::getAABB`. -/
def Mesh.getAABB (m : Mesh) : AABB3D := m.aabb

/-- The class `SlicerLayer`: the closed polygons and the open polylines of one layer. -/
structure SlicerLayer (P : Type) where
  polygons : P
  openPolylines : P

/-- The class `Slicer`: a mesh together with its layers. -/
structure Slicer (P : Type) where
  mesh : Mesh
  layers : List (SlicerLayer P)

/-- The operations of the class `Polygons` (and of `PolylineStitcher`) called by
`multiVolumes.cpp`.  They belong to the polygon library, which is outside the file
under study, and are therefore taken as given. -/
structure PolygonOps (P : Type) where
  /-- The default-constructed, empty `Polygons`; also the value after `clear()`. -/
  empty : P
  /-- The method `Polygons::difference`. -/
  difference : P → P → P
  /-- The method `Polygons::intersection`. -/
  intersection : P → P → P
  /-- The method `Polygons::unionPolygons(other, fill_type)`. -/
  unionPolygons : P → P → PolyFillType → P
  /-- The method `Polygons::offset(distance)`. -/
  offset : P → Int → P
  /-- The method `Polygons::offsetPolyLine(distance)`. -/
  offsetPolyLine : P → Int → P
  /-- The method `Polygons::intersectionPolyLines(polylines)`. -/
  intersectionPolyLines : P → P → P
  /-- The method `Polygons::add(other)`: the paths of `other` appended. -/
  add : P → P → P
  /-- The loop `for (PolygonRef poly : polys) poly.add(poly[0])`: every path gets its
  first vertex appended. -/
  closePolygons : P → P
  /-- The call `PolylineStitcher::stitch(lines, result_lines, result_polygons, d)`
  on empty result containers: the pair `(result_lines, result_polygons)`. -/
  stitch : P → Int → P × P

/-- The call `Polygons::unionPolygons()` without argument: the union with an empty
`Polygons` under the default fill rule. -/
def PolygonOps.unionSelf {P : Type} (K : PolygonOps P) (a : P) : P :=
  K.unionPolygons a K.empty PolyFillType.pftNonZero

/-! ## Access to the store -/

section Store

variable {P : Type}

/-- The layer `volumes[idx]->layers[layerNr]`, when both indices exist. -/
def layerAt (volumes : List (Slicer P)) (idx layerNr : Nat) : Option (SlicerLayer P) :=
  match volumes[idx]? with
  | some v => v.layers[layerNr]?
  | none => none

/-- The closed area `volumes[idx]->layers[layerNr].polygons`, when both indices exist. -/
def polygonsAt (volumes : List (Slicer P)) (idx layerNr : Nat) : Option P :=
  (layerAt volumes idx layerNr).map SlicerLayer.polygons

/-- Assignment through the reference `volumes[idx]->layers[layerNr]`. -/
def writeLayer (volumes : List (Slicer P)) (idx layerNr : Nat) (layer : SlicerLayer P) :
    List (Slicer P) :=
  match volumes[idx]? with
  | some v => volumes.set idx { v with layers := v.layers.set layerNr layer }
  | none => volumes

/-- What the functions never change: the mesh and the number of layers of every slot. -/
def shape (volumes : List (Slicer P)) : List (Mesh × Nat) :=
  volumes.map (fun v => (v.mesh, v.layers.length))

end Store

/-! ## `carveMultipleVolumes` -/

section Carve

variable {P : Type}

/-- The test of lines 30-33 and 41-44: the mesh takes no part in carving. -/
def carveExcluded (m : Mesh) : Bool :=
  m.settings.infill_mesh
    || m.settings.anti_overhang_mesh
    || m.settings.support_mesh
    || m.settings.magic_mesh_surface_mode == ESurfaceMode.SURFACE

/-- The setting `infill_mesh_order` of the mesh in slot `idx` (the comparator of line 25
is only ever called on slots of the store). -/
def infillMeshOrder (volumes : List (Slicer P)) (idx : Nat) : Int :=
  match volumes[idx]? with
  | some v => v.mesh.settings.infill_mesh_order
  | none => 0

/-- Lines 21-26: `ranked_volumes`, the slots of the store as ordered by `std::sort`
with the comparator on `infill_mesh_order`.  The library function `std::sort` is the
parameter `stdSort`. -/
def rankedVolumes (stdSort : (Nat → Nat → Bool) → List Nat → List Nat)
    (volumes : List (Slicer P)) : List Nat :=
  stdSort (fun volume_1 volume_2 =>
    decide (infillMeshOrder volumes volume_1 < infillMeshOrder volumes volume_2))
    (List.range volumes.length)

/-- Lines 55-64: the body of the layer loop for the slots `i1` (volume_1) and `i2`
(volume_2). -/
def carveLayer (K : PolygonOps P) (alternate_carve_order : Bool) (i1 i2 : Nat)
    (volumes : List (Slicer P)) (layerNr : Nat) : Option (List (Slicer P)) := do
  let volume_1 ← volumes[i1]?
  let volume_2 ← volumes[i2]?
  let layer1 ← volume_1.layers[layerNr]?
  let layer2 ← volume_2.layers[layerNr]?
  if alternate_carve_order && layerNr % 2 == 0
      && volume_1.mesh.settings.infill_mesh_order == volume_2.mesh.settings.infill_mesh_order then
    pure (writeLayer volumes i2 layerNr
      { layer2 with polygons := K.difference layer2.polygons layer1.polygons })
  else
    pure (writeLayer volumes i1 layerNr
      { layer1 with polygons := K.difference layer1.polygons layer2.polygons })

/-- Lines 40-65: the body of the inner loop, for volume_1 in slot `i1` and volume_2 in
slot `i2`. -/
def carvePair (K : PolygonOps P) (alternate_carve_order : Bool) (i1 i2 : Nat)
    (volumes : List (Slicer P)) : Option (List (Slicer P)) := do
  let volume_1 ← volumes[i1]?
  let volume_2 ← volumes[i2]?
  if carveExcluded volume_2.mesh then
    pure volumes
  else if !(volume_1.mesh.getAABB.hit volume_2.mesh.getAABB) then
    pure volumes
  else
    (List.range volume_1.layers.length).foldlM
      (carveLayer K alternate_carve_order i1 i2) volumes

/-- Lines 29-66: the body of the outer loop at position `volume_1_idx` of the ranked
list. -/
def carveVolume (K : PolygonOps P) (alternate_carve_order : Bool) (ranked_volumes : List Nat)
    (volumes : List (Slicer P)) (volume_1_idx : Nat) : Option (List (Slicer P)) := do
  let i1 ← ranked_volumes[volume_1_idx]?
  let volume_1 ← volumes[i1]?
  if carveExcluded volume_1.mesh then
    pure volumes
  else
    (List.range volume_1_idx).foldlM
      (fun vols volume_2_idx => do
        let i2 ← ranked_volumes[volume_2_idx]?
        carvePair K alternate_carve_order i1 i2 vols)
      volumes

/-- The function `carveMultipleVolumes` (lines 17-68).  The global setting
`alternate_carve_order` of line 20 is an argument. -/
def carveMultipleVolumes (K : PolygonOps P)
    (stdSort : (Nat → Nat → Bool) → List Nat → List Nat)
    (alternate_carve_order : Bool) (volumes : List (Slicer P)) : Option (List (Slicer P)) :=
  (List.range' 1 (volumes.length - 1)).foldlM
    (carveVolume K alternate_carve_order (rankedVolumes stdSort volumes)) volumes

end Carve

/-! ## `generateMultipleVolumesOverlap` -/

section Overlap

variable {P : Type}

/-- The constant of line 79. -/
def offset_to_merge_other_merged_volumes : Int := 20

/-- The test of lines 85-87 and 99-101: the mesh takes no part in bonding. -/
def overlapExcluded (m : Mesh) : Bool :=
  m.settings.infill_mesh || m.settings.anti_overhang_mesh || m.settings.support_mesh

/-- Lines 96-110: `all_other_volumes` for the volume in slot `vi` at one layer. -/
def allOtherVolumes (K : PolygonOps P) (volumes : List (Slicer P)) (vi : Nat) (aabb : AABB3D)
    (fill_type : PolyFillType) (layer_nr : Nat) : Option P :=
  (List.range volumes.length).foldlM
    (fun all_other_volumes oi => do
      let other_volume ← volumes[oi]?
      if overlapExcluded other_volume.mesh
          || !(other_volume.mesh.getAABB.hit aabb)
          || oi == vi then
        pure all_other_volumes
      else do
        let other_volume_layer ← other_volume.layers[layer_nr]?
        pure (K.unionPolygons all_other_volumes
          (K.offset other_volume_layer.polygons offset_to_merge_other_merged_volumes) fill_type))
    K.empty

/-- Lines 96-113: the body of the layer loop for the volume in slot `vi`. -/
def overlapLayer (K : PolygonOps P) (vi : Nat) (aabb : AABB3D) (fill_type : PolyFillType)
    (overlap : Int) (volumes : List (Slicer P)) (layer_nr : Nat) : Option (List (Slicer P)) := do
  let all_other_volumes ← allOtherVolumes K volumes vi aabb fill_type layer_nr
  let volume ← volumes[vi]?
  let volume_layer ← volume.layers[layer_nr]?
  pure (writeLayer volumes vi layer_nr
    { volume_layer with
      polygons := K.unionPolygons volume_layer.polygons
        (K.intersection all_other_volumes (K.offset volume_layer.polygons (overlap.tdiv 2)))
        fill_type })

/-- Lines 82-114: the body of the loop over the volumes, for the volume in slot `vi`. -/
def overlapVolume (K : PolygonOps P) (volumes : List (Slicer P)) (vi : Nat) :
    Option (List (Slicer P)) := do
  let volume ← volumes[vi]?
  let fill_type :=
    if volume.mesh.settings.meshfix_union_all then PolyFillType.pftNonZero
    else PolyFillType.pftEvenOdd
  let overlap := volume.mesh.settings.multiple_mesh_overlap
  if overlapExcluded volume.mesh || overlap == 0 then
    pure volumes
  else
    let aabb := volume.mesh.getAABB.expandXY overlap
    (List.range volume.layers.length).foldlM (overlapLayer K vi aabb fill_type overlap) volumes

/-- The function `generateMultipleVolumesOverlap` (lines 72-116). -/
def generateMultipleVolumesOverlap (K : PolygonOps P) (volumes : List (Slicer P)) :
    Option (List (Slicer P)) :=
  if volumes.length < 2 then
    pure volumes
  else
    (List.range volumes.length).foldlM (overlapVolume K) volumes

end Overlap

/-! ## `MultiVolumes::carveCuttingMeshes` -/

namespace MultiVolumes

section Cutting

variable {P : Type}

/-- Lines 135-158: from the polygons and polylines of the cutting mesh at one layer,
the polygons and polylines it has afterwards and the area `*cutting_mesh_area`. -/
def cuttingMeshArea (K : PolygonOps P) (mode : ESurfaceMode)
    (cutting_mesh_polygons cutting_mesh_polylines : P) (surface_line_width : Int) :
    P × P × P :=
  if mode = ESurfaceMode.BOTH then
    (cutting_mesh_polygons, cutting_mesh_polylines,
      K.unionPolygons cutting_mesh_polygons
        (K.offsetPolyLine cutting_mesh_polylines (surface_line_width.tdiv 2))
        PolyFillType.pftNonZero)
  else if mode = ESurfaceMode.SURFACE then
    let polylines := K.add cutting_mesh_polylines (K.closePolygons cutting_mesh_polygons)
    (K.empty, polylines, K.offsetPolyLine polylines (surface_line_width.tdiv 2))
  else
    (cutting_mesh_polygons, cutting_mesh_polylines, cutting_mesh_polygons)

/-- Lines 164-181: the body of the loop over the carved meshes.  The state is the store
together with `new_outlines` and `new_polylines`. -/
def carveOne (K : PolygonOps P) (meshes : List Mesh) (mode : ESurfaceMode)
    (cutting_mesh_polygons cutting_mesh_polylines cutting_mesh_area : P) (layer_nr : Nat)
    (state : List (Slicer P) × P × P) (carved_mesh_idx : Nat) :
    Option (List (Slicer P) × P × P) := do
  let carved_mesh ← meshes[carved_mesh_idx]?
  if carved_mesh.settings.cutting_mesh || carved_mesh.settings.anti_overhang_mesh
      || carved_mesh.settings.support_mesh then
    pure state
  else do
    let carved_volume ← state.1[carved_mesh_idx]?
    let carved_layer ← carved_volume.layers[layer_nr]?
    let carved_mesh_layer := carved_layer.polygons
    let intersection := K.intersection cutting_mesh_polygons carved_mesh_layer
    let new_outlines := K.add state.2.1 intersection
    let new_polylines :=
      if mode ≠ ESurfaceMode.NORMAL then
        K.add state.2.2 (K.intersectionPolyLines carved_mesh_layer cutting_mesh_polylines)
      else state.2.2
    pure (writeLayer state.1 carved_mesh_idx layer_nr
        { carved_layer with polygons := K.difference carved_mesh_layer cutting_mesh_area },
      new_outlines, new_polylines)

/-- Lines 130-189: the body of the layer loop for the cutting mesh in slot
`carving_mesh_idx`. -/
def carveCuttingLayer (K : PolygonOps P) (meshes : List Mesh) (carving_mesh_idx : Nat)
    (cutting_mesh : Mesh) (volumes : List (Slicer P)) (layer_nr : Nat) :
    Option (List (Slicer P)) := do
  let cutting_mesh_volume ← volumes[carving_mesh_idx]?
  let cutting_layer ← cutting_mesh_volume.layers[layer_nr]?
  let surface_line_width := cutting_mesh.settings.wall_line_width_0
  let mode := cutting_mesh.settings.magic_mesh_surface_mode
  let area := cuttingMeshArea K mode cutting_layer.polygons cutting_layer.openPolylines
    surface_line_width
  let cutting_mesh_polygons := area.1
  let cutting_mesh_polylines := area.2.1
  let cutting_mesh_area := area.2.2
  let state ← (List.range volumes.length).foldlM
    (carveOne K meshes mode cutting_mesh_polygons cutting_mesh_polylines cutting_mesh_area
      layer_nr)
    (volumes, K.empty, K.empty)
  let new_outlines := state.2.1
  let new_polylines := state.2.2
  if mode ≠ ESurfaceMode.NORMAL then
    let stitched := K.stitch new_polylines surface_line_width
    pure (writeLayer state.1 carving_mesh_idx layer_nr
      { polygons := stitched.2, openPolylines := stitched.1 })
  else
    pure (writeLayer state.1 carving_mesh_idx layer_nr
      { polygons := K.unionSelf new_outlines, openPolylines := cutting_mesh_polylines })

/-- Lines 122-190: the body of the loop over the cutting meshes, for slot
`carving_mesh_idx`. -/
def carveCuttingMesh (K : PolygonOps P) (meshes : List Mesh) (volumes : List (Slicer P))
    (carving_mesh_idx : Nat) : Option (List (Slicer P)) := do
  let cutting_mesh ← meshes[carving_mesh_idx]?
  if !cutting_mesh.settings.cutting_mesh then
    pure volumes
  else do
    let cutting_mesh_volume ← volumes[carving_mesh_idx]?
    (List.range cutting_mesh_volume.layers.length).foldlM
      (carveCuttingLayer K meshes carving_mesh_idx cutting_mesh) volumes

/-- The function `MultiVolumes::carveCuttingMeshes` (lines 118-192). -/
def carveCuttingMeshes (K : PolygonOps P) (volumes : List (Slicer P)) (meshes : List Mesh) :
    Option (List (Slicer P)) :=
  (List.range volumes.length).foldlM (carveCuttingMesh K meshes) volumes

end Cutting

end MultiVolumes

/-! ## Areas as point sets -/

/-- A point of the layer plane. -/
abbrev Point : Type := Int × Int

/-- The operations on point sets that are not plain set operations. -/
structure PointSetPrims where
  /-- Outward offset of an area by a distance. -/
  offset : Finset Point → Int → Finset Point
  /-- Offset of a set of curves by a distance. -/
  offsetPolyLine : Finset Point → Int → Finset Point
  /-- The curves bounding an area. -/
  closePolygons : Finset Point → Finset Point
  /-- Stitching of curve fragments into lines and polygons. -/
  stitch : Finset Point → Int → Finset Point × Finset Point

/-- Modelled from the spec: the boolean polygon algebra ("union, difference,
intersection, directional offset of closed and open curves") is a primitive outside
the file under study.  Areas are read as sets of points: difference, intersection and
union are those of sets whatever the fill rule, appending paths is union, and the
offsets and the stitcher are those of `g`. -/
def pointSet (g : PointSetPrims) : PolygonOps (Finset Point) where
  empty := ∅
  difference a b := a \ b
  intersection a b := a ∩ b
  unionPolygons a b _ := a ∪ b
  offset := g.offset
  offsetPolyLine := g.offsetPolyLine
  intersectionPolyLines a b := a ∩ b
  add a b := a ∪ b
  closePolygons := g.closePolygons
  stitch := g.stitch

/-! ## Auxiliary definitions used to state the theorems -/

section Aux

variable {P : Type}

/-- The test of line 57, for volume_1 in slot `i1` and volume_2 in slot `i2`. -/
def carveCond (alt : Bool) (vs : List (Slicer P)) (i1 i2 L : Nat) : Bool :=
  alt && L % 2 == 0 && infillMeshOrder vs i1 == infillMeshOrder vs i2

/-- The closed area of slot `j` at layer `L` once the layer loop of lines 53-65 has run
for volume_1 in slot `i1` and volume_2 in slot `i2`, in terms of the areas before. -/
def pairArea (K : PolygonOps P) (alt : Bool) (vs : List (Slicer P)) (i1 i2 j L : Nat) :
    Option P :=
  match polygonsAt vs i1 L, polygonsAt vs i2 L with
  | some a1, some a2 =>
    if carveCond alt vs i1 i2 L then
      (if j = i2 then some (K.difference a2 a1) else polygonsAt vs j L)
    else
      (if j = i1 then some (K.difference a1 a2) else polygonsAt vs j L)
  | _, _ => polygonsAt vs j L

end Aux

section AuxPointSet

/-- A store whose areas are point sets. -/
abbrev Store : Type := List (Slicer (Finset Point))

/-- The contract of `std::sort` for a comparator that compares integer keys: the result
is a rearrangement of the input, in non-decreasing order of the keys. -/
def StdSortContract (stdSort : (Nat → Nat → Bool) → List Nat → List Nat) : Prop :=
  ∀ (key : Nat → Int) (l : List Nat),
    (stdSort (fun a b => decide (key a < key b)) l).Perm l ∧
    (stdSort (fun a b => decide (key a < key b)) l).Pairwise (fun a b => key a ≤ key b)

/-- Every slot of the store has `m` layers. -/
def Uniform {P : Type} (m : Nat) (vs : List (Slicer P)) : Prop :=
  ∀ (i : Nat) (v : Slicer P), vs[i]? = some v → v.layers.length = m

/-- The store `s` has the meshes and layer counts of `vs`, and every closed area of `s`
is contained in the area `vs` has in the same place. -/
def Shrinks (vs s : Store) : Prop :=
  shape s = shape vs ∧
    ∀ j L a, polygonsAt s j L = some a → ∃ a0, polygonsAt vs j L = some a0 ∧ a ⊆ a0

/-- The closed areas of the slots `i` and `j` are disjoint at every layer. -/
def PairOK (s : Store) (i j : Nat) : Prop :=
  ∀ L a b, polygonsAt s i L = some a → polygonsAt s j L = some b → Disjoint a b

/-- The slots `i1` and `i2` hold meshes that both take part in carving and whose
bounding boxes hit (the box of `i1` being the one asked). -/
def Active {P : Type} (vs : List (Slicer P)) (i1 i2 : Nat) : Prop :=
  ∃ v1 v2, vs[i1]? = some v1 ∧ vs[i2]? = some v2 ∧ carveExcluded v1.mesh = false ∧
    carveExcluded v2.mesh = false ∧ v1.mesh.getAABB.hit v2.mesh.getAABB = true

/-- The point `p` lies in the box. -/
def AABB3D.contains (a : AABB3D) (p : Point3) : Prop :=
  a.min.x ≤ p.x ∧ p.x ≤ a.max.x ∧ a.min.y ≤ p.y ∧ p.y ≤ a.max.y ∧ a.min.z ≤ p.z ∧ p.z ≤ a.max.z

instance (a : AABB3D) (p : Point3) : Decidable (a.contains p) := by
  unfold AABB3D.contains
  infer_instance

/-- Every closed area lies inside the bounding box of its mesh, layer `L` being at
height `layerZ L`. -/
def InsideAABB (layerZ : Nat → Int) (vs : Store) : Prop :=
  ∀ (i L : Nat) (v : Slicer (Finset Point)) (a : Finset Point),
    vs[i]? = some v → polygonsAt vs i L = some a →
    ∀ p ∈ a, v.mesh.getAABB.contains ⟨p.1, p.2, layerZ L⟩

end AuxPointSet

section AuxCutting

/-- The closed area of slot `j` at layer `L`, empty when there is no such layer. -/
def areaAt (vs : Store) (j L : Nat) : Finset Point :=
  (polygonsAt vs j L).getD ∅

/-- The union of the closed areas of all solids of the store at layer `L`. -/
def unionAt (vs : Store) (L : Nat) : Finset Point :=
  (Finset.range vs.length).biUnion (fun j => areaAt vs j L)

/-- The mesh in slot `j` passes the test of lines 166-167: it is carved by cutting
meshes. -/
def carvableAt (meshes : List Mesh) (j : Nat) : Bool :=
  match meshes[j]? with
  | some m =>
    !(m.settings.cutting_mesh || m.settings.anti_overhang_mesh || m.settings.support_mesh)
  | none => false

/-- The mesh in slot `j` is a cutting mesh. -/
def cuttingAt (meshes : List Mesh) (j : Nat) : Bool :=
  match meshes[j]? with
  | some m => m.settings.cutting_mesh
  | none => false

/-- The union, over the first `k` slots that are carved by cutting meshes, of the part
of their closed area at layer `L` that lies in `S`. -/
def carvedUnion (meshes : List Mesh) (vs : Store) (S : Finset Point) (L k : Nat) :
    Finset Point :=
  ((Finset.range k).filter (fun i => carvableAt meshes i = true)).biUnion
    (fun i => S ∩ areaAt vs i L)

/-- The closed area of slot `j` at layer `L` after the turn of a cutting mesh in area
mode in slot `c`, in terms of the areas before. -/
def cutArea (meshes : List Mesh) (vs : Store) (c j L : Nat) : Option (Finset Point) :=
  if j = c then
    (polygonsAt vs c L).map (fun S => carvedUnion meshes vs S L vs.length)
  else if carvableAt meshes j then
    (polygonsAt vs j L).map (fun C => C \ areaAt vs c L)
  else polygonsAt vs j L

end AuxCutting

section AuxCuttingUnion

/-- The union of the closed areas at layer `L` of the solids that are not cutting
meshes. -/
def nonCutUnion (meshes : List Mesh) (vs : Store) (L : Nat) : Finset Point :=
  ((Finset.range vs.length).filter (fun j => cuttingAt meshes j = false)).biUnion
    (fun j => areaAt vs j L)

/-- The union of the closed areas at layer `L` of the cutting meshes in the first `k`
slots. -/
def cutUnion (meshes : List Mesh) (vs : Store) (L k : Nat) : Finset Point :=
  ((Finset.range k).filter (fun j => cuttingAt meshes j = true)).biUnion
    (fun j => areaAt vs j L)

end AuxCuttingUnion

section AuxOverlap

/-- The other volume in slot `oi` passes the test of lines 99-103 for the volume in slot
`vi` and its expanded box `aabb`: its area is collected in `all_other_volumes`. -/
def bondEligible {P : Type} (vs : List (Slicer P)) (vi : Nat) (aabb : AABB3D) (oi : Nat) : Bool :=
  match vs[oi]? with
  | some ov => !(overlapExcluded ov.mesh || !(ov.mesh.getAABB.hit aabb) || oi == vi)
  | none => false

/-- The union, over the collected volumes among the first `k` slots, of their closed area
at layer `L` offset by the merge margin. -/
def neighbourArea (g : PointSetPrims) (vs : Store) (vi : Nat) (aabb : AABB3D) (L k : Nat) :
    Finset Point :=
  ((Finset.range k).filter (fun oi => bondEligible vs vi aabb oi = true)).biUnion
    (fun oi => g.offset (areaAt vs oi L) offset_to_merge_other_merged_volumes)

/-- The test of lines 85-88: the volume is passed over by the bonding loop. -/
def bondSkipped (m : Mesh) : Bool :=
  overlapExcluded m || m.settings.multiple_mesh_overlap == 0

/-- The closed area of slot `vi` at layer `L` after the turn of that slot in the bonding
loop, in terms of the areas before the turn. -/
def bondArea (g : PointSetPrims) (vs : Store) (vi L : Nat) : Option (Finset Point) :=
  match vs[vi]? with
  | none => none
  | some v =>
    if bondSkipped v.mesh then polygonsAt vs vi L
    else
      (polygonsAt vs vi L).map (fun A =>
        A ∪ (neighbourArea g vs vi
              (v.mesh.getAABB.expandXY v.mesh.settings.multiple_mesh_overlap) L vs.length
            ∩ g.offset A (v.mesh.settings.multiple_mesh_overlap.tdiv 2)))

/-- The store `s` has the meshes and layer counts of `vs`, and every closed area of `vs`
is contained in the area `s` has in the same place, with equality for the volumes that
the bonding loop passes over. -/
def Grows (vs s : Store) : Prop :=
  shape s = shape vs ∧
    ∀ (j L : Nat) (v : Slicer (Finset Point)) (a : Finset Point), vs[j]? = some v →
      polygonsAt vs j L = some a →
      ∃ a', polygonsAt s j L = some a' ∧ a ⊆ a' ∧ (bondSkipped v.mesh = true → a' = a)

end AuxOverlap

/-! ## A concrete instance: lattice points, box offsets, a stable sort -/

section Concrete

/-- Modelled from the spec: the "directional offset" of the polygon library is outside
the file under study.  On lattice points, the offset of an area by a distance `d` is
taken to be the set of the points within distance `d`, in both coordinates, of a point of
the area (the area itself for `d = 0`, nothing for a negative `d`). -/
def boxOffset (a : Finset Point) (d : Int) : Finset Point :=
  a.biUnion (fun p => Finset.Icc (p.1 - d) (p.1 + d) ×ˢ Finset.Icc (p.2 - d) (p.2 + d))

/-- Point sets with box offsets; curves are point sets too, closing a polygon adds no
point, and the stitcher returns the fragments as lines. -/
def boxPrims : PointSetPrims where
  offset := boxOffset
  offsetPolyLine := boxOffset
  closePolygons := id
  stitch := fun lines _ => (lines, ∅)

/-- Insertion of `x` into a list ordered by `lt`, after the elements that are not greater. -/
def insertSorted (lt : Nat → Nat → Bool) (x : Nat) : List Nat → List Nat
  | [] => [x]
  | y :: ys => if lt x y then x :: y :: ys else y :: insertSorted lt x ys

/-- A stable insertion sort: one behaviour that `std::sort` may have. -/
def stableSort (lt : Nat → Nat → Bool) (l : List Nat) : List Nat :=
  l.foldl (fun acc x => insertSorted lt x acc) []

/-- Settings of an ordinary mesh: no flag set, normal surface mode, order and overlap 0. -/
def plainSettings : Settings where
  infill_mesh := false
  anti_overhang_mesh := false
  support_mesh := false
  cutting_mesh := false
  magic_mesh_surface_mode := ESurfaceMode.NORMAL
  infill_mesh_order := 0
  multiple_mesh_overlap := 0
  meshfix_union_all := false
  wall_line_width_0 := 0

/-- The box with corners `(x0, y0, 0)` and `(x1, y1, 0)`. -/
def flatBox (x0 y0 x1 y1 : Int) : AABB3D :=
  { min := { x := x0, y := y0, z := 0 }, max := { x := x1, y := y1, z := 0 } }

/-- A solid whose closed areas are those of the list, one per layer, and which has no
open polylines. -/
def solidOf (settings : Settings) (aabb : AABB3D) (areas : List (Finset Point)) :
    Slicer (Finset Point) :=
  { mesh := { settings := settings, aabb := aabb }
    layers := areas.map (fun a => { polygons := a, openPolylines := ∅ }) }

/-- A bar of two points, one layer, `infill_mesh_order` 0. -/
def barLeft : Slicer (Finset Point) :=
  solidOf plainSettings (flatBox 0 0 1 0) [{(0, 0), (1, 0)}]

/-- A bar of two points sharing the point `(1, 0)` with `barLeft`, `infill_mesh_order` 1. -/
def barRight : Slicer (Finset Point) :=
  solidOf { plainSettings with infill_mesh_order := 1 } (flatBox 1 0 2 0) [{(1, 0), (2, 0)}]

/-- A bar of two points on two layers, `infill_mesh_order` 0. -/
def twinLow : Slicer (Finset Point) :=
  solidOf plainSettings (flatBox 0 0 1 0) [{(0, 0), (1, 0)}, {(0, 0), (1, 0)}]

/-- The same bar on two layers, `infill_mesh_order` 1. -/
def twinHigh : Slicer (Finset Point) :=
  solidOf { plainSettings with infill_mesh_order := 1 } (flatBox 0 0 1 0)
    [{(0, 0), (1, 0)}, {(0, 0), (1, 0)}]

/-- A single point at the origin, overlap 0. -/
def dotOrigin : Slicer (Finset Point) :=
  solidOf plainSettings (flatBox 0 0 0 0) [{(0, 0)}]

/-- A single point at `(x, 0)`, overlap 0. -/
def dotAt (x : Int) : Slicer (Finset Point) :=
  solidOf plainSettings (flatBox x 0 x 0) [{(x, 0)}]

/-- A single point at the origin with `multiple_mesh_overlap` equal to `w`. -/
def bondDot (w : Int) : Slicer (Finset Point) :=
  solidOf { plainSettings with multiple_mesh_overlap := w } (flatBox 0 0 0 0) [{(0, 0)}]

/-- A cutting mesh in NORMAL surface mode: a bar of two points. -/
def stencilBar : Slicer (Finset Point) :=
  solidOf { plainSettings with cutting_mesh := true } (flatBox 0 0 1 0) [{(0, 0), (1, 0)}]

end Concrete

section AuxCarveFrame

/-- The mesh in slot `k` takes part in carving: it passes the test of lines 30-33. -/
def carverAt {P : Type} (vs : List (Slicer P)) (k : Nat) : Bool :=
  match vs[k]? with
  | some v => !carveExcluded v.mesh
  | none => false

/-- The union of the closed areas at layer `L` of the solids other than `j` that take
part in carving. -/
def carverUnion (vs : Store) (j L : Nat) : Finset Point :=
  ((Finset.range vs.length).filter (fun k => k ≠ j ∧ carverAt vs k = true)).biUnion
    (fun k => areaAt vs k L)

/-- Every closed area of `s` is what is left of the area `vs` has in the same place after
removing points of other solids that take part in carving, and it is that area itself for
a solid that takes no part in carving. -/
def CarvedFrom (vs s : Store) : Prop :=
  ∀ (j L : Nat) (a0 : Finset Point), polygonsAt vs j L = some a0 →
    ∃ a, polygonsAt s j L = some a ∧ a ⊆ a0 ∧ a0 \ carverUnion vs j L ⊆ a ∧
      (carverAt vs j = false → a = a0)

/-- The bar `barRight` in surface+interior mode. -/
def barRightBoth : Slicer (Finset Point) :=
  solidOf { plainSettings with
      infill_mesh_order := 1, magic_mesh_surface_mode := ESurfaceMode.BOTH }
    (flatBox 1 0 2 0) [{(1, 0), (2, 0)}]

/-- The bar `barLeft` in surface+interior mode. -/
def barLeftBoth : Slicer (Finset Point) :=
  solidOf { plainSettings with magic_mesh_surface_mode := ESurfaceMode.BOTH }
    (flatBox 0 0 1 0) [{(0, 0), (1, 0)}]

/-- The bar `barLeft` in surface-only mode. -/
def barLeftSurface : Slicer (Finset Point) :=
  solidOf { plainSettings with magic_mesh_surface_mode := ESurfaceMode.SURFACE }
    (flatBox 0 0 1 0) [{(0, 0), (1, 0)}]

end AuxCarveFrame

section AuxBand

/-- Every closed area of `s` is the area `A` that `vs` has in the same place together with
a band `N ∩ offset(A, w/2)`, `w` being the overlap of the solid; for a volume that the
bonding loop passes over it is `A` itself. -/
def Banded (g : PointSetPrims) (vs s : Store) : Prop :=
  ∀ (j L : Nat) (v : Slicer (Finset Point)), vs[j]? = some v →
    (bondSkipped v.mesh = true → polygonsAt s j L = polygonsAt vs j L) ∧
    ∃ N, polygonsAt s j L = (polygonsAt vs j L).map (fun A =>
      A ∪ (N ∩ g.offset A (v.mesh.settings.multiple_mesh_overlap.tdiv 2)))

end AuxBand

/-! ## Polygons as vertex lists -/

section AuxVertex

/-- The type `ClipperLib::Path`: the vertices of one polygon or polyline. -/
abbrev Path : Type := List Point

/-- The type `ClipperLib::Paths`, which the class `Polygons` wraps. -/
abbrev Paths : Type := List Path

/-- The statement `poly.add(poly[0])` of line 147: the first vertex appended at the end.
(A path without vertex has no first vertex; it is left as it is.) -/
def closePath (poly : Path) : Path :=
  match poly with
  | [] => []
  | p :: rest => p :: rest ++ [p]

/-- The operations of the polygon library on vertex lists, taken as given. -/
structure PathPrims where
  /-- The method `Polygons::difference`. -/
  difference : Paths → Paths → Paths
  /-- The method `Polygons::intersection`. -/
  intersection : Paths → Paths → Paths
  /-- The method `Polygons::unionPolygons(other, fill_type)`. -/
  unionPolygons : Paths → Paths → PolyFillType → Paths
  /-- The method `Polygons::offset(distance)`. -/
  offset : Paths → Int → Paths
  /-- The method `Polygons::offsetPolyLine(distance)`. -/
  offsetPolyLine : Paths → Int → Paths
  /-- The method `Polygons::intersectionPolyLines(polylines)`. -/
  intersectionPolyLines : Paths → Paths → Paths
  /-- The call `PolylineStitcher::stitch`: the pair of the lines and the polygons. -/
  stitch : Paths → Int → Paths × Paths

/-- Polygons as lists of vertex lists: `add` appends the paths, the loop of lines 145-148
closes every path, and the boolean operations, offsets and stitcher are those of `c`. -/
def vertexOps (c : PathPrims) : PolygonOps Paths where
  empty := []
  difference := c.difference
  intersection := c.intersection
  unionPolygons := c.unionPolygons
  offset := c.offset
  offsetPolyLine := c.offsetPolyLine
  intersectionPolyLines := c.intersectionPolyLines
  add a b := a ++ b
  closePolygons polys := polys.map closePath
  stitch := c.stitch

/-- Operations that treat every path as one indivisible piece: difference and
intersection keep or drop whole paths, union appends, offsets change nothing and the
stitcher returns the lines.  They only serve to run the vertex bookkeeping on examples. -/
def atomPrims : PathPrims where
  difference a b := a.filter (fun p => decide (p ∉ b))
  intersection a b := a.filter (fun p => decide (p ∈ b))
  unionPolygons a b _ := a ++ b
  offset a _ := a
  offsetPolyLine a _ := a
  intersectionPolyLines a b := b.filter (fun p => decide (p ∈ a))
  stitch lines _ := (lines, [])

/-- A triangle, as a closed polygon. -/
def triangle : Path := [(0, 0), (4, 0), (0, 4)]

/-- A solid on vertex lists with one layer. -/
def pathSolid (settings : Settings) (aabb : AABB3D) (polygons openPolylines : Paths) :
    Slicer Paths :=
  { mesh := { settings := settings, aabb := aabb }
    layers := [{ polygons := polygons, openPolylines := openPolylines }] }

end AuxVertex

section AuxVertexExamples

/-- A cutting mesh in surface-only mode whose only layer holds the triangle as a closed
polygon. -/
def stencilSurface : Slicer Paths :=
  pathSolid { plainSettings with
      cutting_mesh := true, magic_mesh_surface_mode := ESurfaceMode.SURFACE,
      wall_line_width_0 := 4 }
    (flatBox 0 0 4 4) [triangle] []

/-- An ordinary solid on vertex lists: a square. -/
def pathBlock : Slicer Paths :=
  pathSolid plainSettings (flatBox 0 0 4 4) [[(0, 0), (4, 0), (4, 4), (0, 4)]] []

end AuxVertexExamples

/-! ## The library function `std::sort` -/

section StdSort

/-- An assignment through an iterator, `*(first + i) = x`: the position must be one of
the vector. -/
def assign (v : List Nat) (i x : Nat) : Option (List Nat) :=
  if i < v.length then some (v.set i x) else none

/-- The function `std::iter_swap` on the positions `a` and `b` of the vector. -/
def iter_swap (a b : Nat) (v : List Nat) : Option (List Nat) := do
  let x ← v[a]?
  let y ← v[b]?
  some ((v.set a y).set b x)

/-- The function `std::__lg`: the position of the highest set bit (`lgLoop n n`). -/
def lgLoop : Nat → Nat → Nat
  | 0, _ => 0
  | k + 1, n => if 2 ≤ n then lgLoop k (n / 2) + 1 else 0

/-- The function `std::__move_median_to_first` (stl_algo.h). -/
def move_median_to_first (comp : Nat → Nat → Bool) (result a b c : Nat) (v : List Nat) :
    Option (List Nat) := do
  let va ← v[a]?
  let vb ← v[b]?
  let vc ← v[c]?
  if comp va vb then
    if comp vb vc then iter_swap result b v
    else if comp va vc then iter_swap result c v
    else iter_swap result a v
  else if comp va vc then iter_swap result a v
  else if comp vb vc then iter_swap result c v
  else iter_swap result b v

/-- The first inner loop of `std::__unguarded_partition`,
`while (comp(first, pivot)) ++first;`.  The first argument counts the reads that are
left before the end of the vector is passed. -/
def partition_up (comp : Nat → Nat → Bool) (pivot : Nat) (v : List Nat) :
    Nat → Nat → Option Nat
  | 0, _ => none
  | k + 1, first => do
    let x ← v[first]?
    let p ← v[pivot]?
    if comp x p then partition_up comp pivot v k (first + 1) else some first

/-- The second inner loop of `std::__unguarded_partition`,
`while (comp(pivot, last)) --last;`.  Below position 0 there is nothing to read. -/
def partition_down (comp : Nat → Nat → Bool) (pivot : Nat) (v : List Nat) : Nat → Option Nat
  | 0 => do
    let x ← v[0]?
    let p ← v[pivot]?
    if comp p x then none else some 0
  | last + 1 => do
    let x ← v[last + 1]?
    let p ← v[pivot]?
    if comp p x then partition_down comp pivot v last else some (last + 1)

/-- The function `std::__unguarded_partition` (stl_algo.h).  The first argument counts
the rounds of the outer loop that are left; each round lowers `last`. -/
def unguarded_partition (comp : Nat → Nat → Bool) (pivot : Nat) :
    Nat → Nat → Nat → List Nat → Option (Nat × List Nat)
  | 0, _, _, _ => none
  | k + 1, first, last, v => do
    let first ← partition_up comp pivot v (v.length + 1 - first) first
    match last with
    | 0 => none
    | l + 1 => do
      let last ← partition_down comp pivot v l
      if first < last then
        unguarded_partition comp pivot k (first + 1) last (← iter_swap first last v)
      else some (first, v)

/-- The function `std::__unguarded_partition_pivot` (stl_algo.h). -/
def unguarded_partition_pivot (comp : Nat → Nat → Bool) (first last : Nat) (v : List Nat) :
    Option (Nat × List Nat) := do
  let mid := first + (last - first) / 2
  let v ← move_median_to_first comp first (first + 1) mid (last - 1) v
  unguarded_partition comp first (last + 1) (first + 1) last v

/-- The loop of `std::__push_heap` (stl_heap.h), with the final assignment.  The first
argument counts the rounds that are left; each round moves the hole to its parent. -/
def push_heap (comp : Nat → Nat → Bool) (first topIndex value : Nat) :
    Nat → Nat → List Nat → Option (List Nat)
  | 0, _, _ => none
  | k + 1, holeIndex, v =>
    let parent := (holeIndex - 1) / 2
    if holeIndex > topIndex then do
      let p ← v[first + parent]?
      if comp p value then
        push_heap comp first topIndex value k parent (← assign v (first + holeIndex) p)
      else assign v (first + holeIndex) value
    else assign v (first + holeIndex) value

/-- The first loop of `std::__adjust_heap` (stl_heap.h): the hole goes down to a leaf,
each time to the greater child.  `holeIndex` and `secondChild` are equal at the head of
the loop; the first argument counts the rounds that are left. -/
def adjust_heap_down (comp : Nat → Nat → Bool) (first len : Nat) :
    Nat → Nat → List Nat → Option (Nat × List Nat)
  | 0, _, _ => none
  | k + 1, holeIndex, v =>
    if holeIndex < (len - 1) / 2 then do
      let secondChild := 2 * (holeIndex + 1)
      let x ← v[first + secondChild]?
      let y ← v[first + (secondChild - 1)]?
      let secondChild := if comp x y then secondChild - 1 else secondChild
      let c ← v[first + secondChild]?
      adjust_heap_down comp first len k secondChild (← assign v (first + holeIndex) c)
    else some (holeIndex, v)

/-- The function `std::__adjust_heap` (stl_heap.h).  The distances are signed in the
source, so `(len - 2) / 2` is computed in the integers. -/
def adjust_heap (comp : Nat → Nat → Bool) (first holeIndex len value : Nat) (v : List Nat) :
    Option (List Nat) := do
  let topIndex := holeIndex
  let (secondChild, v) ← adjust_heap_down comp first len (len + 1) holeIndex v
  if len % 2 = 0 ∧ (secondChild : Int) = ((len : Int) - 2).tdiv 2 then do
    let child := 2 * (secondChild + 1)
    let x ← v[first + (child - 1)]?
    let v ← assign v (first + secondChild) x
    push_heap comp first topIndex value child (child - 1) v
  else push_heap comp first topIndex value (secondChild + 1) secondChild v

/-- The function `std::__pop_heap` (stl_heap.h). -/
def pop_heap (comp : Nat → Nat → Bool) (first last result : Nat) (v : List Nat) :
    Option (List Nat) := do
  let value ← v[result]?
  let top ← v[first]?
  let v ← assign v result top
  adjust_heap comp first 0 (last - first) value v

/-- The loop of `std::__make_heap` (stl_heap.h), from `parent` down to 0. -/
def make_heap_loop (comp : Nat → Nat → Bool) (first len : Nat) :
    Nat → List Nat → Option (List Nat)
  | 0, v => do
    let value ← v[first]?
    adjust_heap comp first 0 len value v
  | parent + 1, v => do
    let value ← v[first + (parent + 1)]?
    let v ← adjust_heap comp first (parent + 1) len value v
    make_heap_loop comp first len parent v

/-- The function `std::__make_heap` (stl_heap.h). -/
def make_heap (comp : Nat → Nat → Bool) (first last : Nat) (v : List Nat) :
    Option (List Nat) :=
  if last - first < 2 then some v
  else make_heap_loop comp first (last - first) ((last - first - 2) / 2) v

/-- The function `std::__sort_heap` (stl_heap.h); the recursion is on `last`. -/
def sort_heap (comp : Nat → Nat → Bool) (first : Nat) : Nat → List Nat → Option (List Nat)
  | 0, v => some v
  | last + 1, v =>
    if last + 1 - first > 1 then do
      let v ← pop_heap comp first last last v
      sort_heap comp first last v
    else some v

/-- The function `std::__heap_select` (stl_algo.h). -/
def heap_select (comp : Nat → Nat → Bool) (first middle last : Nat) (v : List Nat) :
    Option (List Nat) := do
  let v ← make_heap comp first middle v
  (List.range' middle (last - middle)).foldlM
    (fun v i => do
      let x ← v[i]?
      let top ← v[first]?
      if comp x top then pop_heap comp first middle i v else some v)
    v

/-- The function `std::__partial_sort` (stl_algo.h). -/
def partial_sort (comp : Nat → Nat → Bool) (first middle last : Nat) (v : List Nat) :
    Option (List Nat) := do
  let v ← heap_select comp first middle last v
  sort_heap comp first middle v

/-- The loop of `std::__unguarded_linear_insert` (stl_algo.h), with the final
assignment.  The argument is `last`, and `next` is the position before it: there is
none before position 0. -/
def unguarded_linear_insert_loop (comp : Nat → Nat → Bool) (val : Nat) :
    Nat → List Nat → Option (List Nat)
  | 0, _ => none
  | next + 1, v => do
    let x ← v[next]?
    if comp val x then
      unguarded_linear_insert_loop comp val next (← assign v (next + 1) x)
    else assign v (next + 1) val

/-- The function `std::__unguarded_linear_insert` (stl_algo.h). -/
def unguarded_linear_insert (comp : Nat → Nat → Bool) (last : Nat) (v : List Nat) :
    Option (List Nat) := do
  let val ← v[last]?
  unguarded_linear_insert_loop comp val last v

/-- The function `std::move_backward` for `d_last = last + 1`: the loop
`while (first != last) *(--d_last) = *(--last);`, the recursion being on the number
`last - first` of elements. -/
def move_backward (first : Nat) : Nat → List Nat → Option (List Nat)
  | 0, v => some v
  | k + 1, v => do
    let x ← v[first + k]?
    move_backward first k (← assign v (first + k + 1) x)

/-- The function `std::__insertion_sort` (stl_algo.h). -/
def insertion_sort (comp : Nat → Nat → Bool) (first last : Nat) (v : List Nat) :
    Option (List Nat) :=
  if first = last then some v
  else
    (List.range' (first + 1) (last - (first + 1))).foldlM
      (fun v i => do
        let x ← v[i]?
        let y ← v[first]?
        if comp x y then do
          let v ← move_backward first (i - first) v
          assign v first x
        else unguarded_linear_insert comp i v)
      v

/-- The function `std::__unguarded_insertion_sort` (stl_algo.h). -/
def unguarded_insertion_sort (comp : Nat → Nat → Bool) (first last : Nat) (v : List Nat) :
    Option (List Nat) :=
  (List.range' first (last - first)).foldlM (fun v i => unguarded_linear_insert comp i v) v

/-- The constant `_S_threshold` (stl_algo.h). -/
def S_threshold : Nat := 16

/-- The function `std::__final_insertion_sort` (stl_algo.h). -/
def final_insertion_sort (comp : Nat → Nat → Bool) (first last : Nat) (v : List Nat) :
    Option (List Nat) :=
  if last - first > S_threshold then do
    let v ← insertion_sort comp first (first + S_threshold) v
    unguarded_insertion_sort comp (first + S_threshold) last v
  else insertion_sort comp first last v

/-- The function `std::__introsort_loop` (stl_algo.h).  Every round of the loop lowers
`depth_limit`, for the call on the upper part and for the next round alike, so the
recursion is on `depth_limit`. -/
def introsort_loop (comp : Nat → Nat → Bool) :
    Nat → Nat → Nat → List Nat → Option (List Nat)
  | 0, first, last, v =>
    if last - first > S_threshold then partial_sort comp first last last v else some v
  | depth_limit + 1, first, last, v =>
    if last - first > S_threshold then do
      let (cut, v) ← unguarded_partition_pivot comp first last v
      let v ← introsort_loop comp depth_limit cut last v
      introsort_loop comp depth_limit first cut v
    else some v

/-- The function `std::sort` of the C++ library the program is built with (libstdc++,
`std::__sort` of stl_algo.h), on the whole vector.  A read or an assignment outside
the vector gives `none`. -/
def sort (comp : Nat → Nat → Bool) (v : List Nat) : Option (List Nat) :=
  let first := 0
  let last := v.length
  if first ≠ last then do
    let v ← introsort_loop comp (lgLoop (last - first) (last - first) * 2) first last v
    final_insertion_sort comp first last v
  else some v

/-- The sort handed to `carveMultipleVolumes`: the vector as `std::sort` leaves it.  (A
run of `sort` that leaves the vector has no result; `sort_total` shows there is none
for a comparator of keys.) -/
def std_sort (comp : Nat → Nat → Bool) (v : List Nat) : List Nat :=
  (sort comp v).getD v

end StdSort

section AuxRank

/-- Seventeen single points in a row, `(0, 0)` to `(16, 0)`, all of `infill_mesh_order` 0. -/
def tiedStore : Store :=
  (List.range 17).map (fun i => dotAt (i : Int))

end AuxRank

section AuxHeap

/-- The heap order of the `len` elements from position `first`, for the nodes from `k`
on: no child is above its parent. -/
def HeapFrom (key : Nat → Int) (v : List Nat) (first len k : Nat) : Prop :=
  ∀ c, 0 < c → c < len → k ≤ (c - 1) / 2 →
    key (v.getD (first + c) 0) ≤ key (v.getD (first + (c - 1) / 2) 0)

/-- The nodes below `top` in the heap, `top` included. -/
inductive Desc (top : Nat) : Nat → Prop
  | self : Desc top top
  | left (h : Nat) : Desc top h → Desc top (2 * h + 1)
  | right (h : Nat) : Desc top h → Desc top (2 * h + 2)

end AuxHeap

/-! # Theorems -/

/-! ## Loops -/

/-- A loop invariant for `List.foldlM` in `Option`: when every step taken from a state
satisfying the invariant succeeds and re-establishes it, the loop succeeds. -/
theorem foldlM_inv {α σ : Type} (f : σ → α → Option σ) (Inv : Nat → σ → Prop) (l : List α) :
    ∀ (k : Nat) (s : σ), Inv k s →
      (∀ j (hj : j < l.length) s, Inv (k + j) s → ∃ s', f s l[j] = some s' ∧ Inv (k + j + 1) s') →
      ∃ s', l.foldlM f s = some s' ∧ Inv (k + l.length) s' := by
  induction l with
  | nil => intro k s h _; exact ⟨s, rfl, h⟩
  | cons x xs ih =>
    intro k s h hstep
    obtain ⟨s1, hs1, hinv1⟩ := hstep 0 (by simp) s h
    simp only [List.getElem_cons_zero] at hs1
    obtain ⟨s2, hs2, hinv2⟩ := ih (k + 1) s1 hinv1 (by
      intro j hj t ht
      have := hstep (j + 1) (by simpa using hj) t (by rwa [show k + (j + 1) = k + 1 + j by omega])
      simpa [show k + (j + 1) + 1 = k + 1 + j + 1 by omega] using this)
    refine ⟨s2, ?_, ?_⟩
    · simp [List.foldlM_cons, hs1, hs2]
    · rwa [show k + (x :: xs).length = k + 1 + xs.length by simp; omega]

theorem foldlM_range_inv {σ : Type} (f : σ → Nat → Option σ) (Inv : Nat → σ → Prop) (n : Nat)
    (s : σ) (h0 : Inv 0 s)
    (hstep : ∀ j, j < n → ∀ s, Inv j s → ∃ s', f s j = some s' ∧ Inv (j + 1) s') :
    ∃ s', (List.range n).foldlM f s = some s' ∧ Inv n s' := by
  have := foldlM_inv f Inv (List.range n) 0 s h0 (by
    intro j hj t ht
    have hj' : j < n := by simpa using hj
    simpa using hstep j hj' t (by simpa using ht))
  simpa using this

/-! ## The store -/

section Store
variable {P : Type}

theorem shape_writeLayer (vs : List (Slicer P)) (i L : Nat) (x : SlicerLayer P) :
    shape (writeLayer vs i L x) = shape vs := by
  unfold writeLayer
  cases h : vs[i]? with
  | none => rfl
  | some v =>
    simp only [shape]
    apply List.ext_getElem?
    intro j
    simp only [List.getElem?_map, List.getElem?_set]
    by_cases hij : i = j
    · subst hij
      have hi : i < vs.length := by
        rcases Nat.lt_or_ge i vs.length with h1 | h1
        · exact h1
        · simp [List.getElem?_eq_none h1] at h
      simp [hi, h]
    · simp [hij]

theorem layerAt_writeLayer (vs : List (Slicer P)) (i L : Nat) (x : SlicerLayer P) (j L' : Nat) :
    layerAt (writeLayer vs i L x) j L' =
      if j = i ∧ L' = L then (layerAt vs i L).map (fun _ => x) else layerAt vs j L' := by
  unfold writeLayer
  cases h : vs[i]? with
  | none =>
    by_cases hc : j = i ∧ L' = L
    · obtain ⟨rfl, rfl⟩ := hc
      simp [layerAt, h]
    · simp [hc]
  | some v =>
    have hi : i < vs.length := by
      rcases Nat.lt_or_ge i vs.length with h1 | h1
      · exact h1
      · simp [List.getElem?_eq_none h1] at h
    by_cases hji : j = i
    · subst hji
      simp only [layerAt, List.getElem?_set_self hi, h, true_and]
      by_cases hL : L' = L
      · subst hL
        simp only [if_true]
        rcases Nat.lt_or_ge L' v.layers.length with h1 | h1
        · simp [List.getElem?_set_self h1, List.getElem?_eq_getElem h1]
        · simp [List.getElem?_eq_none h1, List.set_eq_of_length_le h1]
      · simp [hL, List.getElem?_set_ne (Ne.symm hL)]
    · simp [layerAt, hji, List.getElem?_set_ne (Ne.symm hji)]

theorem polygonsAt_writeLayer (vs : List (Slicer P)) (i L : Nat) (x : SlicerLayer P) (j L' : Nat) :
    polygonsAt (writeLayer vs i L x) j L' =
      if j = i ∧ L' = L then (polygonsAt vs i L).map (fun _ => x.polygons)
      else polygonsAt vs j L' := by
  unfold polygonsAt
  rw [layerAt_writeLayer]
  split <;> simp [Option.map_map, Function.comp_def]

theorem shape_length {a b : List (Slicer P)} (h : shape a = shape b) : a.length = b.length := by
  have := congrArg List.length h
  simpa [shape] using this

theorem shape_getElem? {a b : List (Slicer P)} (h : shape a = shape b) {i : Nat} {v : Slicer P}
    (hv : a[i]? = some v) :
    ∃ w, b[i]? = some w ∧ w.mesh = v.mesh ∧ w.layers.length = v.layers.length := by
  have h1 : (shape a)[i]? = (shape b)[i]? := by rw [h]
  simp only [shape, List.getElem?_map, hv, Option.map_some'] at h1
  cases hb : b[i]? with
  | none => simp [hb] at h1
  | some w =>
    simp only [hb, Option.map_some', Option.some.injEq, Prod.mk.injEq] at h1
    exact ⟨w, rfl, h1.1.symm, h1.2.symm⟩

end Store

/-! ## `carveMultipleVolumes`: one layer of one pair -/

section CarveLemmas
variable {P : Type}

theorem layerAt_eq_some {vs : List (Slicer P)} {i L : Nat} {v : Slicer P}
    (hv : vs[i]? = some v) (hL : L < v.layers.length) :
    layerAt vs i L = some v.layers[L] := by
  simp [layerAt, hv, List.getElem?_eq_getElem hL]

theorem polygonsAt_eq_some {vs : List (Slicer P)} {i L : Nat} {v : Slicer P}
    (hv : vs[i]? = some v) (hL : L < v.layers.length) :
    polygonsAt vs i L = some v.layers[L].polygons := by
  simp [polygonsAt, layerAt_eq_some hv hL]

theorem polygonsAt_eq_none {vs : List (Slicer P)} {i L : Nat} {v : Slicer P}
    (hv : vs[i]? = some v) (hL : v.layers.length ≤ L) :
    polygonsAt vs i L = none := by
  simp [polygonsAt, layerAt, hv, List.getElem?_eq_none hL]

theorem infillMeshOrder_shape {a b : List (Slicer P)} (h : shape a = shape b) (i : Nat) :
    infillMeshOrder a i = infillMeshOrder b i := by
  unfold infillMeshOrder
  cases ha : a[i]? with
  | none =>
    have : b[i]? = none := by
      have hl := shape_length h
      rw [List.getElem?_eq_none_iff] at ha ⊢
      omega
    simp [this]
  | some v =>
    obtain ⟨w, hw, hm, _⟩ := shape_getElem? h ha
    simp [hw, hm]

theorem carveLayer_spec (K : PolygonOps P) (alt : Bool) (i1 i2 : Nat) (s : List (Slicer P))
    (L : Nat) {w1 w2 : Slicer P} (h1 : s[i1]? = some w1) (h2 : s[i2]? = some w2)
    (hL1 : L < w1.layers.length) (hL2 : L < w2.layers.length) :
    ∃ s', carveLayer K alt i1 i2 s L = some s' ∧ shape s' = shape s ∧
      ∀ j L', polygonsAt s' j L' = if L' = L then pairArea K alt s i1 i2 j L
        else polygonsAt s j L' := by
  have e1 := polygonsAt_eq_some h1 hL1
  have e2 := polygonsAt_eq_some h2 hL2
  have ho1 : infillMeshOrder s i1 = w1.mesh.settings.infill_mesh_order := by
    simp [infillMeshOrder, h1]
  have ho2 : infillMeshOrder s i2 = w2.mesh.settings.infill_mesh_order := by
    simp [infillMeshOrder, h2]
  by_cases hc : carveCond alt s i1 i2 L = true
  · refine ⟨writeLayer s i2 L { w2.layers[L] with
      polygons := K.difference w2.layers[L].polygons w1.layers[L].polygons }, ?_, ?_, ?_⟩
    · have hc' := hc
      simp only [carveCond, ho1, ho2] at hc'
      simp only [carveLayer, h1, h2, List.getElem?_eq_getElem hL1, List.getElem?_eq_getElem hL2,
        Option.bind_eq_bind, Option.some_bind, hc', if_true]
      rfl
    · exact shape_writeLayer _ _ _ _
    · intro j L'
      rw [polygonsAt_writeLayer]
      by_cases hL : L' = L
      · subst hL
        simp only [pairArea, e1, e2, hc, if_true, and_true]
        by_cases hj : j = i2
        · subst hj; simp
        · simp [hj]
      · simp [hL]
  · refine ⟨writeLayer s i1 L { w1.layers[L] with
      polygons := K.difference w1.layers[L].polygons w2.layers[L].polygons }, ?_, ?_, ?_⟩
    · have hc' := hc
      simp only [carveCond, ho1, ho2] at hc'
      simp only [carveLayer, h1, h2, List.getElem?_eq_getElem hL1, List.getElem?_eq_getElem hL2,
        Option.bind_eq_bind, Option.some_bind, hc', if_false]
      rfl
    · exact shape_writeLayer _ _ _ _
    · intro j L'
      rw [polygonsAt_writeLayer]
      by_cases hL : L' = L
      · subst hL
        simp only [pairArea, e1, e2, hc, if_true, and_true]
        by_cases hj : j = i1
        · subst hj; simp
        · simp [hj]
      · simp [hL]
end CarveLemmas

/-! ## `carveMultipleVolumes`: the layer loop and the inner-loop body -/

section CarvePairLemmas
variable {P : Type}

theorem carveCond_shape {a b : List (Slicer P)} (h : shape a = shape b) (alt : Bool)
    (i1 i2 L : Nat) : carveCond alt a i1 i2 L = carveCond alt b i1 i2 L := by
  simp [carveCond, infillMeshOrder_shape h]

theorem pairArea_congr (K : PolygonOps P) (alt : Bool) {s vs : List (Slicer P)}
    (hshape : shape s = shape vs) (i1 i2 j L : Nat)
    (hsame : ∀ j, polygonsAt s j L = polygonsAt vs j L) :
    pairArea K alt s i1 i2 j L = pairArea K alt vs i1 i2 j L := by
  simp [pairArea, hsame, carveCond_shape hshape]

theorem pairArea_of_none (K : PolygonOps P) (alt : Bool) (vs : List (Slicer P))
    (i1 i2 j L : Nat) (h : polygonsAt vs i1 L = none) :
    pairArea K alt vs i1 i2 j L = polygonsAt vs j L := by
  simp [pairArea, h]

/-- The layer loop of lines 53-65, run for two slots whose second has at least as many
layers as the first, succeeds and yields the areas `pairArea`. -/
theorem carveLayers_spec (K : PolygonOps P) (alt : Bool) (i1 i2 : Nat) (vs : List (Slicer P))
    {v1 v2 : Slicer P} (h1 : vs[i1]? = some v1) (h2 : vs[i2]? = some v2)
    (hlen : v1.layers.length ≤ v2.layers.length) :
    ∃ out, (List.range v1.layers.length).foldlM (carveLayer K alt i1 i2) vs = some out ∧
      shape out = shape vs ∧ ∀ j L, polygonsAt out j L = pairArea K alt vs i1 i2 j L := by
  obtain ⟨out, hout, hshape, harea⟩ := foldlM_range_inv (carveLayer K alt i1 i2)
    (fun k s => shape s = shape vs ∧
      ∀ j L, polygonsAt s j L = if L < k then pairArea K alt vs i1 i2 j L else polygonsAt vs j L)
    v1.layers.length vs ⟨rfl, by intro j L; simp⟩
    (by
      intro k hk s ⟨hs, ha⟩
      obtain ⟨w1, hw1, _, hl1⟩ := shape_getElem? hs.symm h1
      obtain ⟨w2, hw2, _, hl2⟩ := shape_getElem? hs.symm h2
      obtain ⟨s', hs', hshape', ha'⟩ := carveLayer_spec K alt i1 i2 s k hw1 hw2
        (by omega) (by omega)
      refine ⟨s', hs', hshape'.trans hs, ?_⟩
      intro j L
      rw [ha' j L]
      by_cases hL : L = k
      · subst hL
        simp only [if_true, Nat.lt_succ_self]
        exact pairArea_congr K alt hs i1 i2 j L (fun j => by simp [ha j L])
      · rw [if_neg hL, ha j L]
        by_cases hlt : L < k
        · simp [hlt, Nat.lt_succ_of_lt hlt]
        · have : ¬ L < k + 1 := by omega
          simp [hlt, this])
  refine ⟨out, hout, hshape, ?_⟩
  intro j L
  rw [harea j L]
  by_cases hL : L < v1.layers.length
  · simp [hL]
  · simp only [hL, if_false]
    exact (pairArea_of_none K alt vs i1 i2 j L (polygonsAt_eq_none h1 (by omega))).symm

/-- The body of the inner loop (lines 40-65) for volume_1 in slot `i1` and volume_2 in
slot `i2`: it succeeds, and it changes areas only when volume_2 is not excluded and the
two bounding boxes hit. -/
theorem carvePair_spec (K : PolygonOps P) (alt : Bool) (i1 i2 : Nat) (vs : List (Slicer P))
    {v1 v2 : Slicer P} (h1 : vs[i1]? = some v1) (h2 : vs[i2]? = some v2)
    (hlen : v1.layers.length ≤ v2.layers.length) :
    ∃ out, carvePair K alt i1 i2 vs = some out ∧ shape out = shape vs ∧
      ∀ j L, polygonsAt out j L =
        if carveExcluded v2.mesh = true ∨ v1.mesh.getAABB.hit v2.mesh.getAABB = false
        then polygonsAt vs j L else pairArea K alt vs i1 i2 j L := by
  by_cases hex : carveExcluded v2.mesh = true
  · exact ⟨vs, by simp [carvePair, h1, h2, hex], rfl, by simp [hex]⟩
  · by_cases hhit : v1.mesh.getAABB.hit v2.mesh.getAABB = false
    · exact ⟨vs, by simp [carvePair, h1, h2, hex, hhit], rfl, by simp [hhit]⟩
    · obtain ⟨out, hout, hshape, harea⟩ := carveLayers_spec K alt i1 i2 vs h1 h2 hlen
      refine ⟨out, ?_, hshape, ?_⟩
      · simp only [Bool.not_eq_false] at hhit
        simp [carvePair, h1, h2, hex, hhit, hout]
      · intro j L
        simp [hex, hhit, harea]
end CarvePairLemmas

/-! ## `carveMultipleVolumes` on point sets: areas shrink, carved pairs are disjoint -/

section CarveInvariants

theorem uniform_of_shape {P : Type} {m : Nat} {vs s : List (Slicer P)} (h : shape s = shape vs)
    (hu : Uniform m vs) : Uniform m s := by
  intro i w hw
  obtain ⟨v, hv, _, hl⟩ := shape_getElem? h hw
  rw [← hl]
  exact hu i v hv

theorem shrinks_refl (vs : Store) : Shrinks vs vs :=
  ⟨rfl, fun _ _ a ha => ⟨a, ha, Finset.Subset.refl a⟩⟩

theorem shrinks_trans {a b c : Store} (hab : Shrinks a b) (hbc : Shrinks b c) : Shrinks a c := by
  refine ⟨hbc.1.trans hab.1, ?_⟩
  intro j L x hx
  obtain ⟨y, hy, hxy⟩ := hbc.2 j L x hx
  obtain ⟨z, hz, hyz⟩ := hab.2 j L y hy
  exact ⟨z, hz, hxy.trans hyz⟩

theorem pairOK_mono {vs s : Store} (h : Shrinks vs s) {i j : Nat} (hp : PairOK vs i j) :
    PairOK s i j := by
  intro L a b ha hb
  obtain ⟨a0, ha0, haa⟩ := h.2 i L a ha
  obtain ⟨b0, hb0, hbb⟩ := h.2 j L b hb
  exact Finset.disjoint_of_subset_left haa (Finset.disjoint_of_subset_right hbb (hp L a0 b0 ha0 hb0))

theorem pairOK_symm {s : Store} {i j : Nat} (hp : PairOK s i j) : PairOK s j i :=
  fun L a b ha hb => (hp L b a hb ha).symm

theorem active_of_shape {P : Type} {vs s : List (Slicer P)} (h : shape s = shape vs) {i1 i2 : Nat}
    (ha : Active vs i1 i2) : Active s i1 i2 := by
  obtain ⟨v1, v2, h1, h2, e1, e2, hh⟩ := ha
  obtain ⟨w1, hw1, hm1, _⟩ := shape_getElem? h.symm h1
  obtain ⟨w2, hw2, hm2, _⟩ := shape_getElem? h.symm h2
  exact ⟨w1, w2, hw1, hw2, by rw [hm1]; exact e1, by rw [hm2]; exact e2, by rw [hm1, hm2]; exact hh⟩

/-- With point sets, the areas `pairArea` are contained in the areas before. -/
theorem pairArea_subset (g : PointSetPrims) (alt : Bool) (vs : Store) (i1 i2 j L : Nat)
    (a : Finset Point) (ha : pairArea (pointSet g) alt vs i1 i2 j L = some a) :
    ∃ a0, polygonsAt vs j L = some a0 ∧ a ⊆ a0 := by
  unfold pairArea at ha
  cases e1 : polygonsAt vs i1 L with
  | none => rw [e1] at ha; exact ⟨a, ha, Finset.Subset.refl a⟩
  | some a1 =>
    cases e2 : polygonsAt vs i2 L with
    | none => rw [e1, e2] at ha; exact ⟨a, ha, Finset.Subset.refl a⟩
    | some a2 =>
      rw [e1, e2] at ha
      simp only at ha
      split at ha
      · split at ha
        · rename_i hj
          subst hj
          simp only [pointSet, Option.some.injEq] at ha
          exact ⟨a2, e2, by rw [← ha]; exact Finset.sdiff_subset⟩
        · exact ⟨a, ha, Finset.Subset.refl a⟩
      · split at ha
        · rename_i hj
          subst hj
          simp only [pointSet, Option.some.injEq] at ha
          exact ⟨a1, e1, by rw [← ha]; exact Finset.sdiff_subset⟩
        · exact ⟨a, ha, Finset.Subset.refl a⟩

/-- With point sets, the areas `pairArea` of the two slots are disjoint. -/
theorem pairArea_disjoint (g : PointSetPrims) (alt : Bool) (vs : Store) (i1 i2 L : Nat)
    (hne : i1 ≠ i2) (a b : Finset Point)
    (ha : pairArea (pointSet g) alt vs i1 i2 i1 L = some a)
    (hb : pairArea (pointSet g) alt vs i1 i2 i2 L = some b) : Disjoint a b := by
  unfold pairArea at ha hb
  cases e1 : polygonsAt vs i1 L with
  | none => rw [e1] at ha; simp [e1] at ha
  | some a1 =>
    cases e2 : polygonsAt vs i2 L with
    | none => rw [e1, e2] at hb; simp [e2] at hb
    | some a2 =>
      rw [e1, e2] at ha hb
      simp only at ha hb
      by_cases hc : carveCond alt vs i1 i2 L = true
      · simp only [hc, if_true, hne, if_false, e1, Option.some.injEq, pointSet] at ha hb
        subst ha hb
        exact Finset.disjoint_sdiff
      · simp only [hc, if_true, hne.symm, if_false, e2, Option.some.injEq, pointSet,
          Bool.false_eq_true] at ha hb
        subst ha hb
        exact Finset.sdiff_disjoint

/-- The body of the inner loop, on point sets: areas only shrink, and an active pair is
disjoint afterwards. -/
theorem carvePair_shrinks (g : PointSetPrims) (alt : Bool) (i1 i2 : Nat) (vs : Store) {m : Nat}
    (hu : Uniform m vs) (hi1 : i1 < vs.length) (hi2 : i2 < vs.length) (hne : i1 ≠ i2) :
    ∃ out, carvePair (pointSet g) alt i1 i2 vs = some out ∧ Shrinks vs out ∧
      (Active vs i1 i2 → PairOK out i1 i2) := by
  obtain ⟨v1, h1⟩ : ∃ v1, vs[i1]? = some v1 := ⟨vs[i1], List.getElem?_eq_getElem hi1⟩
  obtain ⟨v2, h2⟩ : ∃ v2, vs[i2]? = some v2 := ⟨vs[i2], List.getElem?_eq_getElem hi2⟩
  obtain ⟨out, hout, hshape, harea⟩ := carvePair_spec (pointSet g) alt i1 i2 vs h1 h2
    (by rw [hu i1 v1 h1, hu i2 v2 h2])
  refine ⟨out, hout, ⟨hshape, ?_⟩, ?_⟩
  · intro j L a ha
    rw [harea j L] at ha
    split at ha
    · exact ⟨a, ha, Finset.Subset.refl a⟩
    · exact pairArea_subset g alt vs i1 i2 j L a ha
  · rintro ⟨w1, w2, hw1, hw2, _, e2, hh⟩ L a b ha hb
    rw [h1] at hw1
    rw [h2] at hw2
    cases hw1
    cases hw2
    rw [harea i1 L] at ha
    rw [harea i2 L] at hb
    simp only [e2, hh, Bool.false_eq_true, or_self, if_false] at ha hb
    exact pairArea_disjoint g alt vs i1 i2 L hne a b ha hb

end CarveInvariants

/-! ## `carveMultipleVolumes` on point sets: the two outer loops -/

section CarveLoops

/-- The body of the outer loop at position `a` of the ranked list, on point sets. -/
theorem carveVolume_shrinks (g : PointSetPrims) (alt : Bool) (r : List Nat) (vs : Store) {m : Nat}
    (hu : Uniform m vs) (a : Nat)
    (hr : ∀ b, b ≤ a → ∃ i, r[b]? = some i ∧ i < vs.length)
    (hinj : ∀ b i, b < a → r[b]? = some i → r[a]? ≠ some i) :
    ∃ out, carveVolume (pointSet g) alt r vs a = some out ∧ Shrinks vs out ∧
      ∀ b i1 i2, b < a → r[a]? = some i1 → r[b]? = some i2 → Active vs i1 i2 →
        PairOK out i1 i2 := by
  obtain ⟨i1, hi1, hi1lt⟩ := hr a (Nat.le_refl a)
  obtain ⟨v1, h1⟩ : ∃ v1, vs[i1]? = some v1 := ⟨vs[i1], List.getElem?_eq_getElem hi1lt⟩
  by_cases hex : carveExcluded v1.mesh = true
  · refine ⟨vs, by simp [carveVolume, hi1, h1, hex], shrinks_refl vs, ?_⟩
    rintro b j1 j2 _ hj1 _ ⟨w1, w2, hw1, _, e1, _⟩
    rw [hi1] at hj1
    cases hj1
    rw [h1] at hw1
    cases hw1
    rw [e1] at hex
    cases hex
  · obtain ⟨out, hout, hsh, hdone⟩ := foldlM_range_inv
      (fun vols volume_2_idx => do
        let i2 ← r[volume_2_idx]?
        carvePair (pointSet g) alt i1 i2 vols)
      (fun k s => Shrinks vs s ∧
        ∀ b i2, b < k → r[b]? = some i2 → Active vs i1 i2 → PairOK s i1 i2)
      a vs ⟨shrinks_refl vs, by intro b i2 hb; omega⟩
      (by
        intro k hk s ⟨hs, hd⟩
        obtain ⟨i2, hi2, hi2lt⟩ := hr k (Nat.le_of_lt hk)
        have hne : i1 ≠ i2 := by
          intro h
          subst h
          exact hinj k i1 hk hi2 hi1
        have hlen := shape_length hs.1
        obtain ⟨s', hs', hsh', hp'⟩ := carvePair_shrinks g alt i1 i2 s
          (uniform_of_shape hs.1 hu) (by omega) (by omega) hne
        refine ⟨s', by simp [hi2, hs'], shrinks_trans hs hsh', ?_⟩
        intro b j2 hb hj2 hact
        rcases Nat.lt_or_ge b k with hbk | hbk
        · exact pairOK_mono hsh' (hd b j2 hbk hj2 hact)
        · have hbk' : b = k := by omega
          subst hbk'
          rw [hi2] at hj2
          cases hj2
          exact hp' (active_of_shape hs.1 hact))
    refine ⟨out, ?_, hsh, ?_⟩
    · simp only [Bool.not_eq_true] at hex
      simpa [carveVolume, hi1, h1, hex] using hout
    · intro b j1 j2 hb hj1 hj2 hact
      rw [hi1] at hj1
      cases hj1
      exact hdone b j2 hb hj2 hact

/-- The outer loop of lines 27-67 on point sets, for any list `r` of distinct slots. -/
theorem carveLoop_shrinks (g : PointSetPrims) (alt : Bool) (r : List Nat) (vs : Store) {m : Nat}
    (hu : Uniform m vs)
    (hr : ∀ b, b < vs.length → ∃ i, r[b]? = some i ∧ i < vs.length)
    (hinj : ∀ (a b i : Nat), b < a → r[b]? = some i → r[a]? ≠ some i) :
    ∃ out, (List.range' 1 (vs.length - 1)).foldlM (carveVolume (pointSet g) alt r) vs = some out ∧
      Shrinks vs out ∧
      ∀ a b i1 i2, b < a → a < vs.length → r[a]? = some i1 → r[b]? = some i2 →
        Active vs i1 i2 → PairOK out i1 i2 := by
  obtain ⟨out, hout, hsh, hdone⟩ := foldlM_inv (carveVolume (pointSet g) alt r)
    (fun k s => Shrinks vs s ∧
      ∀ a b i1 i2, b < a → a ≤ k → r[a]? = some i1 → r[b]? = some i2 →
        Active vs i1 i2 → PairOK s i1 i2)
    (List.range' 1 (vs.length - 1)) 0 vs
    ⟨shrinks_refl vs, by intro a b i1 i2 hb ha; omega⟩
    (by
      intro j hj s ⟨hs, hd⟩
      have hj' : j < vs.length - 1 := by simpa using hj
      have hget : (List.range' 1 (vs.length - 1))[j] = 1 + j := by simp
      rw [hget]
      have hlen := shape_length hs.1
      obtain ⟨s', hs', hsh', hp'⟩ := carveVolume_shrinks g alt r s (uniform_of_shape hs.1 hu)
        (1 + j) (by intro b hb; rw [hlen]; exact hr b (by omega))
        (fun b i hb => hinj (1 + j) b i hb)
      refine ⟨s', hs', shrinks_trans hs hsh', ?_⟩
      intro a b i1 i2 hb ha hi1 hi2 hact
      rcases Nat.lt_or_ge a (1 + j) with haj | haj
      · exact pairOK_mono hsh' (hd a b i1 i2 hb (by omega) hi1 hi2 hact)
      · have : a = 1 + j := by omega
        subst this
        exact hp' b i1 i2 hb hi1 hi2 (active_of_shape hs.1 hact))
  refine ⟨out, hout, hsh, ?_⟩
  intro a b i1 i2 hb ha hi1 hi2 hact
  exact hdone a b i1 i2 hb (by simp; omega) hi1 hi2 hact

/-- What the contract of `std::sort` gives for the ranked list: every position below the
size of the store holds a slot of the store, no slot twice, and every slot occurs. -/
theorem rankedVolumes_perm {P : Type} (stdSort : (Nat → Nat → Bool) → List Nat → List Nat)
    (hsort : StdSortContract stdSort) (vs : List (Slicer P)) :
    (rankedVolumes stdSort vs).Perm (List.range vs.length) :=
  (hsort (infillMeshOrder vs) (List.range vs.length)).1

theorem perm_range_valid {r : List Nat} {n : Nat} (h : r.Perm (List.range n)) :
    (∀ b, b < n → ∃ i, r[b]? = some i ∧ i < n) ∧
    (∀ (a b i : Nat), b < a → r[b]? = some i → r[a]? ≠ some i) ∧
    (∀ i, i < n → ∃ a, a < n ∧ r[a]? = some i) := by
  have hlen : r.length = n := by simpa using h.length_eq
  have hnodup : r.Nodup := h.nodup_iff.mpr (List.nodup_range n)
  refine ⟨?_, ?_, ?_⟩
  · intro b hb
    have hb' : b < r.length := by omega
    refine ⟨r[b], List.getElem?_eq_getElem hb', ?_⟩
    have : r[b] ∈ List.range n := h.subset (List.getElem_mem hb')
    simpa using this
  · intro a b i hba hb ha
    obtain ⟨hb1, hb2⟩ := List.getElem?_eq_some_iff.mp hb
    obtain ⟨ha1, ha2⟩ := List.getElem?_eq_some_iff.mp ha
    have hab : r[a] = r[b] := by rw [ha2, hb2]
    have := (List.Nodup.getElem_inj_iff hnodup).mp hab
    omega
  · intro i hi
    have : i ∈ r := h.symm.subset (by simpa using hi)
    obtain ⟨a, ha, hai⟩ := List.getElem_of_mem this
    exact ⟨a, by omega, by rw [List.getElem?_eq_getElem ha, hai]⟩

end CarveLoops

/-! ## Non-overlap after carving -/

section NonOverlap

/-- Two areas inside boxes that do not hit are disjoint. -/
theorem pairOK_of_not_hit (layerZ : Nat → Int) (vs : Store) (hin : InsideAABB layerZ vs)
    {i j : Nat} {vi vj : Slicer (Finset Point)} (hi : vs[i]? = some vi) (hj : vs[j]? = some vj)
    (hhit : vi.mesh.getAABB.hit vj.mesh.getAABB = false) : PairOK vs i j := by
  intro L a b ha hb
  rw [Finset.disjoint_left]
  intro p hpa hpb
  have h1 := hin i L vi a hi ha p hpa
  have h2 := hin j L vj b hj hb p hpb
  simp only [AABB3D.contains] at h1 h2
  simp only [AABB3D.hit, Bool.not_eq_false', Bool.or_eq_true, decide_eq_true_eq] at hhit
  omega

/-- C1 (non-overlap after carving).  For a store whose solids all have `m` layers and
whose closed areas lie inside their bounding boxes, `carveMultipleVolumes` returns a
store in which, at every layer, the closed areas of any two distinct solids that carry
none of the exclusion flags (infill mesh, anti-overhang mesh, support mesh, surface-only
mode) have an empty intersection. -/
theorem carveMultipleVolumes_nonoverlap (g : PointSetPrims)
    (stdSort : (Nat → Nat → Bool) → List Nat → List Nat) (hsort : StdSortContract stdSort)
    (alt : Bool) (volumes : Store) (m : Nat) (layerZ : Nat → Int)
    (hu : Uniform m volumes) (hin : InsideAABB layerZ volumes) :
    ∃ out, carveMultipleVolumes (pointSet g) stdSort alt volumes = some out ∧
      shape out = shape volumes ∧
      ∀ (i j : Nat) (vi vj : Slicer (Finset Point)), i ≠ j →
        out[i]? = some vi → out[j]? = some vj →
        carveExcluded vi.mesh = false → carveExcluded vj.mesh = false →
        ∀ (L : Nat) (a b : Finset Point),
          polygonsAt out i L = some a → polygonsAt out j L = some b → a ∩ b = ∅ := by
  obtain ⟨hvalid, hinj, hsurj⟩ := perm_range_valid (rankedVolumes_perm stdSort hsort volumes)
  obtain ⟨out, hout, hsh, hdone⟩ := carveLoop_shrinks g alt (rankedVolumes stdSort volumes)
    volumes hu hvalid hinj
  refine ⟨out, hout, hsh.1, ?_⟩
  intro i j vi vj hij hi hj hei hej L a b ha hb
  rw [← Finset.disjoint_iff_inter_eq_empty]
  obtain ⟨wi, hwi, hmi, _⟩ := shape_getElem? hsh.1 hi
  obtain ⟨wj, hwj, hmj, _⟩ := shape_getElem? hsh.1 hj
  have hilt : i < volumes.length := (List.getElem?_eq_some_iff.mp hwi).1
  have hjlt : j < volumes.length := (List.getElem?_eq_some_iff.mp hwj).1
  obtain ⟨pi, hpi, hri⟩ := hsurj i hilt
  obtain ⟨pj, hpj, hrj⟩ := hsurj j hjlt
  rw [← hmi] at hei
  rw [← hmj] at hej
  have hpne : pi ≠ pj := by
    intro h
    subst h
    rw [hri] at hrj
    exact hij (Option.some.inj hrj)
  rcases Nat.lt_or_gt_of_ne hpne with hlt | hlt
  · -- `j` is volume_1 and `i` is volume_2
    by_cases hhit : wj.mesh.getAABB.hit wi.mesh.getAABB = true
    · exact pairOK_symm (hdone pj pi j i hlt hpj hrj hri ⟨wj, wi, hwj, hwi, hej, hei, hhit⟩) L a b ha hb
    · simp only [Bool.not_eq_true] at hhit
      exact pairOK_symm (pairOK_mono hsh (pairOK_of_not_hit layerZ volumes hin hwj hwi hhit)) L a b ha hb
  · by_cases hhit : wi.mesh.getAABB.hit wj.mesh.getAABB = true
    · exact hdone pi pj i j hlt hpi hri hrj ⟨wi, wj, hwi, hwj, hei, hej, hhit⟩ L a b ha hb
    · simp only [Bool.not_eq_true] at hhit
      exact pairOK_mono hsh (pairOK_of_not_hit layerZ volumes hin hwi hwj hhit) L a b ha hb

end NonOverlap

/-! ## The direction of the subtraction -/

section Direction
variable {P : Type}

/-- C2 (subtraction direction).  When the inner loop body runs for volume_1 (`current`, in
slot `i1`) and an earlier-ranked volume_2 (`other`, in slot `i2`) that is not excluded and
whose bounding box is hit, then at every layer `L` of volume_1: if the alternate carve
order is on, `L` is even and both have the same `infill_mesh_order`, the area of `other`
becomes `other - current` and the area of `current` stays; in every other case the area of
`current` becomes `current - other` and the area of `other` stays.  All other slots keep
their areas. -/
theorem carvePair_direction (K : PolygonOps P) (alt : Bool) (i1 i2 : Nat)
    (vs : List (Slicer P)) (v1 v2 : Slicer P) (h1 : vs[i1]? = some v1) (h2 : vs[i2]? = some v2)
    (hne : i1 ≠ i2) (hlen : v1.layers.length ≤ v2.layers.length)
    (hex : carveExcluded v2.mesh = false) (hhit : v1.mesh.getAABB.hit v2.mesh.getAABB = true) :
    ∃ out, carvePair K alt i1 i2 vs = some out ∧
      (∀ (L : Nat) (cur other : P), polygonsAt vs i1 L = some cur →
        polygonsAt vs i2 L = some other →
        if alt = true ∧ L % 2 = 0 ∧
            v1.mesh.settings.infill_mesh_order = v2.mesh.settings.infill_mesh_order then
          polygonsAt out i2 L = some (K.difference other cur) ∧ polygonsAt out i1 L = some cur
        else
          polygonsAt out i1 L = some (K.difference cur other) ∧
            polygonsAt out i2 L = some other) ∧
      ∀ (j L : Nat), j ≠ i1 → j ≠ i2 → polygonsAt out j L = polygonsAt vs j L := by
  obtain ⟨out, hout, _, harea⟩ := carvePair_spec K alt i1 i2 vs h1 h2 hlen
  have hcond : ∀ L, carveCond alt vs i1 i2 L = true ↔ (alt = true ∧ L % 2 = 0 ∧
      v1.mesh.settings.infill_mesh_order = v2.mesh.settings.infill_mesh_order) := by
    intro L
    simp [carveCond, infillMeshOrder, h1, h2, and_assoc]
  refine ⟨out, hout, ?_, ?_⟩
  · intro L cur other hc ho
    have e1 := harea i1 L
    have e2 := harea i2 L
    simp only [hex, hhit, Bool.false_eq_true, Bool.true_eq_false, or_self, if_false, pairArea,
      hc, ho] at e1 e2
    by_cases hcd : carveCond alt vs i1 i2 L = true
    · rw [if_pos ((hcond L).mp hcd)]
      simp only [hcd, if_true, hne, if_false] at e1 e2
      exact ⟨e2, e1⟩
    · rw [if_neg (fun h => hcd ((hcond L).mpr h))]
      simp only [hcd, if_true, hne.symm, if_false, Bool.false_eq_true] at e1 e2
      exact ⟨e1, e2⟩
  · intro j L hj1 hj2
    rw [harea j L]
    simp only [hex, hhit, Bool.false_eq_true, Bool.true_eq_false, or_self, if_false, pairArea]
    split
    · split <;> simp [hj1, hj2]
    · rfl

end Direction

/-! ## `carveMultipleVolumes` on a store of two solids -/

section TwoSolids
variable {P : Type}

theorem AABB3D.hit_comm (a b : AABB3D) : a.hit b = b.hit a := by
  simp only [AABB3D.hit]
  rw [Bool.eq_iff_iff]
  simp only [Bool.not_eq_true', Bool.or_eq_false_iff, decide_eq_false_iff_not, gt_iff_lt]
  constructor <;> intro h <;> omega

/-- The ranked list of a store of two solids. -/
theorem rankedVolumes_two (stdSort : (Nat → Nat → Bool) → List Nat → List Nat)
    (hsort : StdSortContract stdSort) (vs : List (Slicer P)) (hlen : vs.length = 2) :
    ∃ a b, rankedVolumes stdSort vs = [a, b] ∧ ((a = 0 ∧ b = 1) ∨ (a = 1 ∧ b = 0)) ∧
      infillMeshOrder vs a ≤ infillMeshOrder vs b := by
  obtain ⟨hperm, hsorted⟩ := hsort (infillMeshOrder vs) (List.range vs.length)
  change (rankedVolumes stdSort vs).Perm _ at hperm
  change (rankedVolumes stdSort vs).Pairwise _ at hsorted
  generalize rankedVolumes stdSort vs = r at hperm hsorted
  rw [hlen] at hperm
  have hl : r.length = 2 := by simpa using hperm.length_eq
  match r, hl with
  | [a, b], _ =>
    have ha : a ∈ List.range 2 := hperm.subset (by simp)
    have hb : b ∈ List.range 2 := hperm.subset (by simp)
    have hnd : [a, b].Nodup := hperm.nodup_iff.mpr (List.nodup_range 2)
    simp only [List.mem_range] at ha hb
    simp only [List.nodup_cons, List.mem_singleton, List.not_mem_nil, not_false_eq_true,
      List.nodup_nil, and_self, and_true] at hnd
    simp only [List.pairwise_cons, List.mem_singleton, forall_eq, List.not_mem_nil,
      IsEmpty.forall_iff, implies_true, List.Pairwise.nil, and_self, and_true] at hsorted
    exact ⟨a, b, rfl, by omega, hsorted⟩

/-- On a store of two solids, `carveMultipleVolumes` is one run of the inner loop body
for the pair of the ranked list, unless the second of the ranked list is excluded. -/
theorem carveMultipleVolumes_two (K : PolygonOps P)
    (stdSort : (Nat → Nat → Bool) → List Nat → List Nat) (alt : Bool) (vs : List (Slicer P))
    (hlen : vs.length = 2) {a b : Nat} (hr : rankedVolumes stdSort vs = [a, b])
    {v1 : Slicer P} (h1 : vs[b]? = some v1) :
    carveMultipleVolumes K stdSort alt vs =
      if carveExcluded v1.mesh then some vs else carvePair K alt b a vs := by
  simp only [carveMultipleVolumes, hlen, hr]
  have : List.range' 1 (2 - 1) = [1] := rfl
  rw [this]
  simp only [List.foldlM_cons, List.foldlM_nil, carveVolume, List.getElem?_cons_succ,
    List.getElem?_cons_zero, Option.bind_eq_bind, Option.some_bind, h1]
  split
  · rfl
  · have : List.range 1 = [0] := rfl
    rw [this]
    simp only [List.foldlM_cons, List.foldlM_nil, List.getElem?_cons_zero, Option.bind_eq_bind,
      Option.some_bind, bind_pure, pure_bind]
    cases carvePair K alt b a vs <;> rfl

end TwoSolids

/-! ## The scenarios A, B and C for carving -/

section Scenarios
variable {P : Type}

theorem infillMeshOrder_eq {vs : List (Slicer P)} {i : Nat} {v : Slicer P}
    (h : vs[i]? = some v) : infillMeshOrder vs i = v.mesh.settings.infill_mesh_order := by
  simp [infillMeshOrder, h]

/-- C3 (scenario B).  Two solids without exclusion flags, with bounding boxes that hit,
`m` layers each and the same closed area `A L` at every layer `L`, the one (`lo`) with
`infill_mesh_order` 0 and the other (`hi`) with `infill_mesh_order` 1: after
`carveMultipleVolumes` the solid of order 1 has an empty closed area at every layer and
the solid of order 0 still has `A L`, whatever the alternate carve order. -/
theorem carveMultipleVolumes_scenarioB (g : PointSetPrims)
    (stdSort : (Nat → Nat → Bool) → List Nat → List Nat) (hsort : StdSortContract stdSort)
    (alt : Bool) (volumes : Store) (lo hi : Nat) (vlo vhi : Slicer (Finset Point)) (m : Nat)
    (A : Nat → Finset Point) (hlen : volumes.length = 2)
    (hlo : volumes[lo]? = some vlo) (hhi : volumes[hi]? = some vhi)
    (hexlo : carveExcluded vlo.mesh = false) (hexhi : carveExcluded vhi.mesh = false)
    (hhit : vlo.mesh.getAABB.hit vhi.mesh.getAABB = true)
    (holo : vlo.mesh.settings.infill_mesh_order = 0)
    (hohi : vhi.mesh.settings.infill_mesh_order = 1)
    (hmlo : vlo.layers.length = m) (hmhi : vhi.layers.length = m)
    (hAlo : ∀ L, L < m → polygonsAt volumes lo L = some (A L))
    (hAhi : ∀ L, L < m → polygonsAt volumes hi L = some (A L)) :
    ∃ out, carveMultipleVolumes (pointSet g) stdSort alt volumes = some out ∧
      ∀ L, L < m → polygonsAt out hi L = some ∅ ∧ polygonsAt out lo L = some (A L) := by
  obtain ⟨a, b, hr, hab, hle⟩ := rankedVolumes_two stdSort hsort volumes hlen
  have hlolt : lo < 2 := hlen ▸ (List.getElem?_eq_some_iff.mp hlo).1
  have hhilt : hi < 2 := hlen ▸ (List.getElem?_eq_some_iff.mp hhi).1
  have hne : lo ≠ hi := by
    intro h
    subst h
    rw [hlo] at hhi
    cases hhi
    omega
  have ha : a = lo := by
    by_contra hcon
    have h1 : a = hi := by omega
    have h2 : b = lo := by omega
    rw [h1, h2, infillMeshOrder_eq hlo, infillMeshOrder_eq hhi, holo, hohi] at hle
    omega
  have hb : b = hi := by omega
  subst ha hb
  rw [carveMultipleVolumes_two (pointSet g) stdSort alt volumes hlen hr hhi, hexhi]
  obtain ⟨out, hout, _, harea⟩ := carvePair_spec (pointSet g) alt b a volumes hhi hlo
    (by omega)
  refine ⟨out, by simpa using hout, ?_⟩
  intro L hL
  have hc : carveCond alt volumes b a L = false := by
    simp [carveCond, infillMeshOrder_eq hlo, infillMeshOrder_eq hhi, holo, hohi]
  have hhit' : vhi.mesh.getAABB.hit vlo.mesh.getAABB = true := by
    rw [AABB3D.hit_comm]; exact hhit
  constructor
  · rw [harea b L]
    simp [hexlo, hhit', pairArea, hAlo L hL, hAhi L hL, hc, pointSet]
  · rw [harea a L]
    simp [hexlo, hhit', pairArea, hAlo L hL, hAhi L hL, hc, hne]

/-- C4 (scenario C).  Two solids without exclusion flags, with bounding boxes that hit,
`m` layers each, the same closed area `A L` at every layer `L`, both with
`infill_mesh_order` 0, and the alternate carve order on: after `carveMultipleVolumes`, at
every even layer the first solid of the ranked list is empty and the second has `A L`, and
at every odd layer the second is empty and the first has `A L`. -/
theorem carveMultipleVolumes_scenarioC (g : PointSetPrims)
    (stdSort : (Nat → Nat → Bool) → List Nat → List Nat) (hsort : StdSortContract stdSort)
    (volumes : Store) (v0 v1 : Slicer (Finset Point)) (m : Nat)
    (A : Nat → Finset Point) (hvol : volumes = [v0, v1])
    (hex0 : carveExcluded v0.mesh = false) (hex1 : carveExcluded v1.mesh = false)
    (hhit : v0.mesh.getAABB.hit v1.mesh.getAABB = true)
    (ho0 : v0.mesh.settings.infill_mesh_order = 0)
    (ho1 : v1.mesh.settings.infill_mesh_order = 0)
    (hm0 : v0.layers.length = m) (hm1 : v1.layers.length = m)
    (hA0 : ∀ L, L < m → polygonsAt volumes 0 L = some (A L))
    (hA1 : ∀ L, L < m → polygonsAt volumes 1 L = some (A L)) :
    ∃ out first second, rankedVolumes stdSort volumes = [first, second] ∧
      carveMultipleVolumes (pointSet g) stdSort true volumes = some out ∧
      ∀ L, L < m →
        (L % 2 = 0 → polygonsAt out first L = some ∅ ∧ polygonsAt out second L = some (A L)) ∧
        (L % 2 = 1 → polygonsAt out second L = some ∅ ∧ polygonsAt out first L = some (A L)) := by
  have hlen : volumes.length = 2 := by rw [hvol]; rfl
  obtain ⟨a, b, hr, hab, _⟩ := rankedVolumes_two stdSort hsort volumes hlen
  have hg0 : volumes[0]? = some v0 := by rw [hvol]; rfl
  have hg1 : volumes[1]? = some v1 := by rw [hvol]; rfl
  have hhit' : v1.mesh.getAABB.hit v0.mesh.getAABB = true := by
    rw [AABB3D.hit_comm]; exact hhit
  have key : ∀ (a b : Nat) (va vb : Slicer (Finset Point)), a ≠ b →
      volumes[a]? = some va → volumes[b]? = some vb →
      carveExcluded va.mesh = false → carveExcluded vb.mesh = false →
      vb.mesh.getAABB.hit va.mesh.getAABB = true →
      va.mesh.settings.infill_mesh_order = 0 → vb.mesh.settings.infill_mesh_order = 0 →
      va.layers.length = m → vb.layers.length = m →
      (∀ L, L < m → polygonsAt volumes a L = some (A L)) →
      (∀ L, L < m → polygonsAt volumes b L = some (A L)) →
      rankedVolumes stdSort volumes = [a, b] →
      ∃ out, carveMultipleVolumes (pointSet g) stdSort true volumes = some out ∧
        ∀ L, L < m →
          (L % 2 = 0 → polygonsAt out a L = some ∅ ∧ polygonsAt out b L = some (A L)) ∧
          (L % 2 = 1 → polygonsAt out b L = some ∅ ∧ polygonsAt out a L = some (A L)) := by
    intro a b va vb hne hva hvb hexa hexb hhitba hoa hob hma hmb hAa hAb hr
    rw [carveMultipleVolumes_two (pointSet g) stdSort true volumes hlen hr hvb, hexb]
    obtain ⟨out, hout, _, harea⟩ := carvePair_spec (pointSet g) true b a volumes hvb hva
      (by omega)
    refine ⟨out, by simpa using hout, ?_⟩
    intro L hL
    have hcond : carveCond true volumes b a L = (L % 2 == 0) := by
      simp [carveCond, infillMeshOrder_eq hva, infillMeshOrder_eq hvb, hoa, hob]
    constructor
    · intro hev
      constructor
      · rw [harea a L]
        simp [hexa, hhitba, pairArea, hAa L hL, hAb L hL, hcond, hev, pointSet]
      · rw [harea b L]
        simp [hexa, hhitba, pairArea, hAa L hL, hAb L hL, hcond, hev, hne.symm]
    · intro hodd
      constructor
      · rw [harea b L]
        simp [hexa, hhitba, pairArea, hAa L hL, hAb L hL, hcond, hodd, pointSet]
      · rw [harea a L]
        simp [hexa, hhitba, pairArea, hAa L hL, hAb L hL, hcond, hodd, hne]
  rcases hab with ⟨rfl, rfl⟩ | ⟨rfl, rfl⟩
  · obtain ⟨out, h1, h2⟩ := key 0 1 v0 v1 (by decide) hg0 hg1 hex0 hex1 hhit' ho0 ho1 hm0 hm1
      hA0 hA1 hr
    exact ⟨out, 0, 1, hr, h1, h2⟩
  · obtain ⟨out, h1, h2⟩ := key 1 0 v1 v0 (by decide) hg1 hg0 hex1 hex0 hhit ho1 ho0 hm1 hm0
      hA1 hA0 hr
    exact ⟨out, 1, 0, hr, h1, h2⟩

/-- C9 (scenario A for carving).  For two solids whose bounding boxes do not hit,
`carveMultipleVolumes` returns the store unchanged, so both solids keep their closed areas
at every layer, for every `infill_mesh_order` of the two and every alternate carve
order. -/
theorem carveMultipleVolumes_scenarioA (K : PolygonOps P)
    (stdSort : (Nat → Nat → Bool) → List Nat → List Nat) (hsort : StdSortContract stdSort)
    (alt : Bool) (v0 v1 : Slicer P)
    (hhit : v0.mesh.getAABB.hit v1.mesh.getAABB = false) :
    carveMultipleVolumes K stdSort alt [v0, v1] = some [v0, v1] := by
  have hlen : [v0, v1].length = 2 := rfl
  obtain ⟨a, b, hr, hab, _⟩ := rankedVolumes_two stdSort hsort [v0, v1] hlen
  have hhit' : v1.mesh.getAABB.hit v0.mesh.getAABB = false := by
    rw [AABB3D.hit_comm]; exact hhit
  rcases hab with ⟨rfl, rfl⟩ | ⟨rfl, rfl⟩
  · rw [carveMultipleVolumes_two K stdSort alt [v0, v1] hlen hr
      (show [v0, v1][1]? = some v1 from rfl)]
    split
    · rfl
    · simp [carvePair, hhit']
  · rw [carveMultipleVolumes_two K stdSort alt [v0, v1] hlen hr
      (show [v0, v1][0]? = some v0 from rfl)]
    split
    · rfl
    · simp [carvePair, hhit]

end Scenarios

/-! ## `carveCuttingMeshes` in area mode: the loop over the carved meshes -/

namespace MultiVolumes
section CuttingLemmas

theorem carveOne_skip {P : Type} (K : PolygonOps P) (meshes : List Mesh) (mode : ESurfaceMode)
    (S pl Ar : P) (L : Nat) (st : List (Slicer P) × P × P) (k : Nat)
    (hk : carvableAt meshes k = false) (hlt : k < meshes.length) :
    carveOne K meshes mode S pl Ar L st k = some st := by
  have hcm : meshes[k]? = some meshes[k] := List.getElem?_eq_getElem hlt
  simp only [carvableAt, hcm, Bool.not_eq_false', Bool.or_eq_true] at hk
  simp [carveOne, hcm, hk]

theorem carveOne_carve (g : PointSetPrims) (meshes : List Mesh)
    (S pl Ar : Finset Point) (L : Nat) (st : Store × Finset Point × Finset Point) (k : Nat)
    (hk : carvableAt meshes k = true) {w : Slicer (Finset Point)} (hw : st.1[k]? = some w)
    (hL : L < w.layers.length) :
    carveOne (pointSet g) meshes ESurfaceMode.NORMAL S pl Ar L st k =
      some (writeLayer st.1 k L { w.layers[L] with polygons := w.layers[L].polygons \ Ar },
        st.2.1 ∪ (S ∩ w.layers[L].polygons), st.2.2) := by
  unfold carvableAt at hk
  cases hcm : meshes[k]? with
  | none => simp [hcm] at hk
  | some cm =>
    simp only [hcm, Bool.not_eq_true', Bool.or_eq_false_iff] at hk
    simp [carveOne, hcm, hk, hw, List.getElem?_eq_getElem hL, pointSet]

theorem carvedUnion_succ (meshes : List Mesh) (vs : Store) (S : Finset Point) (L k : Nat) :
    carvedUnion meshes vs S L (k + 1) =
      if carvableAt meshes k = true then carvedUnion meshes vs S L k ∪ (S ∩ areaAt vs k L)
      else carvedUnion meshes vs S L k := by
  unfold carvedUnion
  rw [Finset.range_succ, Finset.filter_insert]
  split
  · rw [Finset.biUnion_insert, Finset.union_comm]
  · rfl

/-- The loop of lines 162-182 for a cutting mesh in area mode, on point sets. -/
theorem carveOne_loop (g : PointSetPrims) (meshes : List Mesh) (vs : Store)
    (S pl Ar : Finset Point) (L : Nat) (hmesh : vs.length ≤ meshes.length)
    (hlay : ∀ j, j < vs.length → carvableAt meshes j = true → ∃ a, polygonsAt vs j L = some a) :
    ∃ out, (List.range vs.length).foldlM
        (carveOne (pointSet g) meshes ESurfaceMode.NORMAL S pl Ar L) (vs, ∅, ∅) =
        some (out, carvedUnion meshes vs S L vs.length, ∅) ∧
      shape out = shape vs ∧
      ∀ j L', polygonsAt out j L' =
        if L' = L ∧ carvableAt meshes j = true then (polygonsAt vs j L).map (fun C => C \ Ar)
        else polygonsAt vs j L' := by
  obtain ⟨st, hst, hshape, harea, hno, hnp⟩ := foldlM_range_inv
    (carveOne (pointSet g) meshes ESurfaceMode.NORMAL S pl Ar L)
    (fun k st => shape st.1 = shape vs ∧
      (∀ j L', polygonsAt st.1 j L' =
        if L' = L ∧ j < k ∧ carvableAt meshes j = true then
          (polygonsAt vs j L).map (fun C => C \ Ar)
        else polygonsAt vs j L') ∧
      st.2.1 = carvedUnion meshes vs S L k ∧ st.2.2 = ∅)
    vs.length (vs, ∅, ∅)
    ⟨rfl, by intro j L'; simp, by simp [carvedUnion], rfl⟩
    (by
      intro k hk st ⟨hs, ha, hno, hnp⟩
      by_cases hc : carvableAt meshes k = true
      · obtain ⟨C, hC⟩ := hlay k hk hc
        have hkv : vs[k]? = some vs[k] := List.getElem?_eq_getElem hk
        obtain ⟨w, hw, _, hwl⟩ := shape_getElem? hs.symm hkv
        have hLv : L < vs[k].layers.length := by
          by_contra hcon
          rw [polygonsAt_eq_none hkv (by omega)] at hC
          cases hC
        have hLw : L < w.layers.length := by omega
        have hwC : w.layers[L].polygons = C := by
          have h1 := polygonsAt_eq_some hw hLw
          rw [ha k L, hC] at h1
          simpa using h1.symm
        refine ⟨_, carveOne_carve g meshes S pl Ar L st k hc hw hLw,
          (shape_writeLayer _ _ _ _).trans hs, ?_, ?_, hnp⟩
        · intro j L'
          rw [polygonsAt_writeLayer, ha j L', ha k L]
          by_cases hj : j = k
          · subst hj
            by_cases hL' : L' = L
            · subst hL'
              simp [hc, hC, hwC]
            · simp [hL']
          · have : j < k + 1 ↔ j < k := by omega
            simp [hj, this]
        · simp only [hno, hwC]
          rw [carvedUnion_succ, if_pos hc]
          simp [areaAt, hC]
      · simp only [Bool.not_eq_true] at hc
        refine ⟨st, carveOne_skip _ meshes _ S pl Ar L st k hc (by omega), hs, ?_, ?_, hnp⟩
        · intro j L'
          rw [ha j L']
          by_cases hj : j = k
          · subst hj
            simp [hc]
          · have : j < k + 1 ↔ j < k := by omega
            simp [this]
        · rw [hno, carvedUnion_succ]
          simp [hc])
  refine ⟨st.1, ?_, hshape, ?_⟩
  · rw [hst]
    congr 1
    rw [← hno, ← hnp]
  · intro j L'
    rw [harea j L']
    by_cases hj : j < vs.length
    · simp [hj]
    · have hnone : polygonsAt vs j L = none := by
        simp [polygonsAt, layerAt, List.getElem?_eq_none (Nat.le_of_not_lt hj)]
      have hnone' : polygonsAt vs j L' = none := by
        simp [polygonsAt, layerAt, List.getElem?_eq_none (Nat.le_of_not_lt hj)]
      simp [hj, hnone, hnone']
end CuttingLemmas
end MultiVolumes

/-! ## `carveCuttingMeshes` in area mode: one layer, one cutting mesh -/

namespace MultiVolumes
section CuttingLayer

theorem areaAt_eq {vs : Store} {j L : Nat} {a : Finset Point} (h : polygonsAt vs j L = some a) :
    areaAt vs j L = a := by
  simp [areaAt, h]

theorem carvedUnion_congr (meshes : List Mesh) {s vs : Store} (S : Finset Point) (L k : Nat)
    (hsame : ∀ j, polygonsAt s j L = polygonsAt vs j L) :
    carvedUnion meshes s S L k = carvedUnion meshes vs S L k := by
  simp [carvedUnion, areaAt, hsame]

theorem cutArea_congr (meshes : List Mesh) {s vs : Store} (c j L : Nat)
    (hlen : s.length = vs.length) (hsame : ∀ j, polygonsAt s j L = polygonsAt vs j L) :
    cutArea meshes s c j L = cutArea meshes vs c j L := by
  simp [cutArea, areaAt, hsame, hlen, carvedUnion_congr meshes _ L vs.length hsame]

/-- The body of the layer loop (lines 130-189) for a cutting mesh in area mode, on point
sets. -/
theorem carveCuttingLayer_normal (g : PointSetPrims) (meshes : List Mesh) (c : Nat) (cm : Mesh)
    (vs : Store) (L : Nat) (hmode : cm.settings.magic_mesh_surface_mode = ESurfaceMode.NORMAL)
    (hc : carvableAt meshes c = false) (hmesh : vs.length ≤ meshes.length)
    {v : Slicer (Finset Point)} (hv : vs[c]? = some v) (hL : L < v.layers.length)
    (hlay : ∀ j, j < vs.length → carvableAt meshes j = true → ∃ a, polygonsAt vs j L = some a) :
    ∃ out, carveCuttingLayer (pointSet g) meshes c cm vs L = some out ∧ shape out = shape vs ∧
      ∀ j L', polygonsAt out j L' =
        if L' = L then cutArea meshes vs c j L else polygonsAt vs j L' := by
  obtain ⟨out1, hout1, hshape1, harea1⟩ := carveOne_loop g meshes vs v.layers[L].polygons
    v.layers[L].openPolylines v.layers[L].polygons L hmesh hlay
  have hS : polygonsAt vs c L = some v.layers[L].polygons := polygonsAt_eq_some hv hL
  refine ⟨writeLayer out1 c L
    { polygons := carvedUnion meshes vs v.layers[L].polygons L vs.length ∪ ∅,
      openPolylines := v.layers[L].openPolylines }, ?_, ?_, ?_⟩
  · have hempty : (pointSet g).empty = ∅ := rfl
    simp only [carveCuttingLayer, hv, List.getElem?_eq_getElem hL, hmode, cuttingMeshArea,
      Option.bind_eq_bind, Option.some_bind, hempty]
    simp only [reduceCtorEq, if_false, hout1, Option.some_bind, ne_eq, not_true_eq_false]
    rfl
  · exact (shape_writeLayer _ _ _ _).trans hshape1
  · intro j L'
    rw [polygonsAt_writeLayer, harea1 j L', harea1 c L]
    by_cases hL' : L' = L
    · subst hL'
      by_cases hj : j = c
      · subst hj
        simp [hc, cutArea, hS]
      · simp [hj, cutArea, areaAt_eq hS]
    · simp [hL']

/-- The turn of one cutting mesh in area mode (lines 122-190), on point sets: it succeeds
when no carved solid has fewer layers than the cutting mesh, and gives the areas
`cutArea`. -/
theorem carveCuttingMesh_normal (g : PointSetPrims) (meshes : List Mesh) (vs : Store) (c : Nat)
    {cm : Mesh} (hcm : meshes[c]? = some cm) (hcut : cm.settings.cutting_mesh = true)
    (hmode : cm.settings.magic_mesh_surface_mode = ESurfaceMode.NORMAL)
    (hmesh : vs.length ≤ meshes.length) {v : Slicer (Finset Point)} (hv : vs[c]? = some v)
    (hlay : ∀ (j : Nat) (w : Slicer (Finset Point)), vs[j]? = some w →
      carvableAt meshes j = true → v.layers.length ≤ w.layers.length) :
    ∃ out, carveCuttingMesh (pointSet g) meshes vs c = some out ∧ shape out = shape vs ∧
      ∀ j L, polygonsAt out j L = cutArea meshes vs c j L := by
  have hc : carvableAt meshes c = false := by simp [carvableAt, hcm, hcut]
  obtain ⟨out, hout, hshape, harea⟩ := foldlM_range_inv
    (carveCuttingLayer (pointSet g) meshes c cm)
    (fun k s => shape s = shape vs ∧
      ∀ j L, polygonsAt s j L = if L < k then cutArea meshes vs c j L else polygonsAt vs j L)
    v.layers.length vs ⟨rfl, by intro j L; simp⟩
    (by
      intro k hk s ⟨hs, ha⟩
      have hlen := shape_length hs
      obtain ⟨w, hw, _, hwl⟩ := shape_getElem? hs.symm hv
      obtain ⟨s', hs', hshape', ha'⟩ := carveCuttingLayer_normal g meshes c cm s k hmode hc
        (by omega) hw (by omega)
        (by
          intro j hj hjc
          have hjv : vs[j]? = some vs[j] := List.getElem?_eq_getElem (by omega)
          have := hlay j vs[j] hjv hjc
          rw [ha j k]
          simp only [Nat.lt_irrefl, if_false]
          exact ⟨_, polygonsAt_eq_some hjv (by omega)⟩)
      refine ⟨s', hs', hshape'.trans hs, ?_⟩
      intro j L
      rw [ha' j L]
      by_cases hL : L = k
      · subst hL
        simp only [if_true, Nat.lt_succ_self]
        exact cutArea_congr meshes c j L hlen (fun j => by simp [ha j L])
      · rw [if_neg hL, ha j L]
        by_cases hlt : L < k
        · simp [hlt, Nat.lt_succ_of_lt hlt]
        · have : ¬ L < k + 1 := by omega
          simp [hlt, this])
  refine ⟨out, ?_, hshape, ?_⟩
  · simp [carveCuttingMesh, hcm, hcut, hv, hout]
  · intro j L
    rw [harea j L]
    by_cases hL : L < v.layers.length
    · simp [hL]
    · have hnone : polygonsAt vs c L = none := polygonsAt_eq_none hv (by omega)
      simp only [hL, if_false, cutArea, hnone, Option.map_none', areaAt, Option.getD_none,
        Finset.sdiff_empty]
      by_cases hj : j = c
      · subst hj; simp [hnone]
      · simp only [hj, if_false]
        split
        · cases polygonsAt vs j L <;> rfl
        · rfl

theorem carveCuttingMesh_skip {P : Type} (K : PolygonOps P) (meshes : List Mesh)
    (vs : List (Slicer P)) (c : Nat) (hlt : c < meshes.length) (hc : cuttingAt meshes c = false) :
    carveCuttingMesh K meshes vs c = some vs := by
  have hcm : meshes[c]? = some meshes[c] := List.getElem?_eq_getElem hlt
  simp only [cuttingAt, hcm] at hc
  simp [carveCuttingMesh, hcm, hc]

end CuttingLayer
end MultiVolumes

/-! ## Re-partition by one cutting mesh, and scenario D -/

namespace MultiVolumes
section Repartition

theorem carvedUnion_subset (meshes : List Mesh) (vs : Store) (S : Finset Point) (L k : Nat) :
    carvedUnion meshes vs S L k ⊆ S := by
  intro p hp
  simp only [carvedUnion, Finset.mem_biUnion, Finset.mem_filter, Finset.mem_inter] at hp
  obtain ⟨_, _, hpS, _⟩ := hp
  exact hpS

/-- C7 (re-partition by one cutting mesh in area mode).  When the loop body of
`carveCuttingMeshes` runs for a cutting mesh in slot `c` in NORMAL surface mode whose
closed area at layer `L` is `S`, then the closed area of the cutting mesh at `L`
afterwards is the union, over the solids that are neither cutting mesh nor anti-overhang
nor support mesh, of `S ∩ C_i`; every such solid, of area `C` at `L` before, has area
`C \ S` afterwards; and the new area of the cutting mesh is disjoint from it. -/
theorem carveCuttingMesh_repartition (g : PointSetPrims) (meshes : List Mesh) (vs : Store)
    (c : Nat) (cm : Mesh) (v : Slicer (Finset Point)) (L : Nat) (S : Finset Point)
    (hcm : meshes[c]? = some cm) (hcut : cm.settings.cutting_mesh = true)
    (hmode : cm.settings.magic_mesh_surface_mode = ESurfaceMode.NORMAL)
    (hmesh : vs.length ≤ meshes.length) (hv : vs[c]? = some v)
    (hlay : ∀ (j : Nat) (w : Slicer (Finset Point)), vs[j]? = some w →
      carvableAt meshes j = true → v.layers.length ≤ w.layers.length)
    (hS : polygonsAt vs c L = some S) :
    ∃ out, carveCuttingMesh (pointSet g) meshes vs c = some out ∧
      polygonsAt out c L = some (((Finset.range vs.length).filter
        (fun i => carvableAt meshes i = true)).biUnion (fun i => S ∩ areaAt vs i L)) ∧
      ∀ (j : Nat) (C : Finset Point), carvableAt meshes j = true →
        polygonsAt vs j L = some C →
        polygonsAt out j L = some (C \ S) ∧
        ∀ A, polygonsAt out c L = some A → Disjoint A (C \ S) := by
  obtain ⟨out, hout, _, harea⟩ := carveCuttingMesh_normal g meshes vs c hcm hcut hmode hmesh hv
    hlay
  have hc : polygonsAt out c L = some (carvedUnion meshes vs S L vs.length) := by
    rw [harea c L]
    simp [cutArea, hS]
  refine ⟨out, hout, hc, ?_⟩
  intro j C hj hC
  have hjc : j ≠ c := by
    intro h
    subst h
    simp [carvableAt, hcm, hcut] at hj
  refine ⟨?_, ?_⟩
  · rw [harea j L]
    simp [cutArea, hjc, hj, hC, areaAt_eq hS]
  · intro A hA
    rw [hc] at hA
    cases hA
    exact Finset.disjoint_of_subset_left (carvedUnion_subset meshes vs S L vs.length)
      Finset.disjoint_sdiff

end Repartition

section ScenarioD

/-- C5 (scenario D).  A store of two solids, a cutting mesh in NORMAL surface mode in slot
`c` and a solid in slot `o` that is neither cutting mesh nor anti-overhang nor support
mesh and has no fewer layers; at a layer `L` the solid has closed area `C`, contained in
the closed area `S` of the cutting mesh.  After `carveCuttingMeshes` the solid has an
empty closed area at `L` and the cutting mesh has closed area `C`. -/
theorem carveCuttingMeshes_scenarioD (g : PointSetPrims) (meshes : List Mesh) (vs : Store)
    (c o : Nat) (cm om : Mesh) (vc vo : Slicer (Finset Point)) (L : Nat) (S C : Finset Point)
    (hlen : vs.length = 2) (hmlen : meshes.length = 2)
    (hcm : meshes[c]? = some cm) (hom : meshes[o]? = some om)
    (hcut : cm.settings.cutting_mesh = true)
    (hmode : cm.settings.magic_mesh_surface_mode = ESurfaceMode.NORMAL)
    (hord : om.settings.cutting_mesh = false ∧ om.settings.anti_overhang_mesh = false ∧
      om.settings.support_mesh = false)
    (hvc : vs[c]? = some vc) (hvo : vs[o]? = some vo)
    (hlay : vc.layers.length ≤ vo.layers.length)
    (hS : polygonsAt vs c L = some S) (hC : polygonsAt vs o L = some C) (hCS : C ⊆ S) :
    ∃ out, carveCuttingMeshes (pointSet g) vs meshes = some out ∧
      polygonsAt out o L = some ∅ ∧ polygonsAt out c L = some C := by
  have hclt : c < 2 := hlen ▸ (List.getElem?_eq_some_iff.mp hvc).1
  have holt : o < 2 := hlen ▸ (List.getElem?_eq_some_iff.mp hvo).1
  have hco : c ≠ o := by
    intro h
    subst h
    rw [hcm] at hom
    cases hom
    rw [hcut] at hord
    exact Bool.noConfusion hord.1
  have hcarvo : carvableAt meshes o = true := by
    simp [carvableAt, hom, hord.1, hord.2.1, hord.2.2]
  have hcarvc : carvableAt meshes c = false := by simp [carvableAt, hcm, hcut]
  have hcuto : cuttingAt meshes o = false := by simp [cuttingAt, hom, hord.1]
  obtain ⟨out, hout, hshape, harea⟩ := carveCuttingMesh_normal g meshes vs c hcm hcut hmode
    (by omega) hvc (by
      intro j w hw hj
      have hjlt : j < 2 := hlen ▸ (List.getElem?_eq_some_iff.mp hw).1
      have hjo : j = o := by
        by_contra hne
        have : j = c := by omega
        rw [this, hcarvc] at hj
        exact Bool.noConfusion hj
      subst hjo
      rw [hvo] at hw
      cases hw
      exact hlay)
  have hrun : carveCuttingMeshes (pointSet g) vs meshes = some out := by
    have hr : List.range vs.length = [0, 1] := by rw [hlen]; rfl
    simp only [carveCuttingMeshes, hr, List.foldlM_cons, List.foldlM_nil]
    have hc01 : (c = 0 ∧ o = 1) ∨ (c = 1 ∧ o = 0) := by omega
    rcases hc01 with ⟨rfl, rfl⟩ | ⟨rfl, rfl⟩
    · rw [hout]
      simp [carveCuttingMesh_skip (pointSet g) meshes out 1 (by omega) hcuto]
    · rw [carveCuttingMesh_skip (pointSet g) meshes vs 0 (by omega) hcuto]
      simp [hout]
  refine ⟨out, hrun, ?_, ?_⟩
  · rw [harea o L]
    simp [cutArea, Ne.symm hco, hcarvo, hC, areaAt_eq hS, Finset.sdiff_eq_empty_iff_subset, hCS]
  · rw [harea c L]
    simp only [cutArea, if_true, hS, Option.map_some', Option.some.injEq]
    ext p
    simp only [carvedUnion, Finset.mem_biUnion, Finset.mem_filter, Finset.mem_range,
      Finset.mem_inter]
    constructor
    · rintro ⟨i, ⟨hi, hic⟩, hpS, hpi⟩
      have hio : i = o := by
        by_contra hne
        have : i = c := by omega
        rw [this, hcarvc] at hic
        exact Bool.noConfusion hic
      subst hio
      rwa [areaAt_eq hC] at hpi
    · intro hp
      exact ⟨o, ⟨by omega, hcarvo⟩, hCS hp, by rwa [areaAt_eq hC]⟩

end ScenarioD
end MultiVolumes

/-! ## What cutting conserves -/

namespace MultiVolumes
section Conservation

theorem carvable_not_cutting {meshes : List Mesh} {j : Nat} (h : carvableAt meshes j = true) :
    cuttingAt meshes j = false := by
  unfold carvableAt at h
  unfold cuttingAt
  cases hm : meshes[j]? with
  | none => rfl
  | some m =>
    simp only [hm, Bool.not_eq_true', Bool.or_eq_false_iff] at h
    exact h.1.1

theorem areaAt_cutArea (meshes : List Mesh) (s out : Store) (k j L : Nat)
    (h : polygonsAt out j L = cutArea meshes s k j L) :
    areaAt out j L =
      if j = k then carvedUnion meshes s (areaAt s k L) L s.length
      else if carvableAt meshes j = true then areaAt s j L \ areaAt s k L
      else areaAt s j L := by
  unfold areaAt
  rw [h]
  unfold cutArea
  by_cases hj : j = k
  · subst hj
    simp only [if_true]
    cases polygonsAt s j L with
    | none =>
      ext p
      simp [carvedUnion]
    | some S => simp
  · simp only [hj, if_false]
    by_cases hc : carvableAt meshes j = true
    · simp only [hc, if_true]
      cases polygonsAt s j L with
      | none => simp
      | some C => simp [areaAt]
    · simp [hc]

/-- One turn of a cutting mesh in area mode keeps the union of the areas of the solids
that are not cutting meshes and of the cutting meshes already done. -/
theorem turn_union (meshes : List Mesh) (s out : Store) (k L : Nat) (hlen : out.length = s.length)
    (hk : k < s.length) (hcut : cuttingAt meshes k = true)
    (harea : ∀ j L, polygonsAt out j L = cutArea meshes s k j L) :
    nonCutUnion meshes out L ∪ cutUnion meshes out L (k + 1) =
      nonCutUnion meshes s L ∪ cutUnion meshes s L k := by
  have hA := fun j => areaAt_cutArea meshes s out k j L (harea j L)
  have hkc : carvableAt meshes k = false := by
    cases h : carvableAt meshes k with
    | false => rfl
    | true => rw [carvable_not_cutting h] at hcut; exact Bool.noConfusion hcut
  ext p
  simp only [nonCutUnion, cutUnion, hlen, Finset.mem_union, Finset.mem_biUnion,
    Finset.mem_filter, Finset.mem_range]
  constructor
  · rintro (⟨j, ⟨hj, hjn⟩, hp⟩ | ⟨j, ⟨hj, hjc⟩, hp⟩)
    · have hjk : j ≠ k := by
        intro h; subst h; rw [hcut] at hjn; exact Bool.noConfusion hjn
      rw [hA j, if_neg hjk] at hp
      left
      refine ⟨j, ⟨hj, hjn⟩, ?_⟩
      split at hp
      · exact (Finset.mem_sdiff.mp hp).1
      · exact hp
    · by_cases hjk : j = k
      · subst hjk
        rw [hA j, if_pos rfl] at hp
        simp only [carvedUnion, Finset.mem_biUnion, Finset.mem_filter, Finset.mem_range,
          Finset.mem_inter] at hp
        obtain ⟨i, ⟨hi, hic⟩, _, hpi⟩ := hp
        exact Or.inl ⟨i, ⟨hi, carvable_not_cutting hic⟩, hpi⟩
      · rw [hA j, if_neg hjk] at hp
        have hjnc : ¬ carvableAt meshes j = true := by
          intro h; rw [carvable_not_cutting h] at hjc; exact Bool.noConfusion hjc
        rw [if_neg hjnc] at hp
        exact Or.inr ⟨j, ⟨by omega, hjc⟩, hp⟩
  · rintro (⟨j, ⟨hj, hjn⟩, hp⟩ | ⟨j, ⟨hj, hjc⟩, hp⟩)
    · have hjk : j ≠ k := by
        intro h; subst h; rw [hcut] at hjn; exact Bool.noConfusion hjn
      by_cases hc : carvableAt meshes j = true
      · by_cases hpS : p ∈ areaAt s k L
        · right
          refine ⟨k, ⟨by omega, hcut⟩, ?_⟩
          rw [hA k, if_pos rfl]
          simp only [carvedUnion, Finset.mem_biUnion, Finset.mem_filter, Finset.mem_range,
            Finset.mem_inter]
          exact ⟨j, ⟨hj, hc⟩, hpS, hp⟩
        · left
          refine ⟨j, ⟨hj, hjn⟩, ?_⟩
          rw [hA j, if_neg hjk, if_pos hc]
          exact Finset.mem_sdiff.mpr ⟨hp, hpS⟩
      · left
        refine ⟨j, ⟨hj, hjn⟩, ?_⟩
        rw [hA j, if_neg hjk, if_neg hc]
        exact hp
    · have hjk : j ≠ k := by omega
      have hjnc : ¬ carvableAt meshes j = true := by
        intro h; rw [carvable_not_cutting h] at hjc; exact Bool.noConfusion hjc
      right
      refine ⟨j, ⟨by omega, hjc⟩, ?_⟩
      rw [hA j, if_neg hjk, if_neg hjnc]
      exact hp

theorem cutUnion_succ_of_not_cutting (meshes : List Mesh) (s : Store) (k L : Nat)
    (h : cuttingAt meshes k = false) : cutUnion meshes s L (k + 1) = cutUnion meshes s L k := by
  unfold cutUnion
  rw [Finset.range_succ, Finset.filter_insert]
  simp [h]

theorem unionAt_split (meshes : List Mesh) (s : Store) (L : Nat) :
    unionAt s L = nonCutUnion meshes s L ∪ cutUnion meshes s L s.length := by
  ext p
  simp only [unionAt, nonCutUnion, cutUnion, Finset.mem_union, Finset.mem_biUnion,
    Finset.mem_filter, Finset.mem_range]
  constructor
  · rintro ⟨j, hj, hp⟩
    cases hc : cuttingAt meshes j with
    | false => exact Or.inl ⟨j, ⟨hj, hc⟩, hp⟩
    | true => exact Or.inr ⟨j, ⟨hj, hc⟩, hp⟩
  · rintro (⟨j, ⟨hj, _⟩, hp⟩ | ⟨j, ⟨hj, _⟩, hp⟩) <;> exact ⟨j, hj, hp⟩

/-- The loop over the cutting meshes, all in area mode, on a store whose solids all have
`m` layers. -/
theorem carveCuttingMeshes_inv (g : PointSetPrims) (meshes : List Mesh) (vs : Store) (m : Nat)
    (hu : Uniform m vs) (hmlen : vs.length ≤ meshes.length)
    (hnormal : ∀ (j : Nat) (cm : Mesh), meshes[j]? = some cm → cm.settings.cutting_mesh = true →
      cm.settings.magic_mesh_surface_mode = ESurfaceMode.NORMAL) :
    ∃ out, carveCuttingMeshes (pointSet g) vs meshes = some out ∧ shape out = shape vs ∧
      ∀ L, nonCutUnion meshes out L ∪ cutUnion meshes out L vs.length =
        nonCutUnion meshes vs L := by
  obtain ⟨out, hout, hshape, hun⟩ := foldlM_range_inv (carveCuttingMesh (pointSet g) meshes)
    (fun k s => shape s = shape vs ∧
      ∀ L, nonCutUnion meshes s L ∪ cutUnion meshes s L k = nonCutUnion meshes vs L)
    vs.length vs ⟨rfl, by intro L; simp [cutUnion]⟩
    (by
      intro k hk s ⟨hs, hinv⟩
      have hlen := shape_length hs
      have hcm : meshes[k]? = some meshes[k] := List.getElem?_eq_getElem (by omega)
      by_cases hc : cuttingAt meshes k = true
      · have hcut : meshes[k].settings.cutting_mesh = true := by
          simpa [cuttingAt, hcm] using hc
        have hsu := uniform_of_shape hs hu
        have hkv : s[k]? = some s[k] := List.getElem?_eq_getElem (by omega)
        obtain ⟨s', hs', hshape', harea⟩ := carveCuttingMesh_normal g meshes s k hcm hcut
          (hnormal k _ hcm hcut) (by omega) hkv
          (by intro j w hw _; rw [hsu k _ hkv, hsu j w hw])
        refine ⟨s', hs', hshape'.trans hs, ?_⟩
        intro L
        rw [turn_union meshes s s' k L (shape_length hshape') (by omega) hc harea]
        exact hinv L
      · simp only [Bool.not_eq_true] at hc
        refine ⟨s, carveCuttingMesh_skip _ meshes s k (by omega) hc, hs, ?_⟩
        intro L
        rw [cutUnion_succ_of_not_cutting meshes s k L hc]
        exact hinv L)
  exact ⟨out, hout, hshape, hun⟩

/-- C6, as amended (what is conserved under cutting).  For a store whose solids all have
`m` layers and whose cutting meshes are all in NORMAL surface mode, `carveCuttingMeshes`
returns a store in which, at every layer, the union of the closed areas of all solids
equals the union of the closed areas that the solids other than cutting meshes had
before. -/
theorem carveCuttingMeshes_union (g : PointSetPrims) (meshes : List Mesh) (vs : Store) (m : Nat)
    (hu : Uniform m vs) (hmlen : vs.length ≤ meshes.length)
    (hnormal : ∀ (j : Nat) (cm : Mesh), meshes[j]? = some cm → cm.settings.cutting_mesh = true →
      cm.settings.magic_mesh_surface_mode = ESurfaceMode.NORMAL) :
    ∃ out, carveCuttingMeshes (pointSet g) vs meshes = some out ∧
      ∀ L, unionAt out L = nonCutUnion meshes vs L := by
  obtain ⟨out, hout, hshape, hun⟩ := carveCuttingMeshes_inv g meshes vs m hu hmlen hnormal
  refine ⟨out, hout, ?_⟩
  intro L
  rw [unionAt_split meshes out L, shape_length hshape]
  exact hun L

end Conservation
end MultiVolumes

/-! ## `generateMultipleVolumesOverlap` on point sets: the neighbour footprint -/

section OverlapLemmas

theorem neighbourArea_succ (g : PointSetPrims) (vs : Store) (vi : Nat) (aabb : AABB3D)
    (L k : Nat) :
    neighbourArea g vs vi aabb L (k + 1) =
      if bondEligible vs vi aabb k = true then
        neighbourArea g vs vi aabb L k ∪
          g.offset (areaAt vs k L) offset_to_merge_other_merged_volumes
      else neighbourArea g vs vi aabb L k := by
  unfold neighbourArea
  rw [Finset.range_succ, Finset.filter_insert]
  split
  · rw [Finset.biUnion_insert, Finset.union_comm]
  · rfl

/-- Lines 96-110 on point sets: `all_other_volumes` is the union of the offset areas of
the collected volumes, when each of them has the layer. -/
theorem allOtherVolumes_spec (g : PointSetPrims) (vs : Store) (vi : Nat) (aabb : AABB3D)
    (ft : PolyFillType) (L : Nat)
    (hlay : ∀ oi, oi < vs.length → bondEligible vs vi aabb oi = true →
      ∃ a, polygonsAt vs oi L = some a) :
    allOtherVolumes (pointSet g) vs vi aabb ft L =
      some (neighbourArea g vs vi aabb L vs.length) := by
  obtain ⟨acc, hacc, hinv⟩ := foldlM_range_inv
    (fun all_other_volumes oi => do
      let other_volume ← vs[oi]?
      if overlapExcluded other_volume.mesh
          || !(other_volume.mesh.getAABB.hit aabb)
          || oi == vi then
        pure all_other_volumes
      else do
        let other_volume_layer ← other_volume.layers[L]?
        pure ((pointSet g).unionPolygons all_other_volumes
          ((pointSet g).offset other_volume_layer.polygons offset_to_merge_other_merged_volumes)
          ft))
    (fun k acc => acc = neighbourArea g vs vi aabb L k)
    vs.length (pointSet g).empty (by simp [neighbourArea, pointSet])
    (by
      intro k hk acc hacc
      have hkv : vs[k]? = some vs[k] := List.getElem?_eq_getElem hk
      beta_reduce
      rw [neighbourArea_succ]
      by_cases he : bondEligible vs vi aabb k = true
      · obtain ⟨a, ha⟩ := hlay k hk he
        have hL : L < vs[k].layers.length := by
          by_contra hcon
          rw [polygonsAt_eq_none hkv (by omega)] at ha
          cases ha
        have hpa := polygonsAt_eq_some hkv hL
        have he' := he
        simp only [bondEligible, hkv, Bool.not_eq_true', Bool.or_eq_false_iff] at he'
        refine ⟨acc ∪ g.offset vs[k].layers[L].polygons offset_to_merge_other_merged_volumes,
          ?_, ?_⟩
        · simp only [hkv, Option.bind_eq_bind, Option.some_bind, he'.1.1, he'.1.2, he'.2,
            Bool.or_self, Bool.false_eq_true, if_false, List.getElem?_eq_getElem hL]
          rfl
        · rw [if_pos he, hacc, areaAt, hpa]
          rfl
      · refine ⟨acc, ?_, by rw [if_neg he]; exact hacc⟩
        simp only [Bool.not_eq_true] at he
        simp only [bondEligible, hkv, Bool.not_eq_false'] at he
        simp only [hkv, Option.bind_eq_bind, Option.some_bind, he, if_true]
        rfl)
  rw [← hinv]
  exact hacc

end OverlapLemmas

/-! ## `generateMultipleVolumesOverlap` on point sets: one layer, one volume -/

section OverlapVolume

theorem bondEligible_shape {P : Type} {s vs : List (Slicer P)} (h : shape s = shape vs) (vi : Nat)
    (aabb : AABB3D) (oi : Nat) : bondEligible s vi aabb oi = bondEligible vs vi aabb oi := by
  unfold bondEligible
  cases hs : s[oi]? with
  | none =>
    have : vs[oi]? = none := by
      have hl := shape_length h
      rw [List.getElem?_eq_none_iff] at hs ⊢
      omega
    simp [this]
  | some w =>
    obtain ⟨v, hv, hm, _⟩ := shape_getElem? h hs
    simp [hv, hm]

theorem neighbourArea_congr (g : PointSetPrims) {s vs : Store} (hshape : shape s = shape vs)
    (vi : Nat) (aabb : AABB3D) (L k : Nat)
    (hsame : ∀ j, polygonsAt s j L = polygonsAt vs j L) :
    neighbourArea g s vi aabb L k = neighbourArea g vs vi aabb L k := by
  simp [neighbourArea, areaAt, hsame, bondEligible_shape hshape]

/-- Lines 96-113 on point sets: the body of the layer loop of the bonding generator. -/
theorem overlapLayer_spec (g : PointSetPrims) (vi : Nat) (aabb : AABB3D) (ft : PolyFillType)
    (overlap : Int) (vs : Store) (L : Nat) {v : Slicer (Finset Point)} (hv : vs[vi]? = some v)
    (hL : L < v.layers.length)
    (hlay : ∀ oi, oi < vs.length → bondEligible vs vi aabb oi = true →
      ∃ a, polygonsAt vs oi L = some a) :
    ∃ out, overlapLayer (pointSet g) vi aabb ft overlap vs L = some out ∧
      shape out = shape vs ∧
      ∀ j L', polygonsAt out j L' =
        if j = vi ∧ L' = L then
          some (v.layers[L].polygons ∪ (neighbourArea g vs vi aabb L vs.length ∩
            g.offset v.layers[L].polygons (overlap.tdiv 2)))
        else polygonsAt vs j L' := by
  refine ⟨writeLayer vs vi L { v.layers[L] with
    polygons := v.layers[L].polygons ∪ (neighbourArea g vs vi aabb L vs.length ∩
      g.offset v.layers[L].polygons (overlap.tdiv 2)) }, ?_, shape_writeLayer _ _ _ _, ?_⟩
  · simp only [overlapLayer, allOtherVolumes_spec g vs vi aabb ft L hlay, hv,
      List.getElem?_eq_getElem hL, Option.bind_eq_bind, Option.some_bind]
    rfl
  · intro j L'
    rw [polygonsAt_writeLayer, polygonsAt_eq_some hv hL]
    split <;> simp

theorem bondArea_congr (g : PointSetPrims) {s vs : Store} (hshape : shape s = shape vs)
    (vi L : Nat) (hsame : ∀ j, polygonsAt s j L = polygonsAt vs j L) :
    bondArea g s vi L = bondArea g vs vi L := by
  unfold bondArea
  cases hs : s[vi]? with
  | none =>
    have : vs[vi]? = none := by
      have hl := shape_length hshape
      rw [List.getElem?_eq_none_iff] at hs ⊢
      omega
    simp [this]
  | some w =>
    obtain ⟨v, hv, hm, _⟩ := shape_getElem? hshape hs
    simp only [hv, hm, hsame, shape_length hshape,
      neighbourArea_congr g hshape vi _ L vs.length hsame]

/-- The turn of one volume in the bonding loop (lines 82-114) on point sets: it succeeds
when no collected volume has fewer layers, and only the areas of that volume change. -/
theorem overlapVolume_spec (g : PointSetPrims) (vs : Store) (vi : Nat)
    {v : Slicer (Finset Point)} (hv : vs[vi]? = some v)
    (hlay : ∀ (oi : Nat) (ov : Slicer (Finset Point)), vs[oi]? = some ov →
      bondEligible vs vi (v.mesh.getAABB.expandXY v.mesh.settings.multiple_mesh_overlap) oi = true →
      v.layers.length ≤ ov.layers.length) :
    ∃ out, overlapVolume (pointSet g) vs vi = some out ∧ shape out = shape vs ∧
      ∀ j L, polygonsAt out j L = if j = vi then bondArea g vs vi L else polygonsAt vs j L := by
  by_cases hskip : bondSkipped v.mesh = true
  · refine ⟨vs, ?_, rfl, ?_⟩
    · have hskip' := hskip
      simp only [bondSkipped] at hskip'
      simp only [overlapVolume, hv, Option.bind_eq_bind, Option.some_bind, hskip', if_true]
      rfl
    · intro j L
      split
      · rename_i hj
        subst hj
        simp [bondArea, hv, hskip]
      · rfl
  · obtain ⟨out, hout, hshape, harea⟩ := foldlM_range_inv
      (overlapLayer (pointSet g) vi
        (v.mesh.getAABB.expandXY v.mesh.settings.multiple_mesh_overlap)
        (if v.mesh.settings.meshfix_union_all then PolyFillType.pftNonZero
          else PolyFillType.pftEvenOdd)
        v.mesh.settings.multiple_mesh_overlap)
      (fun k s => shape s = shape vs ∧
        ∀ j L, polygonsAt s j L =
          if j = vi ∧ L < k then bondArea g vs vi L else polygonsAt vs j L)
      v.layers.length vs ⟨rfl, by intro j L; simp⟩
      (by
        intro k hk s ⟨hs, ha⟩
        have hlen := shape_length hs
        obtain ⟨w, hw, hwm, hwl⟩ := shape_getElem? hs.symm hv
        have hsame : ∀ j, polygonsAt s j k = polygonsAt vs j k := by
          intro j; simp [ha j k]
        obtain ⟨s', hs', hshape', ha'⟩ := overlapLayer_spec g vi
          (v.mesh.getAABB.expandXY v.mesh.settings.multiple_mesh_overlap)
          (if v.mesh.settings.meshfix_union_all then PolyFillType.pftNonZero
            else PolyFillType.pftEvenOdd)
          v.mesh.settings.multiple_mesh_overlap s k hw (by omega)
          (by
            intro oi hoi he
            rw [bondEligible_shape hs] at he
            have hov : vs[oi]? = some vs[oi] := List.getElem?_eq_getElem (by omega)
            have := hlay oi vs[oi] hov he
            rw [hsame oi]
            exact ⟨_, polygonsAt_eq_some hov (by omega)⟩)
        refine ⟨s', hs', hshape'.trans hs, ?_⟩
        intro j L
        rw [ha' j L]
        by_cases hj : j = vi
        · subst hj
          by_cases hL : L = k
          · subst hL
            have hP : polygonsAt vs j L = some w.layers[L].polygons := by
              rw [← hsame j]; exact polygonsAt_eq_some hw (by omega)
            simp only [and_self, if_true, Nat.lt_succ_self, bondArea, hv, hskip, hP,
              Option.map_some', hlen, neighbourArea_congr g hs j _ L vs.length hsame,
              Bool.false_eq_true, if_false]
          · have : L < k + 1 ↔ L < k := by omega
            simp [hL, this, ha j L]
        · simp [hj, ha j L])
    refine ⟨out, ?_, hshape, ?_⟩
    · have hskip' := hskip
      simp only [bondSkipped, Bool.not_eq_true, Bool.or_eq_false_iff] at hskip'
      simp only [overlapVolume, hv, Option.bind_eq_bind, Option.some_bind, hskip'.1, hskip'.2,
        Bool.or_self, Bool.false_eq_true, if_false]
      exact hout
    · intro j L
      rw [harea j L]
      by_cases hj : j = vi
      · subst hj
        by_cases hL : L < v.layers.length
        · simp [hL]
        · simp only [hL, and_false, if_false, if_true, bondArea, hv, hskip,
            polygonsAt_eq_none hv (Nat.le_of_not_lt hL), Option.map_none', Bool.false_eq_true]
      · simp [hj]

end OverlapVolume

/-! ## `generateMultipleVolumesOverlap` on point sets: the whole loop -/

section OverlapLoop

theorem grows_refl (vs : Store) : Grows vs vs :=
  ⟨rfl, fun _ _ _ a _ ha => ⟨a, ha, Finset.Subset.refl a, fun _ => rfl⟩⟩

theorem grows_trans {a b c : Store} (hab : Grows a b) (hbc : Grows b c) : Grows a c := by
  refine ⟨hbc.1.trans hab.1, ?_⟩
  intro j L v x hv hx
  obtain ⟨y, hy, hxy, hsy⟩ := hab.2 j L v x hv hx
  obtain ⟨w, hw, hwm, _⟩ := shape_getElem? hab.1.symm hv
  obtain ⟨z, hz, hyz, hsz⟩ := hbc.2 j L w y hw hy
  refine ⟨z, hz, hxy.trans hyz, ?_⟩
  intro hs
  rw [hsz (by rw [hwm]; exact hs), hsy hs]

/-- The turn of one volume in the bonding loop only adds area, and adds none to a volume
that is passed over. -/
theorem overlapVolume_grows (g : PointSetPrims) (vs : Store) (m : Nat) (hu : Uniform m vs)
    (vi : Nat) (hvi : vi < vs.length) :
    ∃ out, overlapVolume (pointSet g) vs vi = some out ∧ Grows vs out := by
  have hv : vs[vi]? = some vs[vi] := List.getElem?_eq_getElem hvi
  obtain ⟨out, hout, hshape, harea⟩ := overlapVolume_spec g vs vi hv
    (by intro oi ov hov _; rw [hu vi _ hv, hu oi ov hov])
  refine ⟨out, hout, hshape, ?_⟩
  intro j L w a hw ha
  rw [harea j L]
  by_cases hj : j = vi
  · subst hj
    rw [hv] at hw
    cases hw
    simp only [if_true, bondArea, hv, ha, Option.map_some']
    by_cases hs : bondSkipped vs[j].mesh = true
    · simp [hs]
    · simp only [hs, Bool.false_eq_true, if_false, Option.some.injEq, exists_eq_left',
        Finset.subset_union_left, IsEmpty.forall_iff, and_self]
  · simp only [hj, if_false]
    exact ⟨a, ha, Finset.Subset.refl a, fun _ => rfl⟩

/-- The bonding generator on a store whose solids all have `m` layers: it succeeds, only
adds area, and adds none to a volume that is passed over. -/
theorem generateMultipleVolumesOverlap_grows (g : PointSetPrims) (vs : Store) (m : Nat)
    (hu : Uniform m vs) :
    ∃ out, generateMultipleVolumesOverlap (pointSet g) vs = some out ∧ Grows vs out := by
  unfold generateMultipleVolumesOverlap
  split
  · exact ⟨vs, rfl, grows_refl vs⟩
  · exact foldlM_range_inv (overlapVolume (pointSet g)) (fun _ s => Grows vs s) vs.length vs
      (grows_refl vs)
      (by
        intro k hk s hs
        have hlen := shape_length hs.1
        obtain ⟨s', hs', hg⟩ := overlapVolume_grows g s m (uniform_of_shape hs.1 hu) k (by omega)
        exact ⟨s', hs', grows_trans hs hg⟩)

/-- C8, as amended (a second bonding pass).  For a store whose solids all have `m` layers,
`generateMultipleVolumesOverlap` succeeds on the store and again on its own output; the
second application never removes area (every closed area after the first application is
contained in the area after the second) and leaves unchanged every solid that is an
infill, anti-overhang or support mesh or whose overlap is zero. -/
theorem generateMultipleVolumesOverlap_twice (g : PointSetPrims) (vs : Store) (m : Nat)
    (hu : Uniform m vs) :
    ∃ out1 out2, generateMultipleVolumesOverlap (pointSet g) vs = some out1 ∧
      generateMultipleVolumesOverlap (pointSet g) out1 = some out2 ∧
      ∀ (j L : Nat) (v : Slicer (Finset Point)) (a1 : Finset Point), out1[j]? = some v →
        polygonsAt out1 j L = some a1 →
        ∃ a2, polygonsAt out2 j L = some a2 ∧ a1 ⊆ a2 ∧
          (bondSkipped v.mesh = true → a2 = a1) := by
  obtain ⟨out1, h1, hg1⟩ := generateMultipleVolumesOverlap_grows g vs m hu
  obtain ⟨out2, h2, hg2⟩ := generateMultipleVolumesOverlap_grows g out1 m
    (uniform_of_shape hg1.1 hu)
  exact ⟨out1, out2, h1, h2, hg2.2⟩

/-- The turn of a volume for which no other volume is collected changes no area. -/
theorem overlapVolume_alone (g : PointSetPrims) (vs : Store) (vi : Nat)
    {v : Slicer (Finset Point)} (hv : vs[vi]? = some v)
    (hnone : ∀ oi, bondEligible vs vi
      (v.mesh.getAABB.expandXY v.mesh.settings.multiple_mesh_overlap) oi = false) :
    ∃ out, overlapVolume (pointSet g) vs vi = some out ∧ shape out = shape vs ∧
      ∀ j L, polygonsAt out j L = polygonsAt vs j L := by
  obtain ⟨out, hout, hshape, harea⟩ := overlapVolume_spec g vs vi hv
    (by intro oi ov _ he; rw [hnone oi] at he; exact Bool.noConfusion he)
  refine ⟨out, hout, hshape, ?_⟩
  intro j L
  rw [harea j L]
  split
  · rename_i hj
    subst hj
    have hN : ∀ k, neighbourArea g vs j
        (v.mesh.getAABB.expandXY v.mesh.settings.multiple_mesh_overlap) L k = ∅ := by
      intro k
      simp [neighbourArea, hnone]
    simp only [bondArea, hv, hN, Finset.empty_inter, Finset.union_empty]
    split
    · rfl
    · cases polygonsAt vs j L <;> rfl
  · rfl

/-- C10, as amended (scenario A for the bonding generator).  For two solids such that
neither bounding box hits the bounding box of the other expanded on X and Y by that
other solid's own `multiple_mesh_overlap`, `generateMultipleVolumesOverlap` leaves the
closed areas of both solids unchanged at every layer. -/
theorem generateMultipleVolumesOverlap_scenarioA (g : PointSetPrims)
    (v0 v1 : Slicer (Finset Point))
    (h01 : v1.mesh.getAABB.hit
      (v0.mesh.getAABB.expandXY v0.mesh.settings.multiple_mesh_overlap) = false)
    (h10 : v0.mesh.getAABB.hit
      (v1.mesh.getAABB.expandXY v1.mesh.settings.multiple_mesh_overlap) = false) :
    ∃ out, generateMultipleVolumesOverlap (pointSet g) [v0, v1] = some out ∧
      ∀ j L, polygonsAt out j L = polygonsAt [v0, v1] j L := by
  have e0 : ∀ oi, bondEligible [v0, v1] 0
      (v0.mesh.getAABB.expandXY v0.mesh.settings.multiple_mesh_overlap) oi = false := by
    intro oi
    match oi with
    | 0 => simp [bondEligible]
    | 1 => simp [bondEligible, h01]
    | n + 2 => simp [bondEligible]
  have e1 : ∀ oi, bondEligible [v0, v1] 1
      (v1.mesh.getAABB.expandXY v1.mesh.settings.multiple_mesh_overlap) oi = false := by
    intro oi
    match oi with
    | 0 => simp [bondEligible, h10]
    | 1 => simp [bondEligible]
    | n + 2 => simp [bondEligible]
  obtain ⟨s1, hs1, hshape1, ha1⟩ := overlapVolume_alone g [v0, v1] 0
    (show [v0, v1][0]? = some v0 from rfl) e0
  obtain ⟨w1, hw1, hwm, _⟩ := shape_getElem? hshape1.symm (show [v0, v1][1]? = some v1 from rfl)
  obtain ⟨s2, hs2, _, ha2⟩ := overlapVolume_alone g s1 1 hw1
    (by intro oi; rw [bondEligible_shape hshape1, hwm]; exact e1 oi)
  refine ⟨s2, ?_, ?_⟩
  · have hr : List.range 2 = [0, 1] := rfl
    simp [generateMultipleVolumesOverlap, hr, hs1, hs2]
  · intro j L
    rw [ha2 j L, ha1 j L]

end OverlapLoop

/-! ## The concrete instance -/

section ConcreteLemmas

theorem insertSorted_perm (lt : Nat → Nat → Bool) (x : Nat) (l : List Nat) :
    (insertSorted lt x l).Perm (x :: l) := by
  induction l with
  | nil => exact List.Perm.refl _
  | cons y ys ih =>
    unfold insertSorted
    split
    · exact List.Perm.refl _
    · exact (List.Perm.cons y ih).trans (List.Perm.swap x y ys)

theorem foldl_insertSorted_perm (lt : Nat → Nat → Bool) (l : List Nat) :
    ∀ acc, (l.foldl (fun acc x => insertSorted lt x acc) acc).Perm (l ++ acc) := by
  induction l with
  | nil => intro acc; exact List.Perm.refl _
  | cons x xs ih =>
    intro acc
    simp only [List.foldl_cons, List.cons_append]
    refine (ih _).trans ?_
    exact (List.Perm.append_left xs (insertSorted_perm lt x acc)).trans
      List.perm_middle

theorem insertSorted_sorted (key : Nat → Int) (x : Nat) (l : List Nat)
    (h : l.Pairwise (fun a b => key a ≤ key b)) :
    (insertSorted (fun a b => decide (key a < key b)) x l).Pairwise
      (fun a b => key a ≤ key b) := by
  induction l with
  | nil => simp [insertSorted]
  | cons y ys ih =>
    rw [List.pairwise_cons] at h
    unfold insertSorted
    split
    · rename_i hxy
      simp only [decide_eq_true_eq] at hxy
      refine List.Pairwise.cons ?_ (List.Pairwise.cons h.1 h.2)
      intro z hz
      rcases List.mem_cons.mp hz with rfl | hz
      · omega
      · have := h.1 z hz
        omega
    · rename_i hxy
      simp only [decide_eq_true_eq, not_lt] at hxy
      refine List.Pairwise.cons ?_ (ih h.2)
      intro z hz
      have hz' : z ∈ x :: ys := (insertSorted_perm _ x ys).subset hz
      rcases List.mem_cons.mp hz' with rfl | hz'
      · exact hxy
      · exact h.1 z hz'

theorem foldl_insertSorted_sorted (key : Nat → Int) (l : List Nat) :
    ∀ acc, acc.Pairwise (fun a b => key a ≤ key b) →
      (l.foldl (fun acc x => insertSorted (fun a b => decide (key a < key b)) x acc) acc).Pairwise
        (fun a b => key a ≤ key b) := by
  induction l with
  | nil => intro acc h; exact h
  | cons x xs ih =>
    intro acc h
    exact ih _ (insertSorted_sorted key x acc h)

/-- The stable insertion sort meets the contract of `std::sort`. -/
theorem stableSort_contract : StdSortContract stableSort := by
  intro key l
  refine ⟨?_, foldl_insertSorted_sorted key l [] List.Pairwise.nil⟩
  have := foldl_insertSorted_perm (fun a b => decide (key a < key b)) l []
  simpa [stableSort] using this

theorem mem_boxOffset (a : Finset Point) (d : Int) (p : Point) :
    p ∈ boxOffset a d ↔
      ∃ q ∈ a, q.1 - d ≤ p.1 ∧ p.1 ≤ q.1 + d ∧ q.2 - d ≤ p.2 ∧ p.2 ≤ q.2 + d := by
  simp only [boxOffset, Finset.mem_biUnion, Finset.mem_product, Finset.mem_Icc]
  constructor
  · rintro ⟨q, hq, ⟨h1, h2⟩, h3, h4⟩
    exact ⟨q, hq, h1, h2, h3, h4⟩
  · rintro ⟨q, hq, h1, h2, h3, h4⟩
    exact ⟨q, hq, ⟨h1, h2⟩, h3, h4⟩

theorem uniform_pair {P : Type} (m : Nat) (a b : Slicer P) (ha : a.layers.length = m)
    (hb : b.layers.length = m) : Uniform m [a, b] := by
  intro i v hv
  match i with
  | 0 => cases hv; exact ha
  | 1 => cases hv; exact hb
  | n + 2 => cases hv

end ConcreteLemmas

/-! ## The theorems at concrete stores -/

section Witnesses

/-- The non-overlap theorem applied to two bars that share the point `(1, 0)`. -/
theorem carveMultipleVolumes_nonoverlap_witness :
    ∃ out, carveMultipleVolumes (pointSet boxPrims) stableSort true [barLeft, barRight] =
        some out ∧
      shape out = shape [barLeft, barRight] ∧
      ∀ (i j : Nat) (vi vj : Slicer (Finset Point)), i ≠ j →
        out[i]? = some vi → out[j]? = some vj →
        carveExcluded vi.mesh = false → carveExcluded vj.mesh = false →
        ∀ (L : Nat) (a b : Finset Point),
          polygonsAt out i L = some a → polygonsAt out j L = some b → a ∩ b = ∅ :=
  carveMultipleVolumes_nonoverlap boxPrims stableSort stableSort_contract true
    [barLeft, barRight] 1 (fun _ => 0) (uniform_pair 1 barLeft barRight rfl rfl)
    (by
      intro i L v a hv ha p hp
      match i, L with
      | 0, 0 =>
        cases hv
        cases ha
        change p ∈ ({(0, 0), (1, 0)} : Finset Point) at hp
        simp only [Finset.mem_insert, Finset.mem_singleton] at hp
        rcases hp with rfl | rfl <;> decide
      | 1, 0 =>
        cases hv
        cases ha
        change p ∈ ({(1, 0), (2, 0)} : Finset Point) at hp
        simp only [Finset.mem_insert, Finset.mem_singleton] at hp
        rcases hp with rfl | rfl <;> decide
      | 0, L + 1 => cases ha
      | 1, L + 1 => cases ha
      | n + 2, _ => cases hv)

/-- The direction theorem applied to two equal bars of the same order, alternate carve order on. -/
theorem carvePair_direction_witness :
    ∃ out, carvePair (pointSet boxPrims) true 1 0 [twinLow, twinLow] = some out ∧
      (∀ (L : Nat) (cur other : Finset Point), polygonsAt [twinLow, twinLow] 1 L = some cur →
        polygonsAt [twinLow, twinLow] 0 L = some other →
        if true = true ∧ L % 2 = 0 ∧
            twinLow.mesh.settings.infill_mesh_order = twinLow.mesh.settings.infill_mesh_order then
          polygonsAt out 0 L = some ((pointSet boxPrims).difference other cur) ∧
            polygonsAt out 1 L = some cur
        else
          polygonsAt out 1 L = some ((pointSet boxPrims).difference cur other) ∧
            polygonsAt out 0 L = some other) ∧
      ∀ (j L : Nat), j ≠ 1 → j ≠ 0 → polygonsAt out j L = polygonsAt [twinLow, twinLow] j L :=
  carvePair_direction (pointSet boxPrims) true 1 0 [twinLow, twinLow] twinLow twinLow rfl rfl
    (by decide) (by decide) (by decide) (by decide)

/-- Scenario B on two equal bars of two layers, the solid of order 1 placed first in the store. -/
theorem carveMultipleVolumes_scenarioB_witness :
    ∃ out, carveMultipleVolumes (pointSet boxPrims) stableSort true [twinHigh, twinLow] =
        some out ∧
      ∀ L, L < 2 → polygonsAt out 0 L = some ∅ ∧
        polygonsAt out 1 L = some ((fun _ => {(0, 0), (1, 0)}) L) :=
  carveMultipleVolumes_scenarioB boxPrims stableSort stableSort_contract true
    [twinHigh, twinLow] 1 0 twinLow twinHigh 2 (fun _ => {(0, 0), (1, 0)}) rfl rfl rfl
    (by decide) (by decide) (by decide) rfl rfl rfl rfl
    (by intro L hL; match L with
      | 0 => rfl
      | 1 => rfl)
    (by intro L hL; match L with
      | 0 => rfl
      | 1 => rfl)

/-- Scenario C on two equal bars of two layers, both of order 0. -/
theorem carveMultipleVolumes_scenarioC_witness :
    ∃ out first second, rankedVolumes stableSort [twinLow, twinLow] = [first, second] ∧
      carveMultipleVolumes (pointSet boxPrims) stableSort true [twinLow, twinLow] = some out ∧
      ∀ L, L < 2 →
        (L % 2 = 0 → polygonsAt out first L = some ∅ ∧
          polygonsAt out second L = some ((fun _ => {(0, 0), (1, 0)}) L)) ∧
        (L % 2 = 1 → polygonsAt out second L = some ∅ ∧
          polygonsAt out first L = some ((fun _ => {(0, 0), (1, 0)}) L)) :=
  carveMultipleVolumes_scenarioC boxPrims stableSort stableSort_contract
    [twinLow, twinLow] twinLow twinLow 2 (fun _ => {(0, 0), (1, 0)}) rfl
    (by decide) (by decide) (by decide) rfl rfl rfl rfl
    (by intro L hL; match L with
      | 0 => rfl
      | 1 => rfl)
    (by intro L hL; match L with
      | 0 => rfl
      | 1 => rfl)

/-- Scenario A for carving on two points five units apart. -/
theorem carveMultipleVolumes_scenarioA_witness :
    carveMultipleVolumes (pointSet boxPrims) stableSort true [dotOrigin, dotAt 5] =
      some [dotOrigin, dotAt 5] :=
  carveMultipleVolumes_scenarioA (pointSet boxPrims) stableSort stableSort_contract true
    dotOrigin (dotAt 5) (by decide)

/-- The theorem on a second bonding pass applied to two adjacent points. -/
theorem generateMultipleVolumesOverlap_twice_witness :
    ∃ out1 out2, generateMultipleVolumesOverlap (pointSet boxPrims) [bondDot 2, dotAt 1] =
        some out1 ∧
      generateMultipleVolumesOverlap (pointSet boxPrims) out1 = some out2 ∧
      ∀ (j L : Nat) (v : Slicer (Finset Point)) (a1 : Finset Point), out1[j]? = some v →
        polygonsAt out1 j L = some a1 →
        ∃ a2, polygonsAt out2 j L = some a2 ∧ a1 ⊆ a2 ∧
          (bondSkipped v.mesh = true → a2 = a1) :=
  generateMultipleVolumesOverlap_twice boxPrims [bondDot 2, dotAt 1] 1
    (uniform_pair 1 (bondDot 2) (dotAt 1) rfl rfl)

/-- Scenario A for bonding on two points fifty units apart, the first with overlap 10. -/
theorem generateMultipleVolumesOverlap_scenarioA_witness :
    ∃ out, generateMultipleVolumesOverlap (pointSet boxPrims) [bondDot 10, dotAt 50] =
        some out ∧
      ∀ j L, polygonsAt out j L = polygonsAt [bondDot 10, dotAt 50] j L :=
  generateMultipleVolumesOverlap_scenarioA boxPrims (bondDot 10) (dotAt 50)
    (by decide) (by decide)

end Witnesses

namespace MultiVolumes
section CuttingWitnesses

/-- Scenario D on a cutting bar of two points and a solid that is its first point. -/
theorem carveCuttingMeshes_scenarioD_witness :
    ∃ out, carveCuttingMeshes (pointSet boxPrims) [stencilBar, dotOrigin]
        [stencilBar.mesh, dotOrigin.mesh] = some out ∧
      polygonsAt out 1 0 = some ∅ ∧ polygonsAt out 0 0 = some {(0, 0)} :=
  carveCuttingMeshes_scenarioD boxPrims [stencilBar.mesh, dotOrigin.mesh]
    [stencilBar, dotOrigin] 0 1 stencilBar.mesh dotOrigin.mesh stencilBar dotOrigin 0
    {(0, 0), (1, 0)} {(0, 0)} rfl rfl rfl rfl rfl rfl ⟨rfl, rfl, rfl⟩ rfl rfl (by decide)
    rfl rfl (by decide)

/-- The union theorem on a cutting bar of two points and a solid that is its first point. -/
theorem carveCuttingMeshes_union_witness :
    ∃ out, carveCuttingMeshes (pointSet boxPrims) [stencilBar, dotOrigin]
        [stencilBar.mesh, dotOrigin.mesh] = some out ∧
      ∀ L, unionAt out L = nonCutUnion [stencilBar.mesh, dotOrigin.mesh]
        [stencilBar, dotOrigin] L :=
  carveCuttingMeshes_union boxPrims [stencilBar.mesh, dotOrigin.mesh] [stencilBar, dotOrigin] 1
    (uniform_pair 1 stencilBar dotOrigin rfl rfl) (by decide)
    (by
      intro j cm hcm _
      match j with
      | 0 => cases hcm; rfl
      | 1 => cases hcm; rfl
      | n + 2 => cases hcm)

/-- The re-partition theorem on a cutting bar of two points and a solid that is its first point. -/
theorem carveCuttingMesh_repartition_witness :
    ∃ out, carveCuttingMesh (pointSet boxPrims) [stencilBar.mesh, dotOrigin.mesh]
        [stencilBar, dotOrigin] 0 = some out ∧
      polygonsAt out 0 0 = some (((Finset.range [stencilBar, dotOrigin].length).filter
        (fun i => carvableAt [stencilBar.mesh, dotOrigin.mesh] i = true)).biUnion
          (fun i => {(0, 0), (1, 0)} ∩ areaAt [stencilBar, dotOrigin] i 0)) ∧
      ∀ (j : Nat) (C : Finset Point), carvableAt [stencilBar.mesh, dotOrigin.mesh] j = true →
        polygonsAt [stencilBar, dotOrigin] j 0 = some C →
        polygonsAt out j 0 = some (C \ {(0, 0), (1, 0)}) ∧
        ∀ A, polygonsAt out 0 0 = some A → Disjoint A (C \ {(0, 0), (1, 0)}) :=
  carveCuttingMesh_repartition boxPrims [stencilBar.mesh, dotOrigin.mesh]
    [stencilBar, dotOrigin] 0 stencilBar.mesh stencilBar 0 {(0, 0), (1, 0)} rfl rfl rfl
    (by decide) rfl
    (by
      intro j w hw _
      match j with
      | 0 => cases hw; decide
      | 1 => cases hw; decide
      | n + 2 => cases hw)
    rfl

end CuttingWitnesses
end MultiVolumes

/-! ## Stores on which areas change or are lost -/

section Counterexamples

/-- C10, as stated, fails.  The boxes of `bondDot 10` (the origin) and of `dotAt 5` do not
hit, yet `generateMultipleVolumesOverlap` changes the closed area of the first solid: its
box expanded by its overlap 10 hits the other box, and the point `(1, 0)` is added. -/
theorem bonding_across_gap_changes_area :
    (bondDot 10).mesh.getAABB.hit (dotAt 5).mesh.getAABB = false ∧
    (dotAt 5).mesh.getAABB.hit (bondDot 10).mesh.getAABB = false ∧
    ∃ out, generateMultipleVolumesOverlap (pointSet boxPrims) [bondDot 10, dotAt 5] = some out ∧
      polygonsAt out 0 0 ≠ polygonsAt [bondDot 10, dotAt 5] 0 0 := by
  refine ⟨by decide, by decide, _, rfl, ?_⟩
  change some (({(0, 0)} : Finset Point) ∪
    ((∅ ∪ boxOffset {(5, 0)} 20) ∩ boxOffset {(0, 0)} 5)) ≠ some {(0, 0)}
  intro h
  have hmem : ((1, 0) : Point) ∈ ({(0, 0)} : Finset Point) ∪
      ((∅ ∪ boxOffset {(5, 0)} 20) ∩ boxOffset {(0, 0)} 5) := by
    refine Finset.mem_union_right _ (Finset.mem_inter.mpr ⟨Finset.mem_union_right _ ?_, ?_⟩)
    · exact (mem_boxOffset _ _ _).mpr ⟨(5, 0), by simp, by decide⟩
    · exact (mem_boxOffset _ _ _).mpr ⟨(0, 0), by simp, by decide⟩
  rw [Option.some.inj h] at hmem
  exact absurd (Finset.mem_singleton.mp hmem) (by decide)

/-- C8, as stated, fails.  On the store of `bondDot 2` (the origin, overlap 2) and
`dotAt 1`, a second application of `generateMultipleVolumesOverlap` changes the closed area
of the first solid again: the point `(2, 0)` is not in it after one application and is in
it after two. -/
theorem bonding_second_pass_changes_area :
    ∃ out1 out2, generateMultipleVolumesOverlap (pointSet boxPrims) [bondDot 2, dotAt 1] =
        some out1 ∧
      generateMultipleVolumesOverlap (pointSet boxPrims) out1 = some out2 ∧
      polygonsAt out2 0 0 ≠ polygonsAt out1 0 0 := by
  refine ⟨_, _, rfl, rfl, ?_⟩
  change some ((({(0, 0)} : Finset Point) ∪
      ((∅ ∪ boxOffset {(1, 0)} 20) ∩ boxOffset {(0, 0)} 1)) ∪
    ((∅ ∪ boxOffset {(1, 0)} 20) ∩
      boxOffset (({(0, 0)} : Finset Point) ∪
        ((∅ ∪ boxOffset {(1, 0)} 20) ∩ boxOffset {(0, 0)} 1)) 1)) ≠
    some (({(0, 0)} : Finset Point) ∪ ((∅ ∪ boxOffset {(1, 0)} 20) ∩ boxOffset {(0, 0)} 1))
  intro h
  have h10 : ((1, 0) : Point) ∈ ({(0, 0)} : Finset Point) ∪
      ((∅ ∪ boxOffset {(1, 0)} 20) ∩ boxOffset {(0, 0)} 1) := by
    refine Finset.mem_union_right _ (Finset.mem_inter.mpr ⟨Finset.mem_union_right _ ?_, ?_⟩)
    · exact (mem_boxOffset _ _ _).mpr ⟨(1, 0), by simp, by decide⟩
    · exact (mem_boxOffset _ _ _).mpr ⟨(0, 0), by simp, by decide⟩
  have hmem : ((2, 0) : Point) ∈ (({(0, 0)} : Finset Point) ∪
      ((∅ ∪ boxOffset {(1, 0)} 20) ∩ boxOffset {(0, 0)} 1)) ∪
    ((∅ ∪ boxOffset {(1, 0)} 20) ∩
      boxOffset (({(0, 0)} : Finset Point) ∪
        ((∅ ∪ boxOffset {(1, 0)} 20) ∩ boxOffset {(0, 0)} 1)) 1) := by
    refine Finset.mem_union_right _ (Finset.mem_inter.mpr ⟨Finset.mem_union_right _ ?_, ?_⟩)
    · exact (mem_boxOffset _ _ _).mpr ⟨(1, 0), by simp, by decide⟩
    · rw [mem_boxOffset]
      refine ⟨(1, 0), h10, ?_⟩
      decide
  rw [Option.some.inj h] at hmem
  rcases Finset.mem_union.mp hmem with h0 | h1
  · exact absurd (Finset.mem_singleton.mp h0) (by decide)
  · obtain ⟨q, hq, hb⟩ := (mem_boxOffset _ _ _).mp (Finset.mem_inter.mp h1).2
    rw [Finset.mem_singleton.mp hq] at hb
    exact absurd hb (by decide)

end Counterexamples

namespace MultiVolumes
section CuttingCounterexample

/-- C6, as stated, fails.  The store holds a cutting mesh in NORMAL surface mode with
closed area `{(0, 0), (1, 0)}` and an ordinary solid with closed area `{(0, 0)}`.  Before
`carveCuttingMeshes` the union of all closed areas at layer 0 contains `(1, 0)`; after it,
the union is `{(0, 0)}`: the part of the cutting mesh outside every carved solid is
dropped. -/
theorem cutting_drops_uncovered_area :
    stencilBar.mesh.settings.magic_mesh_surface_mode = ESurfaceMode.NORMAL ∧
    ∃ out, carveCuttingMeshes (pointSet boxPrims) [stencilBar, dotOrigin]
        [stencilBar.mesh, dotOrigin.mesh] = some out ∧
      unionAt [stencilBar, dotOrigin] 0 ≠ unionAt out 0 := by
  refine ⟨rfl, _, rfl, ?_⟩
  decide

end CuttingCounterexample
end MultiVolumes

/-! ## `carveMultipleVolumes` over any polygon algebra: properties kept by every pair -/

section CarveGeneric
variable {P : Type}

/-- The body of the inner loop either returns the store as it is (volume_2 is excluded or
the boxes do not hit) or runs the layer loop, which needs volume_2 to have no fewer layers
than volume_1. -/
theorem carvePair_cases (K : PolygonOps P) (alt : Bool) (i1 i2 : Nat) (vs : List (Slicer P))
    {v1 v2 : Slicer P} (h1 : vs[i1]? = some v1) (h2 : vs[i2]? = some v2)
    (hlen : carveExcluded v2.mesh = false → v1.mesh.getAABB.hit v2.mesh.getAABB = true →
      v1.layers.length ≤ v2.layers.length) :
    carvePair K alt i1 i2 vs = some vs ∨
      (carveExcluded v2.mesh = false ∧ v1.mesh.getAABB.hit v2.mesh.getAABB = true ∧
        ∃ out, carvePair K alt i1 i2 vs = some out ∧ shape out = shape vs ∧
          ∀ j L, polygonsAt out j L = pairArea K alt vs i1 i2 j L) := by
  by_cases hex : carveExcluded v2.mesh = true
  · exact Or.inl (by simp [carvePair, h1, h2, hex])
  · by_cases hhit : v1.mesh.getAABB.hit v2.mesh.getAABB = false
    · exact Or.inl (by simp [carvePair, h1, h2, hex, hhit])
    · simp only [Bool.not_eq_true] at hex
      simp only [Bool.not_eq_false] at hhit
      obtain ⟨out, hout, hshape, harea⟩ := carvePair_spec K alt i1 i2 vs h1 h2 (hlen hex hhit)
      refine Or.inr ⟨hex, hhit, out, hout, hshape, ?_⟩
      intro j L
      rw [harea j L]
      simp [hex, hhit]

/-- The body of the outer loop at position `a` of the ranked list, for a property `I` of
stores that every processed pair preserves. -/
theorem carveVolume_inv (K : PolygonOps P) (alt : Bool) (r : List Nat)
    (vs0 s : List (Slicer P)) (a : Nat) (hs : shape s = shape vs0)
    (hr : ∀ b, b ≤ a → ∃ i, r[b]? = some i ∧ i < vs0.length)
    (hinj : ∀ (b i : Nat), b < a → r[b]? = some i → r[a]? ≠ some i)
    (hlay : ∀ (b i1 i2 : Nat), b < a → r[a]? = some i1 → r[b]? = some i2 → Active vs0 i1 i2 →
      ∀ (v1 v2 : Slicer P), vs0[i1]? = some v1 → vs0[i2]? = some v2 →
        v1.layers.length ≤ v2.layers.length)
    (I : List (Slicer P) → Prop) (hI : I s)
    (hstep : ∀ (t t' : List (Slicer P)) (b i1 i2 : Nat), shape t = shape vs0 → I t → b < a →
      r[a]? = some i1 → r[b]? = some i2 → i1 ≠ i2 → Active vs0 i1 i2 → shape t' = shape t →
      (∀ j L, polygonsAt t' j L = pairArea K alt t i1 i2 j L) → I t') :
    ∃ out, carveVolume K alt r s a = some out ∧ shape out = shape vs0 ∧ I out := by
  obtain ⟨i1, hi1, hi1lt⟩ := hr a (Nat.le_refl a)
  have hv1 : vs0[i1]? = some vs0[i1] := List.getElem?_eq_getElem hi1lt
  obtain ⟨w1, hw1, hwm1, _⟩ := shape_getElem? hs.symm hv1
  by_cases hex : carveExcluded w1.mesh = true
  · exact ⟨s, by simp [carveVolume, hi1, hw1, hex], hs, hI⟩
  · simp only [Bool.not_eq_true] at hex
    obtain ⟨out, hout, hsh, hIout⟩ := foldlM_range_inv
      (fun vols volume_2_idx => do
        let i2 ← r[volume_2_idx]?
        carvePair K alt i1 i2 vols)
      (fun _ t => shape t = shape vs0 ∧ I t) a s ⟨hs, hI⟩
      (by
        intro b hb t ⟨ht, hIt⟩
        obtain ⟨i2, hi2, hi2lt⟩ := hr b (Nat.le_of_lt hb)
        have hne : i1 ≠ i2 := by
          intro h
          subst h
          exact hinj b i1 hb hi2 hi1
        have hv2 : vs0[i2]? = some vs0[i2] := List.getElem?_eq_getElem hi2lt
        obtain ⟨u1, hu1, hum1, hul1⟩ := shape_getElem? ht.symm hv1
        obtain ⟨u2, hu2, hum2, hul2⟩ := shape_getElem? ht.symm hv2
        have hact : carveExcluded u2.mesh = false → u1.mesh.getAABB.hit u2.mesh.getAABB = true →
            Active vs0 i1 i2 := by
          intro e2 hh
          refine ⟨vs0[i1], vs0[i2], hv1, hv2, ?_, ?_, ?_⟩
          · rw [← hwm1]; exact hex
          · rw [← hum2]; exact e2
          · rw [← hum1, ← hum2]; exact hh
        rcases carvePair_cases K alt i1 i2 t hu1 hu2 (by
          intro e2 hh
          have := hlay b i1 i2 hb hi1 hi2 (hact e2 hh) _ _ hv1 hv2
          omega) with hsame | ⟨e2, hh, t', ht', hsh', harea⟩
        · exact ⟨t, by simp [hi2, hsame], ht, hIt⟩
        · exact ⟨t', by simp [hi2, ht'], hsh'.trans ht,
            hstep t t' b i1 i2 ht hIt hb hi1 hi2 hne (hact e2 hh) hsh' harea⟩)
    exact ⟨out, by simpa [carveVolume, hi1, hw1, hex] using hout, hsh, hIout⟩

/-- The outer loop of lines 27-67 over any polygon algebra, for a list `r` of distinct
slots and a property `I` of stores that every processed pair preserves.  It succeeds when,
in every processed pair, volume_2 has no fewer layers than volume_1. -/
theorem carveLoop_inv (K : PolygonOps P) (alt : Bool) (r : List Nat) (vs : List (Slicer P))
    (hr : ∀ b, b < vs.length → ∃ i, r[b]? = some i ∧ i < vs.length)
    (hinj : ∀ (a b i : Nat), b < a → r[b]? = some i → r[a]? ≠ some i)
    (hlay : ∀ (a b i1 i2 : Nat), b < a → r[a]? = some i1 → r[b]? = some i2 → Active vs i1 i2 →
      ∀ (v1 v2 : Slicer P), vs[i1]? = some v1 → vs[i2]? = some v2 →
        v1.layers.length ≤ v2.layers.length)
    (I : List (Slicer P) → Prop) (hI : I vs)
    (hstep : ∀ (t t' : List (Slicer P)) (a b i1 i2 : Nat), shape t = shape vs → I t → b < a →
      r[a]? = some i1 → r[b]? = some i2 → i1 ≠ i2 → Active vs i1 i2 → shape t' = shape t →
      (∀ j L, polygonsAt t' j L = pairArea K alt t i1 i2 j L) → I t') :
    ∃ out, (List.range' 1 (vs.length - 1)).foldlM (carveVolume K alt r) vs = some out ∧
      shape out = shape vs ∧ I out := by
  obtain ⟨out, hout, hsh, hIout⟩ := foldlM_inv (carveVolume K alt r)
    (fun _ t => shape t = shape vs ∧ I t) (List.range' 1 (vs.length - 1)) 0 vs ⟨rfl, hI⟩
    (by
      intro j hj t ⟨ht, hIt⟩
      have hj' : j < vs.length - 1 := by simpa using hj
      have hget : (List.range' 1 (vs.length - 1))[j] = 1 + j := by simp
      rw [hget]
      exact carveVolume_inv K alt r vs t (1 + j) ht (fun b hb => hr b (by omega))
        (fun b i hb => hinj (1 + j) b i hb)
        (fun b i1 i2 hb => hlay (1 + j) b i1 i2 hb) I hIt
        (fun t t' b i1 i2 h1 h2 hb => hstep t t' (1 + j) b i1 i2 h1 h2 hb))
  exact ⟨out, hout, hsh, hIout⟩

theorem rankedVolumes_shape {s vs : List (Slicer P)} (h : shape s = shape vs)
    (stdSort : (Nat → Nat → Bool) → List Nat → List Nat) :
    rankedVolumes stdSort s = rankedVolumes stdSort vs := by
  unfold rankedVolumes
  rw [shape_length h]
  congr 1
  funext a b
  rw [infillMeshOrder_shape h a, infillMeshOrder_shape h b]

end CarveGeneric

/-! ## Layer counts -/

section LayerCounts
variable {P : Type}

/-- C11, as amended (no layer-count check).  `carveMultipleVolumes` makes no check of the
layer counts and has no error result.  Whenever, in every pair it processes, the
earlier-ranked solid (volume_2) has at least as many layers as the current one (volume_1)
-- in particular when all layer counts are equal -- it reads no layer that does not exist
and returns a store with the meshes and layer counts it was given. -/
theorem carveMultipleVolumes_no_layer_check (K : PolygonOps P)
    (stdSort : (Nat → Nat → Bool) → List Nat → List Nat) (hsort : StdSortContract stdSort)
    (alt : Bool) (volumes : List (Slicer P))
    (hlay : ∀ (a b i1 i2 : Nat), b < a → (rankedVolumes stdSort volumes)[a]? = some i1 →
      (rankedVolumes stdSort volumes)[b]? = some i2 → Active volumes i1 i2 →
      ∀ (v1 v2 : Slicer P), volumes[i1]? = some v1 → volumes[i2]? = some v2 →
        v1.layers.length ≤ v2.layers.length) :
    ∃ out, carveMultipleVolumes K stdSort alt volumes = some out ∧
      shape out = shape volumes := by
  obtain ⟨hvalid, hinj, _⟩ := perm_range_valid (rankedVolumes_perm stdSort hsort volumes)
  obtain ⟨out, hout, hsh, _⟩ := carveLoop_inv K alt (rankedVolumes stdSort volumes) volumes
    hvalid hinj hlay (fun _ => True) trivial (fun _ _ _ _ _ _ _ _ _ _ _ _ _ _ _ => trivial)
  exact ⟨out, hout, hsh⟩

end LayerCounts

section LayerCountExamples

/-- The amended C11 at a store with two and one layers. -/
theorem carveMultipleVolumes_no_layer_check_witness :
    ∃ out, carveMultipleVolumes (pointSet boxPrims) stableSort false [twinLow, barRight] =
        some out ∧
      shape out = shape [twinLow, barRight] :=
  carveMultipleVolumes_no_layer_check (pointSet boxPrims) stableSort stableSort_contract false
    [twinLow, barRight]
    (by
      intro a b i1 i2 hba h1 h2 _ v1 v2 hv1 hv2
      have hr : rankedVolumes stableSort [twinLow, barRight] = [0, 1] := by decide
      rw [hr] at h1 h2
      match a, b with
      | 1, 0 =>
        cases h1
        cases h2
        cases hv1
        cases hv2
        decide
      | 0, _ => omega
      | 1, b + 1 => omega
      | a + 2, _ => cases h1)

/-- C11, as stated, fails.  The store holds `twinLow` (two layers) and `barRight` (one
layer): the layer counts differ, yet `carveMultipleVolumes` returns a store, and in it the
closed area of `barRight` at layer 0 has lost the point `(1, 0)`.  With `barLeft` (one
layer, ranked first) and `twinHigh` (two layers) the loop reads layer 1 of `barLeft`, which
does not exist. -/
theorem carve_accepts_unequal_layer_counts :
    twinLow.layers.length ≠ barRight.layers.length ∧
    (∃ out, carveMultipleVolumes (pointSet boxPrims) stableSort false [twinLow, barRight] =
        some out ∧
      polygonsAt [twinLow, barRight] 1 0 = some {(1, 0), (2, 0)} ∧
      polygonsAt out 1 0 = some {(2, 0)}) ∧
    carveMultipleVolumes (pointSet boxPrims) stableSort false [barLeft, twinHigh] = none := by
  refine ⟨by decide, ⟨_, rfl, rfl, ?_⟩, ?_⟩
  · decide
  · rfl

end LayerCountExamples

/-! ## `carveMultipleVolumes` on point sets: what is removed, and by whom -/

section CarveFrame

theorem polygonsAt_shape_some {P : Type} {s vs : List (Slicer P)} (h : shape s = shape vs)
    {j L : Nat} {a : P} (ha : polygonsAt s j L = some a) : ∃ a0, polygonsAt vs j L = some a0 := by
  cases hs : s[j]? with
  | none => simp [polygonsAt, layerAt, hs] at ha
  | some w =>
    obtain ⟨v, hv, _, hl⟩ := shape_getElem? h hs
    rcases Nat.lt_or_ge L w.layers.length with hL | hL
    · exact ⟨_, polygonsAt_eq_some hv (by omega)⟩
    · rw [polygonsAt_eq_none hs hL] at ha
      cases ha

theorem polygonsAt_shape_none {P : Type} {s vs : List (Slicer P)} (h : shape s = shape vs)
    {j L : Nat} (ha : polygonsAt vs j L = none) : polygonsAt s j L = none := by
  cases hs : polygonsAt s j L with
  | none => rfl
  | some a =>
    obtain ⟨a0, ha0⟩ := polygonsAt_shape_some h hs
    rw [ha] at ha0
    cases ha0

theorem carvedFrom_refl (vs : Store) : CarvedFrom vs vs :=
  fun _ _ a0 h0 => ⟨a0, h0, Finset.Subset.refl a0, Finset.sdiff_subset, fun _ => rfl⟩

theorem carverAt_of_active {P : Type} {vs : List (Slicer P)} {i1 i2 : Nat}
    (h : Active vs i1 i2) :
    carverAt vs i1 = true ∧ carverAt vs i2 = true ∧ i1 < vs.length ∧ i2 < vs.length := by
  obtain ⟨v1, v2, h1, h2, e1, e2, _⟩ := h
  refine ⟨by simp [carverAt, h1, e1], by simp [carverAt, h2, e2],
    (List.getElem?_eq_some_iff.mp h1).1, (List.getElem?_eq_some_iff.mp h2).1⟩

theorem mem_carverUnion {vs : Store} {j k L : Nat} {p : Point} (hk : k < vs.length)
    (hkj : k ≠ j) (hc : carverAt vs k = true) (hp : p ∈ areaAt vs k L) :
    p ∈ carverUnion vs j L := by
  simp only [carverUnion, Finset.mem_biUnion, Finset.mem_filter, Finset.mem_range]
  exact ⟨k, ⟨hk, hkj, hc⟩, hp⟩

/-- A processed pair keeps the relation `CarvedFrom`. -/
theorem carvedFrom_step (g : PointSetPrims) (alt : Bool) (vs t t' : Store) (i1 i2 : Nat)
    (ht : shape t = shape vs) (hc : CarvedFrom vs t) (hne : i1 ≠ i2) (hact : Active vs i1 i2)
    (harea : ∀ j L, polygonsAt t' j L = pairArea (pointSet g) alt t i1 i2 j L) :
    CarvedFrom vs t' := by
  obtain ⟨hc1, hc2, hlt1, hlt2⟩ := carverAt_of_active hact
  intro j L a0 h0
  obtain ⟨a, ha, hsub, hlow, heq⟩ := hc j L a0 h0
  rw [harea j L]
  unfold pairArea
  cases e1 : polygonsAt t i1 L with
  | none => exact ⟨a, ha, hsub, hlow, heq⟩
  | some a1 =>
    cases e2 : polygonsAt t i2 L with
    | none => exact ⟨a, ha, hsub, hlow, heq⟩
    | some a2 =>
      obtain ⟨b1, hb1⟩ := polygonsAt_shape_some ht e1
      obtain ⟨b2, hb2⟩ := polygonsAt_shape_some ht e2
      obtain ⟨a1', ha1', hsub1, _, _⟩ := hc i1 L b1 hb1
      obtain ⟨a2', ha2', hsub2, _, _⟩ := hc i2 L b2 hb2
      rw [e1] at ha1'
      rw [e2] at ha2'
      cases ha1'
      cases ha2'
      simp only
      by_cases hcond : carveCond alt t i1 i2 L = true
      · simp only [hcond, if_true]
        by_cases hj : j = i2
        · subst hj
          have haa : a = a2 := Option.some.inj (ha.symm.trans e2)
          rw [haa] at hsub hlow
          refine ⟨a2 \ a1, by simp [pointSet], Finset.sdiff_subset.trans hsub, ?_, ?_⟩
          · intro p hp
            obtain ⟨hp0, hpn⟩ := Finset.mem_sdiff.mp hp
            refine Finset.mem_sdiff.mpr ⟨hlow (Finset.mem_sdiff.mpr ⟨hp0, hpn⟩), ?_⟩
            intro hp1
            exact hpn (mem_carverUnion hlt1 hne hc1 (by rw [MultiVolumes.areaAt_eq hb1]; exact hsub1 hp1))
          · intro hf
            rw [hc2] at hf
            exact Bool.noConfusion hf
        · simp only [hj, if_false]
          exact ⟨a, ha, hsub, hlow, heq⟩
      · simp only [hcond, Bool.false_eq_true, if_false]
        by_cases hj : j = i1
        · subst hj
          have haa : a = a1 := Option.some.inj (ha.symm.trans e1)
          rw [haa] at hsub hlow
          refine ⟨a1 \ a2, by simp [pointSet], Finset.sdiff_subset.trans hsub, ?_, ?_⟩
          · intro p hp
            obtain ⟨hp0, hpn⟩ := Finset.mem_sdiff.mp hp
            refine Finset.mem_sdiff.mpr ⟨hlow (Finset.mem_sdiff.mpr ⟨hp0, hpn⟩), ?_⟩
            intro hp2
            exact hpn (mem_carverUnion hlt2 (Ne.symm hne) hc2
              (by rw [MultiVolumes.areaAt_eq hb2]; exact hsub2 hp2))
          · intro hf
            rw [hc1] at hf
            exact Bool.noConfusion hf
        · simp only [hj, if_false]
          exact ⟨a, ha, hsub, hlow, heq⟩

/-- On a store whose solids all have `m` layers, `carveMultipleVolumes` succeeds and its
result is in the relation `CarvedFrom` with the store. -/
theorem carveMultipleVolumes_carvedFrom (g : PointSetPrims)
    (stdSort : (Nat → Nat → Bool) → List Nat → List Nat) (hsort : StdSortContract stdSort)
    (alt : Bool) (volumes : Store) (m : Nat) (hu : Uniform m volumes) :
    ∃ out, carveMultipleVolumes (pointSet g) stdSort alt volumes = some out ∧
      shape out = shape volumes ∧ CarvedFrom volumes out := by
  obtain ⟨hvalid, hinj, _⟩ := perm_range_valid (rankedVolumes_perm stdSort hsort volumes)
  exact carveLoop_inv (pointSet g) alt (rankedVolumes stdSort volumes) volumes hvalid hinj
    (by intro a b i1 i2 _ _ _ _ v1 v2 h1 h2; rw [hu i1 v1 h1, hu i2 v2 h2])
    (CarvedFrom volumes) (carvedFrom_refl volumes)
    (fun t t' _ _ i1 i2 ht hc _ _ _ hne hact _ harea =>
      carvedFrom_step g alt volumes t t' i1 i2 ht hc hne hact harea)

end CarveFrame

/-! ## Carving only removes area, spares excluded solids, and is idempotent -/

section CarveFrameTheorems

theorem carverAt_eq_false {P : Type} {vs : List (Slicer P)} {j : Nat} {v : Slicer P}
    (hv : vs[j]? = some v) (hex : carveExcluded v.mesh = true) : carverAt vs j = false := by
  simp [carverAt, hv, hex]

/-- C19 (carving only removes area).  For a store whose solids all have `m` layers,
`carveMultipleVolumes` returns a store in which every closed area is a subset of the
closed area before, and is equal to it for every solid that is an infill mesh, an
anti-overhang mesh or a support mesh or is in surface-only mode. -/
theorem carveMultipleVolumes_only_removes (g : PointSetPrims)
    (stdSort : (Nat → Nat → Bool) → List Nat → List Nat) (hsort : StdSortContract stdSort)
    (alt : Bool) (volumes : Store) (m : Nat) (hu : Uniform m volumes) :
    ∃ out, carveMultipleVolumes (pointSet g) stdSort alt volumes = some out ∧
      ∀ (j L : Nat) (a0 : Finset Point), polygonsAt volumes j L = some a0 →
        ∃ a, polygonsAt out j L = some a ∧ a ⊆ a0 ∧
          ∀ v, volumes[j]? = some v →
            (v.mesh.settings.infill_mesh = true ∨ v.mesh.settings.anti_overhang_mesh = true ∨
              v.mesh.settings.support_mesh = true ∨
              v.mesh.settings.magic_mesh_surface_mode = ESurfaceMode.SURFACE) →
            a = a0 := by
  obtain ⟨out, hout, _, hc⟩ := carveMultipleVolumes_carvedFrom g stdSort hsort alt volumes m hu
  refine ⟨out, hout, ?_⟩
  intro j L a0 h0
  obtain ⟨a, ha, hsub, _, heq⟩ := hc j L a0 h0
  refine ⟨a, ha, hsub, ?_⟩
  intro v hv hflag
  apply heq
  apply carverAt_eq_false hv
  simp only [carveExcluded, Bool.or_eq_true, beq_iff_eq]
  tauto

/-- C15, as amended (surface-only solids are excluded from carving).  For a store whose
solids all have `m` layers and a solid in slot `s` in surface-only (SURFACE) mode,
`carveMultipleVolumes` returns a store in which the closed area of that solid is unchanged
at every layer, and every point removed from the closed area of a solid `j` lies in the
closed area that another solid `k`, other than `s` and taking part in carving, had
before: the solid in slot `s` is not used as a carver. -/
theorem carveMultipleVolumes_surface_excluded (g : PointSetPrims)
    (stdSort : (Nat → Nat → Bool) → List Nat → List Nat) (hsort : StdSortContract stdSort)
    (alt : Bool) (volumes : Store) (m : Nat) (hu : Uniform m volumes) (s : Nat)
    (vsurf : Slicer (Finset Point)) (hs : volumes[s]? = some vsurf)
    (hmode : vsurf.mesh.settings.magic_mesh_surface_mode = ESurfaceMode.SURFACE) :
    ∃ out, carveMultipleVolumes (pointSet g) stdSort alt volumes = some out ∧
      (∀ L, polygonsAt out s L = polygonsAt volumes s L) ∧
      ∀ (j L : Nat) (a0 a : Finset Point), polygonsAt volumes j L = some a0 →
        polygonsAt out j L = some a →
        ∀ p, p ∈ a0 → p ∉ a →
          ∃ k, k ≠ j ∧ k ≠ s ∧ carverAt volumes k = true ∧ p ∈ areaAt volumes k L := by
  obtain ⟨out, hout, hsh, hc⟩ := carveMultipleVolumes_carvedFrom g stdSort hsort alt volumes m
    hu
  have hsf : carverAt volumes s = false :=
    carverAt_eq_false hs (by simp [carveExcluded, hmode])
  refine ⟨out, hout, ?_, ?_⟩
  · intro L
    cases h0 : polygonsAt volumes s L with
    | none => exact polygonsAt_shape_none hsh h0
    | some a0 =>
      obtain ⟨a, ha, _, _, heq⟩ := hc s L a0 h0
      rw [ha, heq hsf]
  · intro j L a0 a h0 ha p hp0 hpa
    obtain ⟨a', ha', _, hlow, _⟩ := hc j L a0 h0
    rw [ha] at ha'
    cases ha'
    have hpu : p ∈ carverUnion volumes j L := by
      by_contra hn
      exact hpa (hlow (Finset.mem_sdiff.mpr ⟨hp0, hn⟩))
    simp only [carverUnion, Finset.mem_biUnion, Finset.mem_filter, Finset.mem_range] at hpu
    obtain ⟨k, ⟨_, hkj, hkc⟩, hpk⟩ := hpu
    refine ⟨k, hkj, ?_, hkc, hpk⟩
    intro hks
    rw [hks, hsf] at hkc
    exact Bool.noConfusion hkc

/-- C18 (carving is idempotent).  For a store whose solids all have `m` layers,
`carveMultipleVolumes` succeeds on the store and on its own output, and the second
application changes no closed area at any layer. -/
theorem carveMultipleVolumes_idempotent (g : PointSetPrims)
    (stdSort : (Nat → Nat → Bool) → List Nat → List Nat) (hsort : StdSortContract stdSort)
    (alt : Bool) (volumes : Store) (m : Nat) (hu : Uniform m volumes) :
    ∃ out out2, carveMultipleVolumes (pointSet g) stdSort alt volumes = some out ∧
      carveMultipleVolumes (pointSet g) stdSort alt out = some out2 ∧
      ∀ j L, polygonsAt out2 j L = polygonsAt out j L := by
  obtain ⟨hvalid, hinj, _⟩ := perm_range_valid (rankedVolumes_perm stdSort hsort volumes)
  obtain ⟨out, hout, hsh, hdone⟩ := carveLoop_shrinks g alt (rankedVolumes stdSort volumes)
    volumes hu hvalid hinj
  have hr' : rankedVolumes stdSort out = rankedVolumes stdSort volumes :=
    rankedVolumes_shape hsh.1 stdSort
  have hperm' := rankedVolumes_perm stdSort hsort out
  obtain ⟨hvalid', hinj', _⟩ := perm_range_valid hperm'
  have hlen' : (rankedVolumes stdSort out).length = volumes.length := by
    rw [hperm'.length_eq, List.length_range, shape_length hsh.1]
  have huo := uniform_of_shape hsh.1 hu
  obtain ⟨out2, hout2, _, hI⟩ := carveLoop_inv (pointSet g) alt (rankedVolumes stdSort out) out
    hvalid' hinj'
    (by intro a b i1 i2 _ _ _ _ v1 v2 h1 h2; rw [huo i1 v1 h1, huo i2 v2 h2])
    (fun t => ∀ j L, polygonsAt t j L = polygonsAt out j L) (fun _ _ => rfl)
    (by
      intro t t' a b i1 i2 _ hIt hba h1 h2 hne hact _ harea j L
      have hlt : a < volumes.length := by
        have := (List.getElem?_eq_some_iff.mp h1).1
        omega
      rw [hr'] at h1 h2
      have hpair : PairOK out i1 i2 :=
        hdone a b i1 i2 hba hlt h1 h2 (active_of_shape hsh.1.symm hact)
      rw [harea j L]
      unfold pairArea
      rw [hIt i1 L, hIt i2 L]
      cases e1 : polygonsAt out i1 L with
      | none => exact hIt j L
      | some a1 =>
        cases e2 : polygonsAt out i2 L with
        | none => exact hIt j L
        | some a2 =>
          have hd := hpair L a1 a2 e1 e2
          simp only
          split
          · split
            · rename_i hj
              rw [hj, e2]
              exact congrArg some hd.symm.sdiff_eq_left
            · exact hIt j L
          · split
            · rename_i hj
              rw [hj, e1]
              exact congrArg some hd.sdiff_eq_left
            · exact hIt j L)
  exact ⟨out, out2, hout, hout2, hI⟩

end CarveFrameTheorems

section CarveFrameExamples

/-- C19 at two bars that share the point `(1, 0)`. -/
theorem carveMultipleVolumes_only_removes_witness :
    ∃ out, carveMultipleVolumes (pointSet boxPrims) stableSort true [barLeft, barRight] =
        some out ∧
      ∀ (j L : Nat) (a0 : Finset Point), polygonsAt [barLeft, barRight] j L = some a0 →
        ∃ a, polygonsAt out j L = some a ∧ a ⊆ a0 ∧
          ∀ v, [barLeft, barRight][j]? = some v →
            (v.mesh.settings.infill_mesh = true ∨ v.mesh.settings.anti_overhang_mesh = true ∨
              v.mesh.settings.support_mesh = true ∨
              v.mesh.settings.magic_mesh_surface_mode = ESurfaceMode.SURFACE) →
            a = a0 :=
  carveMultipleVolumes_only_removes boxPrims stableSort stableSort_contract true
    [barLeft, barRight] 1 (uniform_pair 1 barLeft barRight rfl rfl)

/-- The amended C15 at a surface-only bar and an ordinary bar that share a point. -/
theorem carveMultipleVolumes_surface_excluded_witness :
    ∃ out, carveMultipleVolumes (pointSet boxPrims) stableSort true
        [barLeftSurface, barRight] = some out ∧
      (∀ L, polygonsAt out 0 L = polygonsAt [barLeftSurface, barRight] 0 L) ∧
      ∀ (j L : Nat) (a0 a : Finset Point),
        polygonsAt [barLeftSurface, barRight] j L = some a0 →
        polygonsAt out j L = some a →
        ∀ p, p ∈ a0 → p ∉ a →
          ∃ k, k ≠ j ∧ k ≠ 0 ∧ carverAt [barLeftSurface, barRight] k = true ∧
            p ∈ areaAt [barLeftSurface, barRight] k L :=
  carveMultipleVolumes_surface_excluded boxPrims stableSort stableSort_contract true
    [barLeftSurface, barRight] 1 (uniform_pair 1 barLeftSurface barRight rfl rfl) 0
    barLeftSurface rfl rfl

/-- C18 at two equal bars of two layers, alternate carve order on. -/
theorem carveMultipleVolumes_idempotent_witness :
    ∃ out out2, carveMultipleVolumes (pointSet boxPrims) stableSort true [twinLow, twinLow] =
        some out ∧
      carveMultipleVolumes (pointSet boxPrims) stableSort true out = some out2 ∧
      ∀ j L, polygonsAt out2 j L = polygonsAt out j L :=
  carveMultipleVolumes_idempotent boxPrims stableSort stableSort_contract true
    [twinLow, twinLow] 2 (uniform_pair 2 twinLow twinLow rfl rfl)

/-- C15, as stated, fails.  A solid in surface+interior (BOTH) mode is carved: next to
`barLeft`, the bar `barRightBoth` loses the point `(1, 0)`.  It is also used as a carver:
next to `barLeftBoth`, the ordinary bar `barRight` loses the point `(1, 0)`. -/
theorem carve_does_not_exclude_both_mode :
    barRightBoth.mesh.settings.magic_mesh_surface_mode = ESurfaceMode.BOTH ∧
    (∃ out, carveMultipleVolumes (pointSet boxPrims) stableSort false
        [barLeft, barRightBoth] = some out ∧
      polygonsAt [barLeft, barRightBoth] 1 0 = some {(1, 0), (2, 0)} ∧
      polygonsAt out 1 0 = some {(2, 0)}) ∧
    barLeftBoth.mesh.settings.magic_mesh_surface_mode = ESurfaceMode.BOTH ∧
    (∃ out, carveMultipleVolumes (pointSet boxPrims) stableSort false
        [barLeftBoth, barRight] = some out ∧
      polygonsAt [barLeftBoth, barRight] 1 0 = some {(1, 0), (2, 0)} ∧
      polygonsAt out 1 0 = some {(2, 0)}) := by
  refine ⟨rfl, ⟨_, rfl, rfl, ?_⟩, rfl, ⟨_, rfl, rfl, ?_⟩⟩
  · decide
  · decide

end CarveFrameExamples

/-! ## `generateMultipleVolumesOverlap` on point sets: the band -/

section OverlapBand

theorem map_union_empty_inter (o : Option (Finset Point)) (f : Finset Point → Finset Point) :
    o.map (fun A => A ∪ (∅ ∩ f A)) = o := by
  cases o <;> simp

/-- The bonding generator on a store whose solids all have `m` layers: every area becomes
the area before together with a band inside the offset of the area before. -/
theorem generateMultipleVolumesOverlap_banded (g : PointSetPrims) (vs : Store) (m : Nat)
    (hu : Uniform m vs) :
    ∃ out, generateMultipleVolumesOverlap (pointSet g) vs = some out ∧ shape out = shape vs ∧
      Banded g vs out := by
  have hrefl : Banded g vs vs := by
    intro j L v _
    exact ⟨fun _ => rfl, ∅, (map_union_empty_inter _ _).symm⟩
  unfold generateMultipleVolumesOverlap
  split
  · exact ⟨vs, rfl, rfl, hrefl⟩
  · obtain ⟨out, hout, hsh, _, hb⟩ := foldlM_range_inv (overlapVolume (pointSet g))
      (fun k s => shape s = shape vs ∧
        (∀ j L, k ≤ j → polygonsAt s j L = polygonsAt vs j L) ∧ Banded g vs s)
      vs.length vs ⟨rfl, fun _ _ _ => rfl, hrefl⟩
      (by
        intro k hk s ⟨hs, hlate, hb⟩
        have hlen := shape_length hs
        have hkv : vs[k]? = some vs[k] := List.getElem?_eq_getElem hk
        obtain ⟨w, hw, hwm, _⟩ := shape_getElem? hs.symm hkv
        have hsu := uniform_of_shape hs hu
        obtain ⟨s', hs', hsh', harea⟩ := overlapVolume_spec g s k hw
          (by intro oi ov hov _; rw [hsu k w hw, hsu oi ov hov])
        refine ⟨s', hs', hsh'.trans hs, ?_, ?_⟩
        · intro j L hj
          rw [harea j L, if_neg (by omega)]
          exact hlate j L (by omega)
        · intro j L v hv
          rw [harea j L]
          by_cases hjk : j = k
          · subst hjk
            rw [hkv] at hv
            cases hv
            simp only [if_true, bondArea, hw, hwm, hlate j L (Nat.le_refl j)]
            by_cases hskip : bondSkipped vs[j].mesh = true
            · simp only [hskip, if_true, implies_true, true_and]
              exact ⟨∅, (map_union_empty_inter _ _).symm⟩
            · simp only [hskip, Bool.false_eq_true, if_false, false_implies, true_and]
              exact ⟨_, rfl⟩
          · simp only [hjk, if_false]
            exact hb j L v hv)
    exact ⟨out, hout, hsh, hb⟩

theorem boxOffset_extensive (A : Finset Point) (d : Int) (hd : 0 ≤ d) : A ⊆ boxOffset A d := by
  intro p hp
  rw [mem_boxOffset]
  exact ⟨p, hp, by omega, by omega, by omega, by omega⟩

end OverlapBand

/-! ## The bonding step, its frame, its bound and its search volume -/

section OverlapTheorems

/-- C12 (the bonding step for one solid).  When the bonding loop runs for the solid in
slot `vi`, which has a non-zero overlap `w` and is neither infill, anti-overhang nor
support mesh, its closed area `A` at each layer `L` becomes `A ∪ (N ∩ offset(A, w/2))`,
where `w/2` is the integer quotient and `N` is the union, over the other solids that
pass the test of lines 99-103 against the box of the solid expanded by `w` (no such flag,
box hit), of their closed area at `L` in the store at that moment offset by the margin
20.  The areas of all other solids stay. -/
theorem overlapVolume_bonding_step (g : PointSetPrims) (vs : Store) (vi : Nat)
    (v : Slicer (Finset Point)) (hv : vs[vi]? = some v)
    (hflag : overlapExcluded v.mesh = false)
    (hw : v.mesh.settings.multiple_mesh_overlap ≠ 0)
    (hlay : ∀ (oi : Nat) (ov : Slicer (Finset Point)), vs[oi]? = some ov →
      bondEligible vs vi (v.mesh.getAABB.expandXY v.mesh.settings.multiple_mesh_overlap) oi = true →
      v.layers.length ≤ ov.layers.length) :
    ∃ out, overlapVolume (pointSet g) vs vi = some out ∧
      (∀ (L : Nat) (A : Finset Point), polygonsAt vs vi L = some A →
        polygonsAt out vi L = some (A ∪
          (((Finset.range vs.length).filter (fun oi => bondEligible vs vi
              (v.mesh.getAABB.expandXY v.mesh.settings.multiple_mesh_overlap) oi = true)).biUnion
            (fun oi => g.offset (areaAt vs oi L) 20) ∩
          g.offset A (v.mesh.settings.multiple_mesh_overlap.tdiv 2)))) ∧
      ∀ (j L : Nat), j ≠ vi → polygonsAt out j L = polygonsAt vs j L := by
  obtain ⟨out, hout, _, harea⟩ := overlapVolume_spec g vs vi hv hlay
  have hskip : bondSkipped v.mesh = false := by
    simp [bondSkipped, hflag, hw]
  refine ⟨out, hout, ?_, ?_⟩
  · intro L A hA
    rw [harea vi L]
    simp only [if_true, bondArea, hv, hskip, Bool.false_eq_true, if_false, hA, Option.map_some']
    rfl
  · intro j L hj
    rw [harea j L, if_neg hj]

/-- C13 (solids the bonding generator does not touch).  For a store whose solids all have
`m` layers, `generateMultipleVolumesOverlap` leaves the closed area of a solid unchanged
at every layer whenever the store has fewer than two solids, or the overlap of the solid
is zero, or the solid is an infill, anti-overhang or support mesh. -/
theorem generateMultipleVolumesOverlap_untouched (g : PointSetPrims) (vs : Store) (m : Nat)
    (hu : Uniform m vs) :
    ∃ out, generateMultipleVolumesOverlap (pointSet g) vs = some out ∧
      ∀ (j L : Nat) (v : Slicer (Finset Point)), vs[j]? = some v →
        (vs.length < 2 ∨ v.mesh.settings.multiple_mesh_overlap = 0 ∨
          v.mesh.settings.infill_mesh = true ∨ v.mesh.settings.anti_overhang_mesh = true ∨
          v.mesh.settings.support_mesh = true) →
        polygonsAt out j L = polygonsAt vs j L := by
  by_cases hlen : vs.length < 2
  · exact ⟨vs, by simp [generateMultipleVolumesOverlap, hlen], fun _ _ _ _ _ => rfl⟩
  · obtain ⟨out, hout, _, hb⟩ := generateMultipleVolumesOverlap_banded g vs m hu
    refine ⟨out, hout, ?_⟩
    intro j L v hv hc
    apply (hb j L v hv).1
    simp only [bondSkipped, overlapExcluded, Bool.or_eq_true, beq_iff_eq]
    tauto

/-- C20 (the bonding band is bounded by half the overlap).  Assume that the offset by a
non-negative distance contains its argument.  For a store whose solids all have `m`
layers, every solid with overlap `w > 0` and every layer, the closed area `F` after
`generateMultipleVolumesOverlap` satisfies `A ⊆ F ⊆ offset(A, w/2)`, `A` being the closed
area of that solid before the call. -/
theorem generateMultipleVolumesOverlap_band_bound (g : PointSetPrims)
    (hext : ∀ (A : Finset Point) (d : Int), 0 ≤ d → A ⊆ g.offset A d)
    (vs : Store) (m : Nat) (hu : Uniform m vs) :
    ∃ out, generateMultipleVolumesOverlap (pointSet g) vs = some out ∧
      ∀ (j L : Nat) (v : Slicer (Finset Point)) (A : Finset Point), vs[j]? = some v →
        0 < v.mesh.settings.multiple_mesh_overlap → polygonsAt vs j L = some A →
        ∃ F, polygonsAt out j L = some F ∧ A ⊆ F ∧
          F ⊆ g.offset A (v.mesh.settings.multiple_mesh_overlap.tdiv 2) := by
  obtain ⟨out, hout, _, hb⟩ := generateMultipleVolumesOverlap_banded g vs m hu
  refine ⟨out, hout, ?_⟩
  intro j L v A hv hw hA
  obtain ⟨_, N, hN⟩ := hb j L v hv
  rw [hA] at hN
  refine ⟨_, hN, Finset.subset_union_left, ?_⟩
  have hd : 0 ≤ v.mesh.settings.multiple_mesh_overlap.tdiv 2 :=
    Int.tdiv_nonneg (Int.le_of_lt hw) (by decide)
  exact Finset.union_subset (hext A _ hd) Finset.inter_subset_right

theorem hit_expandXY_mono (o a : AABB3D) (w1 w2 : Int) (h : w1 ≤ w2)
    (hh : o.hit (a.expandXY w1) = true) : o.hit (a.expandXY w2) = true := by
  simp only [AABB3D.hit, AABB3D.expandXY, Bool.not_eq_true', Bool.or_eq_false_iff,
    decide_eq_false_iff_not, gt_iff_lt] at hh ⊢
  omega

theorem bondEligible_iff {P : Type} (vs : List (Slicer P)) (vi : Nat) (aabb : AABB3D) (oi : Nat) :
    bondEligible vs vi aabb oi = true ↔
      (oi ≠ vi ∧ (vs[oi]?).any
        (fun ov => !overlapExcluded ov.mesh && ov.mesh.getAABB.hit aabb) = true) := by
  unfold bondEligible
  cases vs[oi]? with
  | none => simp
  | some ov =>
    simp only [Option.any_some, Bool.not_eq_true', Bool.or_eq_false_iff, Bool.and_eq_true,
      Bool.not_eq_false', beq_eq_false_iff_ne, ne_eq]
    tauto

/-- C16, as amended (the neighbour search volume).  When the bonding loop runs for the
solid in slot `vi` with overlap `w` (non-zero, no exclusion flag), the bounding volume
that other solids are tested against is the box of the solid expanded on X and Y by `w`
itself: the new area at layer `L` is `A ∪ (N ∩ offset(A, w/2))` with `N` the union of the
areas, offset by 20, of the other solids without flag whose box hits that volume.  The
volume grows with `w`: a box that hits it for one overlap value hits it for every larger
one. -/
theorem overlapVolume_search_volume (g : PointSetPrims) (vs : Store) (vi : Nat)
    (v : Slicer (Finset Point)) (hv : vs[vi]? = some v)
    (hflag : overlapExcluded v.mesh = false)
    (hw : v.mesh.settings.multiple_mesh_overlap ≠ 0)
    (hlay : ∀ (oi : Nat) (ov : Slicer (Finset Point)), vs[oi]? = some ov →
      bondEligible vs vi (v.mesh.getAABB.expandXY v.mesh.settings.multiple_mesh_overlap) oi = true →
      v.layers.length ≤ ov.layers.length) :
    (∃ out, overlapVolume (pointSet g) vs vi = some out ∧
      ∀ (L : Nat) (A : Finset Point), polygonsAt vs vi L = some A →
        polygonsAt out vi L = some (A ∪
          (((Finset.range vs.length).filter (fun oi => oi ≠ vi ∧ (vs[oi]?).any
              (fun ov => !overlapExcluded ov.mesh && ov.mesh.getAABB.hit
                (v.mesh.getAABB.expandXY v.mesh.settings.multiple_mesh_overlap)) = true)).biUnion
            (fun oi => g.offset (areaAt vs oi L) 20) ∩
          g.offset A (v.mesh.settings.multiple_mesh_overlap.tdiv 2)))) ∧
    ∀ (other : AABB3D) (w1 w2 : Int), w1 ≤ w2 →
      other.hit (v.mesh.getAABB.expandXY w1) = true →
      other.hit (v.mesh.getAABB.expandXY w2) = true := by
  constructor
  · obtain ⟨out, hout, _, harea⟩ := overlapVolume_spec g vs vi hv hlay
    have hskip : bondSkipped v.mesh = false := by
      simp [bondSkipped, hflag, hw]
    refine ⟨out, hout, ?_⟩
    intro L A hA
    rw [harea vi L]
    simp only [if_true, bondArea, hv, hskip, Bool.false_eq_true, if_false, hA, Option.map_some',
      neighbourArea, bondEligible_iff]
    rfl
  · intro other w1 w2 h hh
    exact hit_expandXY_mono other _ w1 w2 h hh

end OverlapTheorems

section OverlapExamples

theorem pair_layers_le (a b : Slicer (Finset Point)) (n : Nat) (ha : n ≤ a.layers.length)
    (hb : n ≤ b.layers.length) (oi : Nat) (ov : Slicer (Finset Point))
    (hov : [a, b][oi]? = some ov) : n ≤ ov.layers.length := by
  match oi with
  | 0 => cases hov; exact ha
  | 1 => cases hov; exact hb
  | k + 2 => cases hov

/-- C12 at two adjacent points, the first with overlap 2. -/
theorem overlapVolume_bonding_step_witness :
    ∃ out, overlapVolume (pointSet boxPrims) [bondDot 2, dotAt 1] 0 = some out ∧
      (∀ (L : Nat) (A : Finset Point), polygonsAt [bondDot 2, dotAt 1] 0 L = some A →
        polygonsAt out 0 L = some (A ∪
          (((Finset.range [bondDot 2, dotAt 1].length).filter
              (fun oi => bondEligible [bondDot 2, dotAt 1] 0
                ((bondDot 2).mesh.getAABB.expandXY
                  (bondDot 2).mesh.settings.multiple_mesh_overlap) oi = true)).biUnion
            (fun oi => boxPrims.offset (areaAt [bondDot 2, dotAt 1] oi L) 20) ∩
          boxPrims.offset A ((bondDot 2).mesh.settings.multiple_mesh_overlap.tdiv 2)))) ∧
      ∀ (j L : Nat), j ≠ 0 → polygonsAt out j L = polygonsAt [bondDot 2, dotAt 1] j L :=
  overlapVolume_bonding_step boxPrims [bondDot 2, dotAt 1] 0 (bondDot 2) rfl (by decide)
    (by decide)
    (fun oi ov hov _ => pair_layers_le (bondDot 2) (dotAt 1) 1 (by decide) (by decide) oi ov hov)

/-- C13 at two adjacent points, the second with overlap 0. -/
theorem generateMultipleVolumesOverlap_untouched_witness :
    ∃ out, generateMultipleVolumesOverlap (pointSet boxPrims) [bondDot 2, dotAt 1] = some out ∧
      ∀ (j L : Nat) (v : Slicer (Finset Point)), [bondDot 2, dotAt 1][j]? = some v →
        ([bondDot 2, dotAt 1].length < 2 ∨ v.mesh.settings.multiple_mesh_overlap = 0 ∨
          v.mesh.settings.infill_mesh = true ∨ v.mesh.settings.anti_overhang_mesh = true ∨
          v.mesh.settings.support_mesh = true) →
        polygonsAt out j L = polygonsAt [bondDot 2, dotAt 1] j L :=
  generateMultipleVolumesOverlap_untouched boxPrims [bondDot 2, dotAt 1] 1
    (uniform_pair 1 (bondDot 2) (dotAt 1) rfl rfl)

/-- C20 at two adjacent points, with the box offset. -/
theorem generateMultipleVolumesOverlap_band_bound_witness :
    ∃ out, generateMultipleVolumesOverlap (pointSet boxPrims) [bondDot 2, dotAt 1] = some out ∧
      ∀ (j L : Nat) (v : Slicer (Finset Point)) (A : Finset Point),
        [bondDot 2, dotAt 1][j]? = some v →
        0 < v.mesh.settings.multiple_mesh_overlap →
        polygonsAt [bondDot 2, dotAt 1] j L = some A →
        ∃ F, polygonsAt out j L = some F ∧ A ⊆ F ∧
          F ⊆ boxPrims.offset A (v.mesh.settings.multiple_mesh_overlap.tdiv 2) :=
  generateMultipleVolumesOverlap_band_bound boxPrims boxOffset_extensive [bondDot 2, dotAt 1] 1
    (uniform_pair 1 (bondDot 2) (dotAt 1) rfl rfl)

/-- The amended C16 at two adjacent points, the first with overlap 2. -/
theorem overlapVolume_search_volume_witness :
    (∃ out, overlapVolume (pointSet boxPrims) [bondDot 2, dotAt 1] 0 = some out ∧
      ∀ (L : Nat) (A : Finset Point), polygonsAt [bondDot 2, dotAt 1] 0 L = some A →
        polygonsAt out 0 L = some (A ∪
          (((Finset.range [bondDot 2, dotAt 1].length).filter
              (fun oi => oi ≠ 0 ∧ ([bondDot 2, dotAt 1][oi]?).any
                (fun ov => !overlapExcluded ov.mesh && ov.mesh.getAABB.hit
                  ((bondDot 2).mesh.getAABB.expandXY
                    (bondDot 2).mesh.settings.multiple_mesh_overlap)) = true)).biUnion
            (fun oi => boxPrims.offset (areaAt [bondDot 2, dotAt 1] oi L) 20) ∩
          boxPrims.offset A ((bondDot 2).mesh.settings.multiple_mesh_overlap.tdiv 2)))) ∧
    ∀ (other : AABB3D) (w1 w2 : Int), w1 ≤ w2 →
      other.hit ((bondDot 2).mesh.getAABB.expandXY w1) = true →
      other.hit ((bondDot 2).mesh.getAABB.expandXY w2) = true :=
  overlapVolume_search_volume boxPrims [bondDot 2, dotAt 1] 0 (bondDot 2) rfl (by decide)
    (by decide)
    (fun oi ov hov _ => pair_layers_le (bondDot 2) (dotAt 1) 1 (by decide) (by decide) oi ov hov)

/-- C16, as stated, fails.  The box of `dotAt 20` hits the box of the solid at the origin
expanded by the constant 20, and the point `(1, 0)` lies both in the area of `dotAt 20`
offset by 20 and in the area of the origin offset by 5.  Yet with overlap 10 the bonding
generator leaves the solid at the origin as it is, so `dotAt 20` is not collected, while
with overlap 40 the point `(1, 0)` is added, so it is collected: the set of collected
solids depends on the overlap value. -/
theorem bonding_search_depends_on_overlap :
    (dotAt 20).mesh.getAABB.hit ((bondDot 10).mesh.getAABB.expandXY 20) = true ∧
    ((1, 0) : Point) ∈ boxOffset {(20, 0)} 20 ∩ boxOffset {(0, 0)} ((10 : Int).tdiv 2) ∧
    (∃ out, generateMultipleVolumesOverlap (pointSet boxPrims) [bondDot 10, dotAt 20] =
        some out ∧ polygonsAt out 0 0 = some {(0, 0)}) ∧
    (∃ out A, generateMultipleVolumesOverlap (pointSet boxPrims) [bondDot 40, dotAt 20] =
        some out ∧ polygonsAt out 0 0 = some A ∧ ((1, 0) : Point) ∈ A) := by
  refine ⟨by decide, ?_, ⟨_, rfl, ?_⟩, ⟨_, _, rfl, rfl, ?_⟩⟩
  · refine Finset.mem_inter.mpr ⟨?_, ?_⟩
    · exact (mem_boxOffset _ _ _).mpr ⟨(20, 0), by simp, by decide⟩
    · exact (mem_boxOffset _ _ _).mpr ⟨(0, 0), by simp, by decide⟩
  · change some (({(0, 0)} : Finset Point) ∪ (∅ ∩ boxOffset {(0, 0)} 5)) = some {(0, 0)}
    simp
  · change ((1, 0) : Point) ∈ ({(0, 0)} : Finset Point) ∪
      ((∅ ∪ boxOffset {(20, 0)} 20) ∩ boxOffset {(0, 0)} 20)
    refine Finset.mem_union_right _ (Finset.mem_inter.mpr ⟨Finset.mem_union_right _ ?_, ?_⟩)
    · exact (mem_boxOffset _ _ _).mpr ⟨(20, 0), by simp, by decide⟩
    · exact (mem_boxOffset _ _ _).mpr ⟨(0, 0), by simp, by decide⟩

end OverlapExamples

/-! ## `carveCuttingMeshes` in any surface mode -/

namespace MultiVolumes
section CuttingAnyMode
variable {P : Type}

theorem carveOne_carve_any (K : PolygonOps P) (meshes : List Mesh) (mode : ESurfaceMode)
    (S pl Ar : P) (L : Nat) (st : List (Slicer P) × P × P) (k : Nat)
    (hk : carvableAt meshes k = true) {w : Slicer P} (hw : st.1[k]? = some w)
    (hL : L < w.layers.length) :
    ∃ no np, carveOne K meshes mode S pl Ar L st k =
      some (writeLayer st.1 k L
        { w.layers[L] with polygons := K.difference w.layers[L].polygons Ar }, no, np) := by
  unfold carvableAt at hk
  cases hcm : meshes[k]? with
  | none => simp [hcm] at hk
  | some cm =>
    simp only [hcm, Bool.not_eq_true', Bool.or_eq_false_iff] at hk
    refine ⟨K.add st.2.1 (K.intersection S w.layers[L].polygons),
      if mode = ESurfaceMode.NORMAL then st.2.2
      else K.add st.2.2 (K.intersectionPolyLines w.layers[L].polygons pl), ?_⟩
    simp [carveOne, hcm, hk, hw, List.getElem?_eq_getElem hL]

/-- The loop of lines 162-182 over any polygon algebra and in any surface mode: every
carved solid loses the area `Ar`. -/
theorem carveOne_loop_any (K : PolygonOps P) (meshes : List Mesh) (mode : ESurfaceMode)
    (vs : List (Slicer P)) (S pl Ar : P) (L : Nat) (hmesh : vs.length ≤ meshes.length)
    (hlay : ∀ j, j < vs.length → carvableAt meshes j = true → ∃ a, polygonsAt vs j L = some a) :
    ∃ st, (List.range vs.length).foldlM (carveOne K meshes mode S pl Ar L)
        (vs, K.empty, K.empty) = some st ∧
      shape st.1 = shape vs ∧
      ∀ j L', polygonsAt st.1 j L' =
        if L' = L ∧ carvableAt meshes j = true then
          (polygonsAt vs j L).map (fun C => K.difference C Ar)
        else polygonsAt vs j L' := by
  obtain ⟨st, hst, hshape, harea⟩ := foldlM_range_inv (carveOne K meshes mode S pl Ar L)
    (fun k st => shape st.1 = shape vs ∧
      ∀ j L', polygonsAt st.1 j L' =
        if L' = L ∧ j < k ∧ carvableAt meshes j = true then
          (polygonsAt vs j L).map (fun C => K.difference C Ar)
        else polygonsAt vs j L')
    vs.length (vs, K.empty, K.empty) ⟨rfl, by intro j L'; simp⟩
    (by
      intro k hk st ⟨hs, ha⟩
      by_cases hc : carvableAt meshes k = true
      · obtain ⟨C, hC⟩ := hlay k hk hc
        have hkv : vs[k]? = some vs[k] := List.getElem?_eq_getElem hk
        obtain ⟨w, hw, _, hwl⟩ := shape_getElem? hs.symm hkv
        have hLv : L < vs[k].layers.length := by
          by_contra hcon
          rw [polygonsAt_eq_none hkv (by omega)] at hC
          cases hC
        have hLw : L < w.layers.length := by omega
        have hwC : w.layers[L].polygons = C := by
          have h1 := polygonsAt_eq_some hw hLw
          rw [ha k L, hC] at h1
          simpa using h1.symm
        obtain ⟨no, np, hstep⟩ := carveOne_carve_any K meshes mode S pl Ar L st k hc hw hLw
        refine ⟨_, hstep, (shape_writeLayer _ _ _ _).trans hs, ?_⟩
        intro j L'
        rw [polygonsAt_writeLayer, ha j L', ha k L]
        by_cases hj : j = k
        · subst hj
          by_cases hL' : L' = L
          · subst hL'
            simp [hc, hC, hwC]
          · simp [hL']
        · have : j < k + 1 ↔ j < k := by omega
          simp [hj, this]
      · simp only [Bool.not_eq_true] at hc
        refine ⟨st, carveOne_skip K meshes mode S pl Ar L st k hc (by omega), hs, ?_⟩
        intro j L'
        rw [ha j L']
        by_cases hj : j = k
        · subst hj
          simp [hc]
        · have : j < k + 1 ↔ j < k := by omega
          simp [this])
  refine ⟨st, hst, hshape, ?_⟩
  intro j L'
  rw [harea j L']
  by_cases hj : j < vs.length
  · simp [hj]
  · have hnone : polygonsAt vs j L = none := by
      simp [polygonsAt, layerAt, List.getElem?_eq_none (Nat.le_of_not_lt hj)]
    have hnone' : polygonsAt vs j L' = none := by
      simp [polygonsAt, layerAt, List.getElem?_eq_none (Nat.le_of_not_lt hj)]
    simp [hj, hnone, hnone']

/-- The body of the layer loop (lines 130-189) over any polygon algebra and in any surface
mode: it succeeds when every carved solid has the layer, and every carved solid loses the
area `*cutting_mesh_area` computed by lines 135-158. -/
theorem carveCuttingLayer_any (K : PolygonOps P) (meshes : List Mesh) (c : Nat) (cm : Mesh)
    (vs : List (Slicer P)) (L : Nat) (hc : carvableAt meshes c = false)
    (hmesh : vs.length ≤ meshes.length) {v : Slicer P} (hv : vs[c]? = some v)
    (hL : L < v.layers.length)
    (hlay : ∀ j, j < vs.length → carvableAt meshes j = true → ∃ a, polygonsAt vs j L = some a) :
    ∃ out, carveCuttingLayer K meshes c cm vs L = some out ∧
      ∀ (j : Nat) (C : P), carvableAt meshes j = true → polygonsAt vs j L = some C →
        polygonsAt out j L = some (K.difference C
          (cuttingMeshArea K cm.settings.magic_mesh_surface_mode v.layers[L].polygons
            v.layers[L].openPolylines cm.settings.wall_line_width_0).2.2) := by
  obtain ⟨st, hst, _, harea⟩ := carveOne_loop_any K meshes cm.settings.magic_mesh_surface_mode vs
    (cuttingMeshArea K cm.settings.magic_mesh_surface_mode v.layers[L].polygons
      v.layers[L].openPolylines cm.settings.wall_line_width_0).1
    (cuttingMeshArea K cm.settings.magic_mesh_surface_mode v.layers[L].polygons
      v.layers[L].openPolylines cm.settings.wall_line_width_0).2.1
    (cuttingMeshArea K cm.settings.magic_mesh_surface_mode v.layers[L].polygons
      v.layers[L].openPolylines cm.settings.wall_line_width_0).2.2 L hmesh hlay
  have key : ∀ (x : SlicerLayer P) (j : Nat) (C : P), carvableAt meshes j = true →
      polygonsAt vs j L = some C →
      polygonsAt (writeLayer st.1 c L x) j L = some (K.difference C
        (cuttingMeshArea K cm.settings.magic_mesh_surface_mode v.layers[L].polygons
          v.layers[L].openPolylines cm.settings.wall_line_width_0).2.2) := by
    intro x j C hj hC
    have hjc : j ≠ c := by
      intro h
      rw [h, hc] at hj
      exact Bool.noConfusion hj
    rw [polygonsAt_writeLayer, harea j L]
    simp [hjc, hj, hC]
  by_cases hmode : cm.settings.magic_mesh_surface_mode = ESurfaceMode.NORMAL
  · refine ⟨writeLayer st.1 c L
      { polygons := K.unionSelf st.2.1
        openPolylines := (cuttingMeshArea K cm.settings.magic_mesh_surface_mode
          v.layers[L].polygons v.layers[L].openPolylines cm.settings.wall_line_width_0).2.1 },
      ?_, key _⟩
    have hst' := hst
    rw [hmode] at hst'
    simp only [carveCuttingLayer, hv, List.getElem?_eq_getElem hL, Option.bind_eq_bind,
      Option.some_bind, ne_eq, hmode, hst', not_true_eq_false, if_false]
    rfl
  · refine ⟨writeLayer st.1 c L
      { polygons := (K.stitch st.2.2 cm.settings.wall_line_width_0).2
        openPolylines := (K.stitch st.2.2 cm.settings.wall_line_width_0).1 },
      ?_, key _⟩
    simp only [carveCuttingLayer, hv, List.getElem?_eq_getElem hL, Option.bind_eq_bind,
      Option.some_bind, hst, ne_eq, hmode, not_false_eq_true, if_true]
    rfl

end CuttingAnyMode
end MultiVolumes

/-! ## Polygons turned into polylines -/

namespace MultiVolumes
section PolygonConversion

/-- C17, as amended (polygon-to-curve conversion).  Polygons are vertex lists.  For a
cutting mesh in slot `ci` whose layer `L` holds the closed polygons `pg` and the open
polylines `pl`, and with line width `w`:
in surface-only (SURFACE) mode every polygon of `pg` is closed by appending its first
vertex and appended to the open-curve set, which becomes `pl ++ pg.map closePath`, and
every carved solid loses the offset of that set by `w/2`;
in surface+interior (BOTH) mode the open-curve set stays `pl` and every carved solid loses
the union of `pg` with the offset of `pl` by `w/2`. -/
theorem carveCuttingLayer_polygon_conversion (c : PathPrims) (meshes : List Mesh) (ci : Nat)
    (cm : Mesh) (vs : List (Slicer Paths)) (L : Nat) (v : Slicer Paths) (pg pl : Paths)
    (hcm : meshes[ci]? = some cm) (hcut : cm.settings.cutting_mesh = true)
    (hmesh : vs.length ≤ meshes.length) (hv : vs[ci]? = some v)
    (hlayer : v.layers[L]? = some { polygons := pg, openPolylines := pl })
    (hlay : ∀ j, j < vs.length → carvableAt meshes j = true → ∃ a, polygonsAt vs j L = some a) :
    (cuttingMeshArea (vertexOps c) ESurfaceMode.SURFACE pg pl
        cm.settings.wall_line_width_0).2.1 = pl ++ pg.map closePath ∧
    (∀ (p : Point) (rest : Path), (p :: rest) ∈ pg →
      (p :: rest ++ [p]) ∈ pl ++ pg.map closePath) ∧
    (cuttingMeshArea (vertexOps c) ESurfaceMode.BOTH pg pl
        cm.settings.wall_line_width_0).2.1 = pl ∧
    (cm.settings.magic_mesh_surface_mode = ESurfaceMode.SURFACE →
      ∃ out, carveCuttingLayer (vertexOps c) meshes ci cm vs L = some out ∧
        ∀ (j : Nat) (C : Paths), carvableAt meshes j = true → polygonsAt vs j L = some C →
          polygonsAt out j L = some (c.difference C
            (c.offsetPolyLine (pl ++ pg.map closePath)
              (cm.settings.wall_line_width_0.tdiv 2)))) ∧
    (cm.settings.magic_mesh_surface_mode = ESurfaceMode.BOTH →
      ∃ out, carveCuttingLayer (vertexOps c) meshes ci cm vs L = some out ∧
        ∀ (j : Nat) (C : Paths), carvableAt meshes j = true → polygonsAt vs j L = some C →
          polygonsAt out j L = some (c.difference C
            (c.unionPolygons pg
              (c.offsetPolyLine pl (cm.settings.wall_line_width_0.tdiv 2))
              PolyFillType.pftNonZero))) := by
  have hc : carvableAt meshes ci = false := by simp [carvableAt, hcm, hcut]
  obtain ⟨hL, hlay0⟩ := List.getElem?_eq_some_iff.mp hlayer
  obtain ⟨out, hout, harea⟩ := carveCuttingLayer_any (vertexOps c) meshes ci cm vs L hc hmesh
    hv hL hlay
  rw [hlay0] at harea
  refine ⟨rfl, ?_, rfl, ?_, ?_⟩
  · intro p rest hmem
    exact List.mem_append_right _ (List.mem_map.mpr ⟨p :: rest, hmem, rfl⟩)
  · intro hmode
    refine ⟨out, hout, ?_⟩
    intro j C hj hC
    rw [harea j C hj hC, hmode]
    rfl
  · intro hmode
    refine ⟨out, hout, ?_⟩
    intro j C hj hC
    rw [harea j C hj hC, hmode]
    rfl

end PolygonConversion
end MultiVolumes

namespace MultiVolumes
section PolygonConversionExamples

/-- The amended C17 at a surface-only cutting mesh that holds a triangle, next to a
square. -/
theorem carveCuttingLayer_polygon_conversion_witness :
    (cuttingMeshArea (vertexOps atomPrims) ESurfaceMode.SURFACE [triangle] []
        stencilSurface.mesh.settings.wall_line_width_0).2.1 = [] ++ [triangle].map closePath ∧
    (∀ (p : Point) (rest : Path), (p :: rest) ∈ [triangle] →
      (p :: rest ++ [p]) ∈ [] ++ [triangle].map closePath) ∧
    (cuttingMeshArea (vertexOps atomPrims) ESurfaceMode.BOTH [triangle] []
        stencilSurface.mesh.settings.wall_line_width_0).2.1 = [] ∧
    (stencilSurface.mesh.settings.magic_mesh_surface_mode = ESurfaceMode.SURFACE →
      ∃ out, carveCuttingLayer (vertexOps atomPrims) [stencilSurface.mesh, pathBlock.mesh] 0
          stencilSurface.mesh [stencilSurface, pathBlock] 0 = some out ∧
        ∀ (j : Nat) (C : Paths),
          carvableAt [stencilSurface.mesh, pathBlock.mesh] j = true →
          polygonsAt [stencilSurface, pathBlock] j 0 = some C →
          polygonsAt out j 0 = some (atomPrims.difference C
            (atomPrims.offsetPolyLine ([] ++ [triangle].map closePath)
              (stencilSurface.mesh.settings.wall_line_width_0.tdiv 2)))) ∧
    (stencilSurface.mesh.settings.magic_mesh_surface_mode = ESurfaceMode.BOTH →
      ∃ out, carveCuttingLayer (vertexOps atomPrims) [stencilSurface.mesh, pathBlock.mesh] 0
          stencilSurface.mesh [stencilSurface, pathBlock] 0 = some out ∧
        ∀ (j : Nat) (C : Paths),
          carvableAt [stencilSurface.mesh, pathBlock.mesh] j = true →
          polygonsAt [stencilSurface, pathBlock] j 0 = some C →
          polygonsAt out j 0 = some (atomPrims.difference C
            (atomPrims.unionPolygons [triangle]
              (atomPrims.offsetPolyLine [] (stencilSurface.mesh.settings.wall_line_width_0.tdiv 2))
              PolyFillType.pftNonZero))) :=
  carveCuttingLayer_polygon_conversion atomPrims [stencilSurface.mesh, pathBlock.mesh] 0
    stencilSurface.mesh [stencilSurface, pathBlock] 0 stencilSurface [triangle] [] rfl rfl
    (by decide) rfl rfl
    (by
      intro j hj hc
      match j with
      | 0 => exact absurd hc (by decide)
      | 1 => exact ⟨_, rfl⟩
      | n + 2 => simp at hj)

/-- C17, as stated, fails.  In surface+interior (BOTH) mode the block of lines 135-158
leaves the open-curve set as it was: for a cutting mesh that holds the triangle as a
closed polygon and no polyline, the open-curve set stays empty and the effective area is
the polygons united with the offset of no curve.  Only in surface-only (SURFACE) mode is
the triangle closed by its first vertex and put into the open-curve set. -/
theorem both_mode_converts_no_polygon :
    (cuttingMeshArea (vertexOps atomPrims) ESurfaceMode.BOTH [triangle] [] 4).2.1 = [] ∧
    (cuttingMeshArea (vertexOps atomPrims) ESurfaceMode.BOTH [triangle] [] 4).1 = [triangle] ∧
    (cuttingMeshArea (vertexOps atomPrims) ESurfaceMode.BOTH [triangle] [] 4).2.2 =
      atomPrims.unionPolygons [triangle] (atomPrims.offsetPolyLine [] 2)
        PolyFillType.pftNonZero ∧
    (cuttingMeshArea (vertexOps atomPrims) ESurfaceMode.SURFACE [triangle] [] 4).2.1 =
      [[(0, 0), (4, 0), (0, 4), (0, 0)]] := by
  refine ⟨rfl, rfl, rfl, rfl⟩

end PolygonConversionExamples
end MultiVolumes

/-! ## The insertion sort of `std::sort` -/


section SortInsertion

theorem getElem?_append_cons (A : List Nat) (z : Nat) (C : List Nat) :
    (A ++ z :: C)[A.length]? = some z := by
  rw [List.getElem?_append_right (le_refl _)]
  simp

theorem assign_append_cons (A : List Nat) (z x : Nat) (C : List Nat) :
    assign (A ++ z :: C) A.length x = some (A ++ x :: C) := by
  simp [assign]

theorem insertSorted_append_of_not (lt : Nat → Nat → Bool) (x : Nat) (A B : List Nat)
    (h : ∀ a ∈ A, lt x a = false) :
    insertSorted lt x (A ++ B) = A ++ insertSorted lt x B := by
  induction A with
  | nil => rfl
  | cons a A ih =>
    have ha : lt x a = false := h a (List.mem_cons_self _ _)
    rw [List.cons_append, insertSorted, if_neg (by simp [ha]),
      ih (fun b hb => h b (List.mem_cons_of_mem _ hb)), List.cons_append]

theorem insertSorted_of_all (lt : Nat → Nat → Bool) (x : Nat) (B : List Nat)
    (h : ∀ b ∈ B, lt x b = true) : insertSorted lt x B = x :: B := by
  cases B with
  | nil => rfl
  | cons b B => simp [insertSorted, h b (List.mem_cons_self _ _)]

/-- The loop of `__unguarded_linear_insert` on a sorted part `A` that holds an element not
above `x`: the value `x` lands behind the elements of `A` that are not above it. -/
theorem unguarded_linear_insert_loop_spec (key : Nat → Int) (x : Nat) (C : List Nat)
    (A : List Nat) :
    ∀ (B : List Nat) (z : Nat), A.Pairwise (fun a b => key a ≤ key b) →
      (∀ b ∈ B, key x < key b) → (∃ y ∈ A, key y ≤ key x) →
      unguarded_linear_insert_loop (fun a b => decide (key a < key b)) x A.length
          (A ++ z :: (B ++ C)) =
        some (insertSorted (fun a b => decide (key a < key b)) x (A ++ B) ++ C) := by
  induction A using List.reverseRecOn with
  | nil =>
    rintro B z - - ⟨y, hy, -⟩
    cases hy
  | append_singleton A a ih =>
    intro B z hsorted hB hguard
    have hlen : (A ++ [a]).length = A.length + 1 := by simp
    rw [hlen]
    have hread : (A ++ [a] ++ z :: (B ++ C))[A.length]? = some a := by
      rw [List.append_assoc]
      exact getElem?_append_cons A a _
    have hA : A.Pairwise (fun a b => key a ≤ key b) := (List.pairwise_append.mp hsorted).1
    have hmax : ∀ y ∈ A, key y ≤ key a := fun y hy =>
      (List.pairwise_append.mp hsorted).2.2 y hy a (List.mem_singleton_self a)
    unfold unguarded_linear_insert_loop
    simp only [hread, Option.bind_eq_bind, Option.some_bind]
    by_cases hlt : key x < key a
    · simp only [hlt, decide_True, if_true]
      have hw : assign (A ++ [a] ++ z :: (B ++ C)) (A.length + 1) a =
          some (A ++ a :: ((a :: B) ++ C)) := by
        have := assign_append_cons (A ++ [a]) z a (B ++ C)
        rw [hlen] at this
        rw [this]
        simp
      rw [hw]
      simp only [Option.some_bind]
      have hguard' : ∃ y ∈ A, key y ≤ key x := by
        obtain ⟨y, hy, hyx⟩ := hguard
        rcases List.mem_append.mp hy with hy | hy
        · exact ⟨y, hy, hyx⟩
        · rw [List.mem_singleton.mp hy] at hyx
          omega
      have hB' : ∀ b ∈ a :: B, key x < key b := by
        intro b hb
        rcases List.mem_cons.mp hb with rfl | hb
        · exact hlt
        · exact hB b hb
      rw [ih (a :: B) a hA hB' hguard']
      simp
    · simp only [hlt, decide_False, Bool.false_eq_true, if_false]
      have hw : assign (A ++ [a] ++ z :: (B ++ C)) (A.length + 1) x =
          some (A ++ [a] ++ x :: (B ++ C)) := by
        have := assign_append_cons (A ++ [a]) z x (B ++ C)
        rw [hlen] at this
        exact this
      rw [hw]
      have hnot : ∀ y ∈ A ++ [a], (fun a b => decide (key a < key b)) x y = false := by
        intro y hy
        have hya : key y ≤ key a := by
          rcases List.mem_append.mp hy with hy | hy
          · exact hmax y hy
          · rw [List.mem_singleton.mp hy]
        simp only [decide_eq_false_iff_not, not_lt]
        omega
      rw [insertSorted_append_of_not _ x (A ++ [a]) B hnot,
        insertSorted_of_all _ x B (fun b hb => by simpa using hB b hb)]
      simp

end SortInsertion

section SortInsertionSort

theorem unguarded_linear_insert_spec (key : Nat → Int) (S C : List Nat) (x : Nat)
    (hS : S.Pairwise (fun a b => key a ≤ key b)) (hg : ∃ y ∈ S, key y ≤ key x) :
    unguarded_linear_insert (fun a b => decide (key a < key b)) S.length (S ++ x :: C) =
      some (insertSorted (fun a b => decide (key a < key b)) x S ++ C) := by
  unfold unguarded_linear_insert
  rw [getElem?_append_cons]
  have := unguarded_linear_insert_loop_spec key x C S [] x hS (by simp) hg
  simpa using this

theorem move_backward_spec (B : List Nat) :
    ∀ (z : Nat) (C : List Nat),
      move_backward 0 B.length (B ++ z :: C) = some (B.headD z :: B ++ C) := by
  induction B using List.reverseRecOn with
  | nil => intro z C; rfl
  | append_singleton B b ih =>
    intro z C
    have hlen : (B ++ [b]).length = B.length + 1 := by simp
    have hread : (B ++ [b] ++ z :: C)[0 + B.length]? = some b := by
      rw [Nat.zero_add, List.append_assoc]
      exact getElem?_append_cons B b _
    have hw : assign (B ++ [b] ++ z :: C) (0 + B.length + 1) b = some (B ++ b :: b :: C) := by
      have := assign_append_cons (B ++ [b]) z b C
      rw [hlen] at this
      rw [Nat.zero_add, this]
      simp
    rw [hlen]
    unfold move_backward
    simp only [hread, hw, Option.bind_eq_bind, Option.some_bind]
    rw [ih b (b :: C)]
    cases B <;> simp

/-- One round of the loop of `__insertion_sort` with `first` the head of the vector: the
element behind the sorted part is inserted into it. -/
theorem insertion_sort_step (key : Nat → Int) (S C : List Nat) (x : Nat)
    (hS : S.Pairwise (fun a b => key a ≤ key b)) (hne : S ≠ []) :
    (do
      let x1 ← (S ++ x :: C)[S.length]?
      let y ← (S ++ x :: C)[0]?
      if (fun a b => decide (key a < key b)) x1 y then do
        let v ← move_backward 0 (S.length - 0) (S ++ x :: C)
        assign v 0 x1
      else unguarded_linear_insert (fun a b => decide (key a < key b)) S.length (S ++ x :: C)) =
      some (insertSorted (fun a b => decide (key a < key b)) x S ++ C) := by
  obtain ⟨y, T, rfl⟩ := List.exists_cons_of_ne_nil hne
  rw [getElem?_append_cons]
  have h0 : (y :: T ++ x :: C)[0]? = some y := by simp
  simp only [h0, Option.bind_eq_bind, Option.some_bind, Nat.sub_zero]
  by_cases hlt : key x < key y
  · simp only [hlt, decide_True, if_true]
    rw [move_backward_spec (y :: T) x C]
    simp only [Option.some_bind, List.headD_cons]
    have hall : ∀ b ∈ y :: T, (fun a b => decide (key a < key b)) x b = true := by
      intro b hb
      simp only [decide_eq_true_eq]
      rcases List.mem_cons.mp hb with rfl | hb
      · exact hlt
      · have := (List.pairwise_cons.mp hS).1 b hb
        omega
    rw [insertSorted_of_all _ x (y :: T) hall]
    rfl
  · simp only [hlt, decide_False, Bool.false_eq_true, if_false]
    exact unguarded_linear_insert_spec key (y :: T) C x hS
      ⟨y, List.mem_cons_self _ _, by omega⟩

theorem stableSort_concat (lt : Nat → Nat → Bool) (l : List Nat) (x : Nat) :
    stableSort lt (l ++ [x]) = insertSorted lt x (stableSort lt l) := by
  simp [stableSort, List.foldl_append]

theorem stableSort_length (lt : Nat → Nat → Bool) (l : List Nat) :
    (stableSort lt l).length = l.length := by
  have := foldl_insertSorted_perm lt l []
  simpa [stableSort] using this.length_eq

theorem take_succ_drop (v : List Nat) (k : Nat) (hk : k < v.length) :
    v.take (k + 1) = v.take k ++ [v[k]] ∧ v.drop k = v[k] :: v.drop (k + 1) := by
  refine ⟨?_, ?_⟩
  · rw [List.take_succ, List.getElem?_eq_getElem hk]
    rfl
  · exact List.drop_eq_getElem_cons hk

/-- The loop of `__insertion_sort` from the head of the vector: after the rounds for the
positions `1 .. k`, the first `k + 1` elements are in the order of the stable sort. -/
theorem insertion_sort_loop (key : Nat → Int) (v : List Nat) (k : Nat) (hk : k + 1 ≤ v.length) :
    (List.range' (0 + 1) k).foldlM
      (fun v i => do
        let x ← v[i]?
        let y ← v[0]?
        if (fun a b => decide (key a < key b)) x y then do
          let v ← move_backward 0 (i - 0) v
          assign v 0 x
        else unguarded_linear_insert (fun a b => decide (key a < key b)) i v) v =
      some (stableSort (fun a b => decide (key a < key b)) (v.take (k + 1)) ++ v.drop (k + 1)) := by
  induction k with
  | zero =>
    obtain ⟨x, T, rfl⟩ := List.exists_cons_of_ne_nil (List.ne_nil_of_length_pos (show 0 < v.length by omega))
    simp [stableSort, insertSorted]
  | succ k ih =>
    rw [List.range'_concat, List.foldlM_append, ih (by omega)]
    obtain ⟨h1, h2⟩ := take_succ_drop v (k + 1) (by omega)
    rw [h2, h1, stableSort_concat]
    have hS := (stableSort_contract key (v.take (k + 1))).2
    have hlen : (stableSort (fun a b => decide (key a < key b)) (v.take (k + 1))).length
        = k + 1 := by
      rw [stableSort_length, List.length_take]
      omega
    have hne : stableSort (fun a b => decide (key a < key b)) (v.take (k + 1)) ≠ [] := by
      intro h
      rw [h] at hlen
      simp at hlen
    have := insertion_sort_step key _ (v.drop (k + 1 + 1)) v[k + 1] hS hne
    rw [hlen] at this
    simpa [Nat.add_comm] using this

/-- The function `__insertion_sort` from the head of the vector leaves its first `m`
elements in the order of the stable sort and the others in place. -/
theorem insertion_sort_spec (key : Nat → Int) (v : List Nat) (m : Nat) (hm : m ≤ v.length) :
    insertion_sort (fun a b => decide (key a < key b)) 0 m v =
      some (stableSort (fun a b => decide (key a < key b)) (v.take m) ++ v.drop m) := by
  unfold insertion_sort
  cases m with
  | zero => simp [stableSort]
  | succ k =>
    rw [if_neg (by omega)]
    have := insertion_sort_loop key v k hm
    simpa using this

end SortInsertionSort

section SortStable

/-- Insertion keeps the order "smaller key, or equal key and smaller number" when the
new number is above all those of the list. -/
theorem insertSorted_stable (key : Nat → Int) (x : Nat) (l : List Nat)
    (h : l.Pairwise (fun a b => key a < key b ∨ (key a = key b ∧ a < b)))
    (hx : ∀ a ∈ l, a < x) :
    (insertSorted (fun a b => decide (key a < key b)) x l).Pairwise
      (fun a b => key a < key b ∨ (key a = key b ∧ a < b)) := by
  induction l with
  | nil => simp [insertSorted]
  | cons y ys ih =>
    rw [List.pairwise_cons] at h
    unfold insertSorted
    split
    · rename_i hxy
      simp only [decide_eq_true_eq] at hxy
      refine List.Pairwise.cons ?_ (List.Pairwise.cons h.1 h.2)
      intro z hz
      rcases List.mem_cons.mp hz with rfl | hz
      · exact Or.inl hxy
      · rcases h.1 z hz with h1 | h1
        · exact Or.inl (by omega)
        · exact Or.inl (by omega)
    · rename_i hxy
      simp only [decide_eq_true_eq, not_lt] at hxy
      refine List.Pairwise.cons ?_ (ih h.2 (fun a ha => hx a (List.mem_cons_of_mem _ ha)))
      intro z hz
      have hz' : z ∈ x :: ys := (insertSorted_perm _ x ys).subset hz
      rcases List.mem_cons.mp hz' with rfl | hz'
      · have := hx y (List.mem_cons_self _ _)
        rcases lt_or_eq_of_le hxy with h1 | h1
        · exact Or.inl h1
        · exact Or.inr ⟨h1, this⟩
      · exact h.1 z hz'

theorem foldl_insertSorted_stable (key : Nat → Int) (l : List Nat) :
    ∀ acc, acc.Pairwise (fun a b => key a < key b ∨ (key a = key b ∧ a < b)) →
      l.Pairwise (fun a b => a < b) → (∀ a ∈ acc, ∀ b ∈ l, a < b) →
      (l.foldl (fun acc x => insertSorted (fun a b => decide (key a < key b)) x acc)
        acc).Pairwise (fun a b => key a < key b ∨ (key a = key b ∧ a < b)) := by
  induction l with
  | nil => intro acc h _ _; exact h
  | cons x xs ih =>
    intro acc h hl hacc
    rw [List.pairwise_cons] at hl
    refine ih _ (insertSorted_stable key x acc h (fun a ha => hacc a ha x (List.mem_cons_self _ _)))
      hl.2 ?_
    intro a ha b hb
    have ha' : a ∈ x :: acc := (insertSorted_perm _ x acc).subset ha
    rcases List.mem_cons.mp ha' with rfl | ha'
    · exact hl.1 b hb
    · exact hacc a ha' b (List.mem_cons_of_mem _ hb)

/-- The stable sort of numbers given in increasing order ranks equal keys by number. -/
theorem stableSort_stable (key : Nat → Int) (l : List Nat) (hl : l.Pairwise (fun a b => a < b)) :
    (stableSort (fun a b => decide (key a < key b)) l).Pairwise
      (fun a b => key a = key b → a < b) := by
  have := foldl_insertSorted_stable key l [] List.Pairwise.nil hl (by simp)
  refine List.Pairwise.imp ?_ this
  intro a b hab heq
  rcases hab with h | h
  · omega
  · exact h.2

theorem introsort_loop_small (comp : Nat → Nat → Bool) (d first last : Nat) (v : List Nat)
    (h : last - first ≤ 16) : introsort_loop comp d first last v = some v := by
  cases d <;> simp [introsort_loop, S_threshold, Nat.not_lt.mpr h]

/-- Up to 16 elements `std::sort` is an insertion sort: it returns the stable order. -/
theorem sort_small (key : Nat → Int) (v : List Nat) (h : v.length ≤ 16) :
    sort (fun a b => decide (key a < key b)) v =
      some (stableSort (fun a b => decide (key a < key b)) v) := by
  unfold sort
  simp only []
  by_cases h0 : 0 ≠ v.length
  · rw [if_pos h0, introsort_loop_small _ _ 0 v.length v (by omega)]
    simp only [Option.bind_eq_bind, Option.some_bind]
    unfold final_insertion_sort
    rw [if_neg (by simp only [S_threshold]; omega), insertion_sort_spec key v v.length (le_refl _)]
    simp
  · rw [if_neg h0]
    have hv : v = [] := List.length_eq_zero.mp (by omega)
    rw [hv]
    rfl

end SortStable

/-! ## Vectors as lists: reads, assignments and exchanges -/

section SortArray

theorem getElem?_eq_getD (v : List Nat) (i : Nat) (h : i < v.length) :
    v[i]? = some (v.getD i 0) := by
  rw [List.getD_eq_getElem?_getD, List.getElem?_eq_getElem h]
  rfl

theorem assign_eq (v : List Nat) (i x : Nat) (h : i < v.length) :
    assign v i x = some (v.set i x) := by
  simp [assign, h]

theorem getD_set_self (v : List Nat) (i x : Nat) (h : i < v.length) :
    (v.set i x).getD i 0 = x := by
  simp [List.getD_eq_getElem?_getD, List.getElem?_set, h]

theorem getD_set_ne (v : List Nat) (i j x : Nat) (h : i ≠ j) :
    (v.set i x).getD j 0 = v.getD j 0 := by
  simp [List.getD_eq_getElem?_getD, List.getElem?_set_ne h]

theorem getD_mem (v : List Nat) (i : Nat) (h : i < v.length) : v.getD i 0 ∈ v := by
  rw [List.getD_eq_getElem _ _ h]
  exact List.getElem_mem h

/-- Exchanging two elements of a list rearranges it. -/
theorem swap_perm (l : List Nat) (i j : Nat) (hi : i < l.length) (hj : j < l.length) :
    ((l.set i (l.getD j 0)).set j (l.getD i 0)).Perm l := by
  rw [List.perm_iff_count]
  intro b
  have hj' : j < (l.set i (l.getD j 0)).length := by simpa using hj
  rw [List.count_set _ _ _ _ hj', List.count_set _ _ _ _ hi]
  have h1 : (l.set i (l.getD j 0))[j] = l.getD j 0 := by
    rw [List.getElem_set]
    split
    · rfl
    · exact (List.getD_eq_getElem _ _ hj).symm
  have h2 : l[i] = l.getD i 0 := (List.getD_eq_getElem _ _ hi).symm
  rw [h1, h2]
  have hx : (l.getD i 0 == b) = true → 0 < l.count b := by
    intro h
    rw [beq_iff_eq] at h
    rw [List.count_pos_iff, ← h]
    exact getD_mem l i hi
  by_cases hxb : (l.getD i 0 == b) = true <;> by_cases hyb : (l.getD j 0 == b) = true
  · have := hx hxb
    simp only [hxb, hyb, if_true]
    omega
  · have := hx hxb
    simp only [hxb, hyb, if_true, if_false, Bool.false_eq_true]
    omega
  · simp only [hxb, hyb, if_true, if_false, Bool.false_eq_true]
    omega
  · simp only [hxb, hyb, if_false, Bool.false_eq_true]
    omega

/-- Moving the element at `j` into the hole at `i` and leaving the hole at `j`. -/
theorem move_perm (v : List Nat) (i j x : Nat) (hi : i < v.length) (hj : j < v.length)
    (hij : i ≠ j) :
    ((v.set i (v.getD j 0)).set j x).Perm (v.set i x) := by
  have h := swap_perm (v.set i x) i j (by simpa using hi) (by simpa using hj)
  rw [getD_set_ne v i j x hij, getD_set_self v i x hi, List.set_set] at h
  exact h

theorem iter_swap_eq (a b : Nat) (v : List Nat) (ha : a < v.length) (hb : b < v.length) :
    iter_swap a b v = some ((v.set a (v.getD b 0)).set b (v.getD a 0)) := by
  unfold iter_swap
  rw [getElem?_eq_getD v a ha, getElem?_eq_getD v b hb]
  rfl

/-- A rearrangement that leaves everything outside the positions `a .. b - 1` in place
rearranges these positions among themselves. -/
theorem seg_transfer (v w : List Nat) (a b : Nat) (hab : a ≤ b) (hb : b ≤ v.length)
    (hlen : w.length = v.length) (hperm : w.Perm v)
    (hout : ∀ i, i < a ∨ b ≤ i → w.getD i 0 = v.getD i 0) :
    ∀ i, a ≤ i → i < b → ∃ j, a ≤ j ∧ j < b ∧ w.getD i 0 = v.getD j 0 := by
  have hsplit : ∀ l : List Nat, l = l.take a ++ ((l.drop a).take (b - a) ++ l.drop b) := by
    intro l
    have h1 : (l.drop a).drop (b - a) = l.drop b := by
      rw [List.drop_drop]
      congr 1
      omega
    rw [← h1, List.take_append_drop, List.take_append_drop]
  have htake : w.take a = v.take a := by
    apply List.ext_getElem?
    intro n
    rw [List.getElem?_take, List.getElem?_take]
    split
    · rename_i hn
      have := hout n (Or.inl hn)
      rw [getElem?_eq_getD w n (by omega), getElem?_eq_getD v n (by omega), this]
    · rfl
  have hdrop : w.drop b = v.drop b := by
    apply List.ext_getElem?
    intro n
    rw [List.getElem?_drop, List.getElem?_drop]
    by_cases hn : b + n < v.length
    · have := hout (b + n) (Or.inr (by omega))
      rw [getElem?_eq_getD w _ (by omega), getElem?_eq_getD v _ hn, this]
    · rw [List.getElem?_eq_none (by omega), List.getElem?_eq_none (by omega)]
  have hmid : ((w.drop a).take (b - a)).Perm ((v.drop a).take (b - a)) := by
    have h := hperm
    rw [hsplit w, hsplit v, htake, hdrop] at h
    exact (List.perm_append_right_iff _).mp ((List.perm_append_left_iff _).mp h)
  intro i hai hib
  have hmem : w.getD i 0 ∈ (w.drop a).take (b - a) := by
    rw [List.mem_iff_getElem?]
    refine ⟨i - a, ?_⟩
    rw [List.getElem?_take, if_pos (by omega), List.getElem?_drop]
    have : a + (i - a) = i := by omega
    rw [this]
    exact getElem?_eq_getD w i (by omega)
  obtain ⟨n, hn⟩ := List.mem_iff_getElem?.mp (hmid.subset hmem)
  rw [List.getElem?_take] at hn
  split at hn
  · rename_i hlt
    rw [List.getElem?_drop] at hn
    have hav : a + n < v.length := by omega
    rw [getElem?_eq_getD v _ hav] at hn
    exact ⟨a + n, by omega, by omega, (Option.some.inj hn).symm⟩
  · cases hn

end SortArray

/-! ## The partition of `std::sort` -/

section SortPartition

theorem swap_getD_left (v : List Nat) (a b : Nat) (ha : a < v.length) (hab : a ≠ b) :
    ((v.set a (v.getD b 0)).set b (v.getD a 0)).getD a 0 = v.getD b 0 := by
  rw [getD_set_ne _ b a _ (Ne.symm hab), getD_set_self v a _ ha]

theorem swap_getD_right (v : List Nat) (a b : Nat) (hb : b < v.length) :
    ((v.set a (v.getD b 0)).set b (v.getD a 0)).getD b 0 = v.getD a 0 := by
  rw [getD_set_self _ b _ (by simpa using hb)]

theorem swap_getD_other (v : List Nat) (a b i : Nat) (hia : a ≠ i) (hib : b ≠ i) :
    ((v.set a (v.getD b 0)).set b (v.getD a 0)).getD i 0 = v.getD i 0 := by
  rw [getD_set_ne _ b i _ hib, getD_set_ne _ a i _ hia]

/-- The upward scan of `__unguarded_partition` stops at the latest at an element that is
not below the pivot. -/
theorem partition_up_spec (key : Nat → Int) (pivot : Nat) (v : List Nat)
    (hp : pivot < v.length) :
    ∀ (fuel f s : Nat), f ≤ s → s < v.length →
      key (v.getD pivot 0) ≤ key (v.getD s 0) → s - f < fuel →
      ∃ f', partition_up (fun a b => decide (key a < key b)) pivot v fuel f = some f' ∧
        f ≤ f' ∧ f' ≤ s ∧
        (∀ i, f ≤ i → i < f' → key (v.getD i 0) < key (v.getD pivot 0)) ∧
        key (v.getD pivot 0) ≤ key (v.getD f' 0) := by
  intro fuel
  induction fuel with
  | zero => intro f s _ _ _ h; omega
  | succ k ih =>
    intro f s hfs hs hsent hfuel
    unfold partition_up
    rw [getElem?_eq_getD v f (by omega), getElem?_eq_getD v pivot hp]
    simp only [Option.bind_eq_bind, Option.some_bind]
    by_cases hlt : key (v.getD f 0) < key (v.getD pivot 0)
    · simp only [hlt, decide_True, if_true]
      have hne : f ≠ s := by
        intro h
        rw [h] at hlt
        omega
      obtain ⟨f', h1, h2, h3, h4, h5⟩ := ih (f + 1) s (by omega) hs hsent (by omega)
      refine ⟨f', h1, by omega, h3, ?_, h5⟩
      intro i hi hif
      by_cases hfi : i = f
      · rw [hfi]; exact hlt
      · exact h4 i (by omega) hif
    · simp only [hlt, decide_False, Bool.false_eq_true, if_false]
      exact ⟨f, rfl, le_refl _, hfs, fun i h1 h2 => by omega, by omega⟩

/-- The downward scan of `__unguarded_partition` stops at the latest at the pivot. -/
theorem partition_down_spec (key : Nat → Int) (pivot : Nat) (v : List Nat) :
    ∀ (l : Nat), pivot ≤ l → l < v.length →
      ∃ l', partition_down (fun a b => decide (key a < key b)) pivot v l = some l' ∧
        pivot ≤ l' ∧ l' ≤ l ∧
        (∀ i, l' < i → i ≤ l → key (v.getD pivot 0) < key (v.getD i 0)) ∧
        key (v.getD l' 0) ≤ key (v.getD pivot 0) := by
  intro l
  induction l with
  | zero =>
    intro hpl hl
    have hp0 : pivot = 0 := by omega
    unfold partition_down
    rw [hp0, getElem?_eq_getD v 0 hl]
    simp only [Option.bind_eq_bind, Option.some_bind, lt_self_iff_false, decide_False,
      Bool.false_eq_true, if_false]
    exact ⟨0, rfl, le_refl _, le_refl _, fun i h1 h2 => by omega, le_refl _⟩
  | succ l ih =>
    intro hpl hl
    unfold partition_down
    rw [getElem?_eq_getD v (l + 1) hl, getElem?_eq_getD v pivot (by omega)]
    simp only [Option.bind_eq_bind, Option.some_bind]
    by_cases hlt : key (v.getD pivot 0) < key (v.getD (l + 1) 0)
    · simp only [hlt, decide_True, if_true]
      have hne : pivot ≠ l + 1 := by
        intro h
        rw [← h] at hlt
        omega
      obtain ⟨l', h1, h2, h3, h4, h5⟩ := ih (by omega) (by omega)
      refine ⟨l', h1, h2, by omega, ?_, h5⟩
      intro i hi hil
      by_cases hil' : i = l + 1
      · rw [hil']; exact hlt
      · exact h4 i hi (by omega)
    · simp only [hlt, decide_False, Bool.false_eq_true, if_false]
      exact ⟨l + 1, rfl, hpl, le_refl _, fun i h1 h2 => by omega, by omega⟩

/-- The function `__unguarded_partition`, from a state in which an element not below the
pivot lies ahead: it returns a cut behind the pivot, the elements before the cut are
not above the pivot and those from the cut on are not below it. -/
theorem unguarded_partition_spec (key : Nat → Int) (pivot E : Nat) :
    ∀ (fuel f l : Nat) (v : List Nat), pivot < f → f ≤ l → l ≤ E → E ≤ v.length → l < fuel →
      (∀ i, pivot < i → i < f → key (v.getD i 0) ≤ key (v.getD pivot 0)) →
      (∀ i, l ≤ i → i < E → key (v.getD pivot 0) ≤ key (v.getD i 0)) →
      (∃ s, f ≤ s ∧ s < E ∧ key (v.getD pivot 0) ≤ key (v.getD s 0)) →
      ∃ cut w, unguarded_partition (fun a b => decide (key a < key b)) pivot fuel f l v =
          some (cut, w) ∧
        pivot < cut ∧ cut < E ∧ w.length = v.length ∧ w.Perm v ∧
        (∀ i, i ≤ pivot ∨ E ≤ i → w.getD i 0 = v.getD i 0) ∧
        (∀ i, pivot < i → i < cut → key (w.getD i 0) ≤ key (v.getD pivot 0)) ∧
        (∀ i, cut ≤ i → i < E → key (v.getD pivot 0) ≤ key (w.getD i 0)) := by
  intro fuel
  induction fuel with
  | zero => intro f l v _ _ _ _ h; omega
  | succ k ih =>
    intro f l v hpf hfl hlE hE hfuel hlow hhigh hsent
    obtain ⟨s, hfs, hsE, hs⟩ := hsent
    obtain ⟨f', hup, hff', hf's, hbelow, hf'⟩ :=
      partition_up_spec key pivot v (by omega) (v.length + 1 - f) f s hfs (by omega) hs (by omega)
    unfold unguarded_partition
    simp only [hup, Option.bind_eq_bind, Option.some_bind]
    obtain ⟨l0, rfl⟩ : ∃ l0, l = l0 + 1 := ⟨l - 1, by omega⟩
    obtain ⟨l', hdown, hpl', hl'l, habove, hl'⟩ :=
      partition_down_spec key pivot v l0 (by omega) (by omega)
    simp only [hdown, Option.some_bind]
    by_cases hlt : f' < l'
    · simp only [hlt, if_true]
      rw [iter_swap_eq f' l' v (by omega) (by omega)]
      simp only [Option.some_bind]
      have hpiv : ((v.set f' (v.getD l' 0)).set l' (v.getD f' 0)).getD pivot 0 =
          v.getD pivot 0 := swap_getD_other v f' l' pivot (by omega) (by omega)
      obtain ⟨cut, w, hres, h1, h2, h3, h4, h5, h6, h7⟩ :=
        ih (f' + 1) l' ((v.set f' (v.getD l' 0)).set l' (v.getD f' 0)) (by omega) (by omega)
          (by omega) (by simpa using hE) (by omega)
          (by
            intro i hpi hif
            rw [hpiv]
            by_cases h : i = f'
            · rw [h, swap_getD_left v f' l' (by omega) (by omega)]
              exact hl'
            · rw [swap_getD_other v f' l' i (by omega) (by omega)]
              by_cases h' : i < f
              · exact hlow i hpi h'
              · exact le_of_lt (hbelow i (by omega) (by omega)))
          (by
            intro i hli hiE
            rw [hpiv]
            by_cases h : i = l'
            · rw [h, swap_getD_right v f' l' (by omega)]
              exact hf'
            · rw [swap_getD_other v f' l' i (by omega) (by omega)]
              by_cases h' : i ≤ l0
              · exact le_of_lt (habove i (by omega) h')
              · exact hhigh i (by omega) hiE)
          ⟨l', by omega, by omega, by
            rw [hpiv, swap_getD_right v f' l' (by omega)]
            exact hf'⟩
      rw [hpiv] at h6 h7
      refine ⟨cut, w, hres, h1, h2, ?_, ?_, ?_, h6, h7⟩
      · simpa using h3
      · exact h4.trans (swap_perm v f' l' (by omega) (by omega))
      · intro i hi
        rw [h5 i hi]
        exact swap_getD_other v f' l' i (by omega) (by omega)
    · simp only [hlt, if_false]
      refine ⟨f', v, rfl, by omega, by omega, rfl, List.Perm.refl _, fun _ _ => rfl, ?_, ?_⟩
      · intro i hpi hif
        by_cases h' : i < f
        · exact hlow i hpi h'
        · exact le_of_lt (hbelow i (by omega) hif)
      · intro i hfi hiE
        by_cases h : i = f'
        · rw [h]; exact hf'
        · by_cases h' : i ≤ l0
          · exact le_of_lt (habove i (by omega) h')
          · exact hhigh i (by omega) hiE

end SortPartition

section SortPivot

/-- The function `__move_median_to_first` exchanges `result` with one of the three
positions, and one of the other two holds an element that is not below it. -/
theorem move_median_to_first_spec (key : Nat → Int) (result a b c : Nat) (v : List Nat)
    (hr : result < v.length) (ha : a < v.length) (hb : b < v.length) (hc : c < v.length)
    (hab : a ≠ b) (hac : a ≠ c) (hbc : b ≠ c) :
    ∃ m s, (m = a ∨ m = b ∨ m = c) ∧ (s = a ∨ s = b ∨ s = c) ∧ m ≠ s ∧
      key (v.getD m 0) ≤ key (v.getD s 0) ∧
      move_median_to_first (fun a b => decide (key a < key b)) result a b c v =
        some ((v.set result (v.getD m 0)).set m (v.getD result 0)) := by
  unfold move_median_to_first
  rw [getElem?_eq_getD v a ha, getElem?_eq_getD v b hb, getElem?_eq_getD v c hc]
  simp only [Option.bind_eq_bind, Option.some_bind]
  by_cases h1 : key (v.getD a 0) < key (v.getD b 0)
  · by_cases h2 : key (v.getD b 0) < key (v.getD c 0)
    · simp only [h1, h2, decide_True, if_true]
      exact ⟨b, c, by simp, by simp, hbc, by omega, iter_swap_eq result b v hr hb⟩
    · by_cases h3 : key (v.getD a 0) < key (v.getD c 0)
      · simp only [h1, h2, h3, decide_True, decide_False, if_true, Bool.false_eq_true, if_false]
        exact ⟨c, b, by simp, by simp, Ne.symm hbc, by omega, iter_swap_eq result c v hr hc⟩
      · simp only [h1, h2, h3, decide_True, decide_False, if_true, Bool.false_eq_true, if_false]
        exact ⟨a, b, by simp, by simp, hab, by omega, iter_swap_eq result a v hr ha⟩
  · by_cases h3 : key (v.getD a 0) < key (v.getD c 0)
    · simp only [h1, h3, decide_True, decide_False, if_true, Bool.false_eq_true, if_false]
      exact ⟨a, c, by simp, by simp, hac, by omega, iter_swap_eq result a v hr ha⟩
    · by_cases h2 : key (v.getD b 0) < key (v.getD c 0)
      · simp only [h1, h2, h3, decide_True, decide_False, if_true, Bool.false_eq_true, if_false]
        exact ⟨c, a, by simp, by simp, Ne.symm hac, by omega, iter_swap_eq result c v hr hc⟩
      · simp only [h1, h2, h3, decide_False, Bool.false_eq_true, if_false]
        exact ⟨b, a, by simp, by simp, Ne.symm hab, by omega, iter_swap_eq result b v hr hb⟩

/-- The function `__unguarded_partition_pivot` on more than 16 positions: it returns a
cut strictly inside them, rearranges them and leaves no element above the bound `pv`
before the cut and none below it from the cut on. -/
theorem unguarded_partition_pivot_spec (key : Nat → Int) (first last : Nat) (v : List Nat)
    (hsize : 16 < last - first) (hE : last ≤ v.length) :
    ∃ cut w pv, unguarded_partition_pivot (fun a b => decide (key a < key b)) first last v =
        some (cut, w) ∧
      first < cut ∧ cut < last ∧ w.length = v.length ∧ w.Perm v ∧
      (∀ i, i < first ∨ last ≤ i → w.getD i 0 = v.getD i 0) ∧
      (∀ i, first ≤ i → i < cut → key (w.getD i 0) ≤ pv) ∧
      (∀ i, cut ≤ i → i < last → pv ≤ key (w.getD i 0)) := by
  obtain ⟨m, s, hm, hs, hms, hle, hmed⟩ :=
    move_median_to_first_spec key first (first + 1) (first + (last - first) / 2) (last - 1) v
      (by omega) (by omega) (by omega) (by omega) (by omega) (by omega) (by omega)
  have hmr : first < m ∧ m < last := by omega
  have hsr : first < s ∧ s < last := by omega
  unfold unguarded_partition_pivot
  simp only [hmed, Option.bind_eq_bind, Option.some_bind]
  have hpiv : ((v.set first (v.getD m 0)).set m (v.getD first 0)).getD first 0 = v.getD m 0 :=
    swap_getD_left v first m (by omega) (by omega)
  obtain ⟨cut, w, hres, h1, h2, h3, h4, h5, h6, h7⟩ :=
    unguarded_partition_spec key first last (last + 1) (first + 1) last
      ((v.set first (v.getD m 0)).set m (v.getD first 0)) (by omega) (by omega) (le_refl _)
      (by simpa using hE) (by omega) (fun i h1 h2 => by omega) (fun i h1 h2 => by omega)
      ⟨s, by omega, by omega, by
        rw [hpiv, swap_getD_other v first m s (by omega) (by omega)]
        exact hle⟩
  rw [hpiv] at h6 h7
  refine ⟨cut, w, key (v.getD m 0), hres, h1, h2, by simpa using h3,
    h4.trans (swap_perm v first m (by omega) (by omega)), ?_, ?_, h7⟩
  · intro i hi
    rw [h5 i (by omega)]
    exact swap_getD_other v first m i (by omega) (by omega)
  · intro i hfi hic
    by_cases h : i = first
    · rw [h, h5 first (Or.inl (le_refl _)), hpiv]
    · exact h6 i (by omega) hic

end SortPivot

/-! ## The heap sort of `std::sort` -/

section SortHeapBasics

theorem desc_le (top h : Nat) (hd : Desc top h) : top ≤ h := by
  induction hd with
  | self => exact le_refl _
  | left h _ ih => omega
  | right h _ ih => omega

theorem desc_parent (top h : Nat) (hd : Desc top h) (hlt : top < h) :
    Desc top ((h - 1) / 2) := by
  cases hd with
  | self => omega
  | left h hd =>
    have : (2 * h + 1 - 1) / 2 = h := by omega
    rw [this]; exact hd
  | right h hd =>
    have : (2 * h + 2 - 1) / 2 = h := by omega
    rw [this]; exact hd

/-- Writing `x` at node `h` keeps the heap order when `x` is not above the parent of `h`
and not below its children. -/
theorem heapFrom_set (key : Nat → Int) (v : List Nat) (first len k h x : Nat)
    (hlen : first + h < v.length)
    (hedges : ∀ c, 0 < c → c < len → k ≤ (c - 1) / 2 → (c - 1) / 2 ≠ h → c ≠ h →
      key (v.getD (first + c) 0) ≤ key (v.getD (first + (c - 1) / 2) 0))
    (hparent : 0 < h → h < len → k ≤ (h - 1) / 2 →
      key x ≤ key (v.getD (first + (h - 1) / 2) 0))
    (hchildren : ∀ c, 0 < c → c < len → (c - 1) / 2 = h → k ≤ h →
      key (v.getD (first + c) 0) ≤ key x) :
    HeapFrom key (v.set (first + h) x) first len k := by
  intro c hc0 hcl hk
  by_cases h1 : c = h
  · have h2 : (c - 1) / 2 ≠ h := by omega
    rw [h1, getD_set_self v _ x hlen, getD_set_ne v _ _ x (by omega)]
    exact hparent (by omega) (by omega) (by rw [← h1]; exact hk)
  · by_cases h2 : (c - 1) / 2 = h
    · rw [h2, getD_set_self v _ x hlen, getD_set_ne v _ _ x (by omega)]
      exact hchildren c hc0 hcl h2 (by omega)
    · rw [getD_set_ne v _ _ x (by omega), getD_set_ne v _ _ x (by omega)]
      exact hedges c hc0 hcl hk h2 h1

/-- The function `__push_heap`, called with the hole at a node below `top` whose
children are not above `value`. -/
theorem push_heap_spec (key : Nat → Int) (first top len value : Nat) :
    ∀ (fuel hole : Nat) (v : List Nat), Desc top hole → hole < len → first + len ≤ v.length →
      hole < fuel → HeapFrom key v first len top →
      (∀ c, 0 < c → c < len → (c - 1) / 2 = hole →
        key (v.getD (first + c) 0) ≤ key value) →
      ∃ w, push_heap (fun a b => decide (key a < key b)) first top value fuel hole v = some w ∧
        w.length = v.length ∧ w.Perm (v.set (first + hole) value) ∧
        (∀ i, i < first + top ∨ first + len ≤ i → w.getD i 0 = v.getD i 0) ∧
        HeapFrom key w first len top := by
  intro fuel
  induction fuel with
  | zero => intro hole v _ _ _ h; omega
  | succ k ih =>
    intro hole v hd hhl hlen hfuel hheap hchild
    have htop := desc_le top hole hd
    unfold push_heap
    by_cases hgt : hole > top
    · have hdp := desc_parent top hole hd hgt
      have hpt := desc_le top _ hdp
      simp only [hgt, if_true]
      rw [getElem?_eq_getD v _ (by omega)]
      simp only [Option.bind_eq_bind, Option.some_bind]
      by_cases hlt : key (v.getD (first + (hole - 1) / 2) 0) < key value
      · simp only [hlt, decide_True, if_true]
        rw [assign_eq v _ _ (by omega)]
        simp only [Option.some_bind]
        have hheap' : HeapFrom key (v.set (first + hole) (v.getD (first + (hole - 1) / 2) 0))
            first len top := by
          apply heapFrom_set key v first len top hole _ (by omega)
          · intro c h1 h2 h3 _ _
            exact hheap c h1 h2 h3
          · intro _ _ _
            exact le_refl _
          · intro c h1 h2 h3 _
            have e1 := hheap c h1 h2 (by omega)
            have e2 := hheap hole (by omega) hhl hpt
            rw [h3] at e1
            omega
        obtain ⟨w, hres, h1, h2, h3, h4⟩ := ih ((hole - 1) / 2)
          (v.set (first + hole) (v.getD (first + (hole - 1) / 2) 0)) hdp (by omega)
          (by simpa using hlen) (by omega) hheap'
          (by
            intro c hc0 hcl hcp
            by_cases hch : c = hole
            · rw [hch, getD_set_self v _ _ (by omega)]
              omega
            · rw [getD_set_ne v _ _ _ (by omega)]
              have e1 := hheap c hc0 hcl (by omega)
              rw [hcp] at e1
              omega)
        refine ⟨w, hres, by simpa using h1, ?_, ?_, h4⟩
        · exact h2.trans (move_perm v _ _ value (by omega) (by omega) (by omega))
        · intro i hi
          rw [h3 i hi]
          exact getD_set_ne v _ _ _ (by omega)
      · simp only [hlt, decide_False, Bool.false_eq_true, if_false]
        rw [assign_eq v _ _ (by omega)]
        refine ⟨_, rfl, by simp, List.Perm.refl _, ?_, ?_⟩
        · intro i hi
          exact getD_set_ne v _ _ _ (by omega)
        · apply heapFrom_set key v first len top hole _ (by omega)
          · intro c h1 h2 h3 _ _
            exact hheap c h1 h2 h3
          · intro _ _ _
            omega
          · intro c h1 h2 h3 _
            exact hchild c h1 h2 h3
    · simp only [hgt, if_false]
      rw [assign_eq v _ _ (by omega)]
      refine ⟨_, rfl, by simp, List.Perm.refl _, ?_, ?_⟩
      · intro i hi
        exact getD_set_ne v _ _ _ (by omega)
      · apply heapFrom_set key v first len top hole _ (by omega)
        · intro c h1 h2 h3 _ _
          exact hheap c h1 h2 h3
        · intro _ _ _
          omega
        · intro c h1 h2 h3 _
          exact hchild c h1 h2 h3

end SortHeapBasics

section SortAdjustHeap

/-- The first loop of `__adjust_heap`: the hole goes down from a node below `top` to a
node without two children, and the heap order holds at every node but the hole. -/
theorem adjust_heap_down_spec (key : Nat → Int) (first len top value : Nat) :
    ∀ (fuel h : Nat) (v : List Nat), Desc top h → h < len → first + len ≤ v.length →
      len - h < fuel → HeapFrom key v first len (top + 1) →
      (h ≠ top → HeapFrom key v first len top) →
      ∃ h1 w, adjust_heap_down (fun a b => decide (key a < key b)) first len fuel h v =
          some (h1, w) ∧
        Desc top h1 ∧ h1 < len ∧ (len - 1) / 2 ≤ h1 ∧ w.length = v.length ∧
        (w.set (first + h1) value).Perm (v.set (first + h) value) ∧
        (∀ i, i < first + top ∨ first + len ≤ i → w.getD i 0 = v.getD i 0) ∧
        HeapFrom key w first len (top + 1) ∧ (h1 ≠ top → HeapFrom key w first len top) := by
  intro fuel
  induction fuel with
  | zero => intro h v _ _ _ hf; omega
  | succ k ih =>
    intro h v hd hhl hlen hfuel hheap1 hheap
    have htop := desc_le top h hd
    unfold adjust_heap_down
    by_cases hlt : h < (len - 1) / 2
    · simp only [hlt, if_true]
      rw [getElem?_eq_getD v (first + 2 * (h + 1)) (by omega),
        getElem?_eq_getD v (first + (2 * (h + 1) - 1)) (by omega)]
      simp only [Option.bind_eq_bind, Option.some_bind]
      -- the greater child
      obtain ⟨sc, hsc, hscd, hbig⟩ : ∃ sc,
          (if decide (key (v.getD (first + 2 * (h + 1)) 0) <
              key (v.getD (first + (2 * (h + 1) - 1)) 0)) = true
            then 2 * (h + 1) - 1 else 2 * (h + 1)) = sc ∧
          (sc = 2 * h + 1 ∨ sc = 2 * h + 2) ∧
          (∀ c, (c - 1) / 2 = h → 0 < c →
            key (v.getD (first + c) 0) ≤ key (v.getD (first + sc) 0)) := by
        by_cases hc : key (v.getD (first + 2 * (h + 1)) 0) <
            key (v.getD (first + (2 * (h + 1) - 1)) 0)
        · refine ⟨2 * (h + 1) - 1, if_pos (decide_eq_true hc), by omega, ?_⟩
          intro c hcp hc0
          have hcc : c = 2 * h + 1 ∨ c = 2 * h + 2 := by omega
          rcases hcc with rfl | rfl
          · have : 2 * (h + 1) - 1 = 2 * h + 1 := by omega
            rw [this]
          · have e1 : 2 * (h + 1) = 2 * h + 2 := by omega
            rw [e1] at hc ⊢
            omega
        · refine ⟨2 * (h + 1), if_neg (by rw [decide_eq_true_eq]; exact hc), by omega, ?_⟩
          intro c hcp hc0
          have hcc : c = 2 * h + 1 ∨ c = 2 * h + 2 := by omega
          rcases hcc with rfl | rfl
          · have e1 : 2 * (h + 1) - 1 = 2 * h + 1 := by omega
            rw [e1] at hc
            omega
          · have : 2 * (h + 1) = 2 * h + 2 := by omega
            rw [this]
      rw [hsc]
      have hscl : sc < len := by omega
      have hscp : (sc - 1) / 2 = h := by omega
      rw [getElem?_eq_getD v (first + sc) (by omega)]
      simp only [Option.some_bind]
      rw [assign_eq v _ _ (by omega)]
      simp only [Option.some_bind]
      have hdsc : Desc top sc := by
        rcases hscd with rfl | rfl
        · exact Desc.left h hd
        · exact Desc.right h hd
      have hedge : h ≠ top → key (v.getD (first + sc) 0) ≤ key (v.getD (first + h) 0) := by
        intro hne
        have := hheap1 sc (by omega) hscl (by omega)
        rw [hscp] at this
        exact this
      have hnew1 : HeapFrom key (v.set (first + h) (v.getD (first + sc) 0)) first len
          (top + 1) := by
        apply heapFrom_set key v first len (top + 1) h _ (by omega)
        · intro c h1 h2 h3 _ _
          exact hheap1 c h1 h2 h3
        · intro h0 _ hk
          have e1 := hedge (by omega)
          have e2 := hheap1 h h0 hhl hk
          omega
        · intro c h1 h2 h3 _
          exact hbig c h3 h1
      have hnew : HeapFrom key (v.set (first + h) (v.getD (first + sc) 0)) first len top := by
        apply heapFrom_set key v first len top h _ (by omega)
        · intro c h1 h2 h3 h4 _
          by_cases hct : (c - 1) / 2 = top
          · exact hheap (by omega) c h1 h2 h3
          · exact hheap1 c h1 h2 (by omega)
        · intro h0 _ hk
          have hne : h ≠ top := by omega
          have e1 := hedge hne
          have e2 := hheap hne h h0 hhl hk
          omega
        · intro c h1 h2 h3 _
          exact hbig c h3 h1
      obtain ⟨h1, w, hres, r1, r2, r3, r4, r5, r6, r7, r8⟩ :=
        ih sc (v.set (first + h) (v.getD (first + sc) 0)) hdsc hscl (by simpa using hlen)
          (by omega) hnew1 (fun _ => hnew)
      refine ⟨h1, w, hres, r1, r2, r3, by simpa using r4, ?_, ?_, r7, r8⟩
      · exact r5.trans (move_perm v _ _ value (by omega) (by omega) (by omega))
      · intro i hi
        rw [r6 i hi]
        exact getD_set_ne v _ _ _ (by omega)
    · simp only [hlt, if_false]
      exact ⟨h, v, rfl, hd, hhl, by omega, rfl, List.Perm.refl _, fun _ _ => rfl, hheap1, hheap⟩

theorem tdiv_two_cast (len : Nat) (h : 2 ≤ len) :
    ((len : Int) - 2).tdiv 2 = (((len - 2) / 2 : Nat) : Int) := by
  have : ((len : Int) - 2) = ((len - 2 : Nat) : Int) := by omega
  rw [this]
  exact (Int.ofNat_tdiv (len - 2) 2).symm

/-- The function `__adjust_heap`: with the heap order below `top`, the value is put in
place of the element at `top` and the heap order holds from `top` on. -/
theorem adjust_heap_spec (key : Nat → Int) (first top len value : Nat) (v : List Nat)
    (htl : top < len) (hlen : first + len ≤ v.length)
    (hheap : HeapFrom key v first len (top + 1)) :
    ∃ w, adjust_heap (fun a b => decide (key a < key b)) first top len value v = some w ∧
      w.length = v.length ∧ w.Perm (v.set (first + top) value) ∧
      (∀ i, i < first + top ∨ first + len ≤ i → w.getD i 0 = v.getD i 0) ∧
      HeapFrom key w first len top := by
  obtain ⟨h1, w1, hres1, hd1, hl1, hbot, hlen1, hperm1, hout1, hh1, hh1'⟩ :=
    adjust_heap_down_spec key first len top value (len + 1) top v Desc.self htl hlen
      (by omega) hheap (fun h => absurd rfl h)
  unfold adjust_heap
  simp only [hres1, Option.bind_eq_bind, Option.some_bind]
  by_cases hcond : len % 2 = 0 ∧ (h1 : Int) = ((len : Int) - 2).tdiv 2
  · rw [if_pos hcond]
    obtain ⟨heven, hcast⟩ := hcond
    have hl2 : 2 ≤ len := by omega
    rw [tdiv_two_cast len hl2] at hcast
    have hh : h1 = (len - 2) / 2 := by exact_mod_cast hcast
    have hc1 : 2 * (h1 + 1) - 1 = 2 * h1 + 1 := by omega
    have hlast : 2 * h1 + 1 < len := by omega
    rw [hc1, getElem?_eq_getD w1 _ (by omega)]
    simp only [Option.some_bind]
    rw [assign_eq w1 _ _ (by omega)]
    simp only [Option.some_bind]
    have htop := desc_le top h1 hd1
    have hedge : h1 ≠ top →
        key (w1.getD (first + (2 * h1 + 1)) 0) ≤ key (w1.getD (first + h1) 0) := by
      intro hne
      have := hh1 (2 * h1 + 1) (by omega) hlast (by omega)
      have e : (2 * h1 + 1 - 1) / 2 = h1 := by omega
      rw [e] at this
      exact this
    have hnew : HeapFrom key (w1.set (first + h1) (w1.getD (first + (2 * h1 + 1)) 0)) first len
        top := by
      apply heapFrom_set key w1 first len top h1 _ (by omega)
      · intro c c1 c2 c3 c4 _
        by_cases hct : (c - 1) / 2 = top
        · exact hh1' (by omega) c c1 c2 c3
        · exact hh1 c c1 c2 (by omega)
      · intro h0 _ hk
        have hne : h1 ≠ top := by omega
        have e1 := hedge hne
        have e2 := hh1' hne h1 h0 hl1 hk
        omega
      · intro c c1 c2 c3 _
        have : c = 2 * h1 + 1 := by omega
        rw [this]
    obtain ⟨w, hres, r1, r2, r3, r4⟩ :=
      push_heap_spec key first top len value (2 * (h1 + 1)) (2 * h1 + 1)
        (w1.set (first + h1) (w1.getD (first + (2 * h1 + 1)) 0)) (Desc.left h1 hd1) hlast
        (by simpa using (by omega : first + len ≤ w1.length)) (by omega) hnew
        (fun c c1 c2 c3 => by omega)
    refine ⟨w, hres, by simpa [hlen1] using r1, ?_, ?_, r4⟩
    · exact (r2.trans (move_perm w1 _ _ value (by omega) (by omega) (by omega))).trans hperm1
    · intro i hi
      rw [r3 i hi, getD_set_ne w1 _ _ _ (by omega)]
      exact hout1 i hi
  · rw [if_neg hcond]
    have htop := desc_le top h1 hd1
    have hleaf : len ≤ 2 * h1 + 1 := by
      by_cases heven : len % 2 = 0
      · have hl2 : 2 ≤ len := by omega
        have hne : h1 ≠ (len - 2) / 2 := by
          intro h
          apply hcond
          refine ⟨heven, ?_⟩
          rw [tdiv_two_cast len hl2, h]
        omega
      · omega
    have hheapw : HeapFrom key w1 first len top := by
      by_cases hne : h1 = top
      · intro c c1 c2 c3
        by_cases hct : (c - 1) / 2 = top
        · omega
        · exact hh1 c c1 c2 (by omega)
      · exact hh1' hne
    obtain ⟨w, hres, r1, r2, r3, r4⟩ :=
      push_heap_spec key first top len value (h1 + 1) h1 w1 hd1 hl1 (by omega) (by omega)
        hheapw (fun c c1 c2 c3 => by omega)
    exact ⟨w, hres, by omega, r2.trans hperm1, fun i hi => by rw [r3 i hi]; exact hout1 i hi, r4⟩

end SortAdjustHeap

section SortHeapSort

theorem set_getD_self (v : List Nat) (i : Nat) (h : i < v.length) :
    v.set i (v.getD i 0) = v := by
  apply List.ext_getElem?
  intro n
  by_cases hn : i = n
  · rw [hn, List.getElem?_set_self (by omega), getElem?_eq_getD v n (by omega)]
  · rw [List.getElem?_set_ne hn]

/-- The loop of `__make_heap` from `parent` down to the root. -/
theorem make_heap_loop_spec (key : Nat → Int) (first len : Nat) :
    ∀ (parent : Nat) (v : List Nat), parent < len → first + len ≤ v.length →
      HeapFrom key v first len (parent + 1) →
      ∃ w, make_heap_loop (fun a b => decide (key a < key b)) first len parent v = some w ∧
        w.length = v.length ∧ w.Perm v ∧
        (∀ i, i < first ∨ first + len ≤ i → w.getD i 0 = v.getD i 0) ∧
        HeapFrom key w first len 0 := by
  intro parent
  induction parent with
  | zero =>
    intro v hpl hlen hheap
    unfold make_heap_loop
    rw [getElem?_eq_getD v first (by omega)]
    simp only [Option.bind_eq_bind, Option.some_bind]
    obtain ⟨w, hres, h1, h2, h3, h4⟩ :=
      adjust_heap_spec key first 0 len (v.getD first 0) v hpl hlen hheap
    rw [Nat.add_zero, set_getD_self v first (by omega)] at h2
    exact ⟨w, hres, h1, h2, fun i hi => h3 i (by omega), h4⟩
  | succ p ih =>
    intro v hpl hlen hheap
    unfold make_heap_loop
    rw [getElem?_eq_getD v (first + (p + 1)) (by omega)]
    simp only [Option.bind_eq_bind, Option.some_bind]
    obtain ⟨w1, hres1, h1, h2, h3, h4⟩ :=
      adjust_heap_spec key first (p + 1) len (v.getD (first + (p + 1)) 0) v hpl hlen hheap
    rw [set_getD_self v _ (by omega)] at h2
    simp only [hres1, Option.some_bind]
    obtain ⟨w, hres, r1, r2, r3, r4⟩ := ih w1 (by omega) (by omega) h4
    exact ⟨w, hres, by omega, r2.trans h2,
      fun i hi => by rw [r3 i hi]; exact h3 i (by omega), r4⟩

/-- The function `__make_heap` puts the positions `first .. last - 1` in heap order. -/
theorem make_heap_spec (key : Nat → Int) (first last : Nat) (v : List Nat)
    (hfl : first ≤ last) (hlen : last ≤ v.length) :
    ∃ w, make_heap (fun a b => decide (key a < key b)) first last v = some w ∧
      w.length = v.length ∧ w.Perm v ∧
      (∀ i, i < first ∨ last ≤ i → w.getD i 0 = v.getD i 0) ∧
      HeapFrom key w first (last - first) 0 := by
  unfold make_heap
  by_cases h2 : last - first < 2
  · rw [if_pos h2]
    exact ⟨v, rfl, rfl, List.Perm.refl _, fun _ _ => rfl, fun c c1 c2 _ => by omega⟩
  · rw [if_neg h2]
    obtain ⟨w, hres, r1, r2, r3, r4⟩ :=
      make_heap_loop_spec key first (last - first) ((last - first - 2) / 2) v (by omega)
        (by omega) (fun c c1 c2 c3 => by omega)
    exact ⟨w, hres, r1, r2, fun i hi => r3 i (by omega), r4⟩

/-- In heap order the root is not below any element. -/
theorem heap_root_max (key : Nat → Int) (v : List Nat) (first len : Nat)
    (hheap : HeapFrom key v first len 0) :
    ∀ c, c < len → key (v.getD (first + c) 0) ≤ key (v.getD first 0) := by
  intro c
  induction c using Nat.strong_induction_on with
  | _ c ih =>
    intro hcl
    by_cases hc0 : c = 0
    · rw [hc0, Nat.add_zero]
    · have e1 := hheap c (by omega) hcl (by omega)
      have e2 := ih ((c - 1) / 2) (by omega) (by omega)
      omega

/-- The function `__pop_heap` as `__sort_heap` calls it: the root goes to the position
`last` and the positions before it are in heap order again. -/
theorem pop_heap_spec (key : Nat → Int) (first last : Nat) (v : List Nat)
    (hfl : first < last) (hlen : last < v.length)
    (hheap : HeapFrom key v first (last + 1 - first) 0) :
    ∃ w, pop_heap (fun a b => decide (key a < key b)) first last last v = some w ∧
      w.length = v.length ∧ w.Perm v ∧
      (∀ i, i < first ∨ last + 1 ≤ i → w.getD i 0 = v.getD i 0) ∧
      w.getD last 0 = v.getD first 0 ∧
      HeapFrom key w first (last - first) 0 := by
  unfold pop_heap
  rw [getElem?_eq_getD v last hlen, getElem?_eq_getD v first (by omega)]
  simp only [Option.bind_eq_bind, Option.some_bind]
  rw [assign_eq v _ _ hlen]
  simp only [Option.some_bind]
  have hpre : HeapFrom key (v.set last (v.getD first 0)) first (last - first) 1 := by
    intro c c1 c2 c3
    rw [getD_set_ne v _ _ _ (by omega), getD_set_ne v _ _ _ (by omega)]
    exact hheap c c1 (by omega) (by omega)
  obtain ⟨w, hres, r1, r2, r3, r4⟩ :=
    adjust_heap_spec key first 0 (last - first) (v.getD last 0) (v.set last (v.getD first 0))
      (by omega) (by simp; omega) hpre
  refine ⟨w, hres, by simpa using r1, ?_, ?_, ?_, r4⟩
  · rw [Nat.add_zero] at r2
    exact r2.trans (swap_perm v last first hlen (by omega))
  · intro i hi
    rw [r3 i (by omega)]
    exact getD_set_ne v _ _ _ (by omega)
  · rw [r3 last (by omega)]
    exact getD_set_self v _ _ hlen

/-- The function `__sort_heap` on a heap below elements that are not below any of its
own: in the end the first position holds an element that is not above any other. -/
theorem sort_heap_spec (key : Nat → Int) (first E : Nat) :
    ∀ (last : Nat) (v : List Nat), first < last → last ≤ E → E ≤ v.length →
      HeapFrom key v first (last - first) 0 →
      (∀ i j, first ≤ i → i < last → last ≤ j → j < E →
        key (v.getD i 0) ≤ key (v.getD j 0)) →
      ∃ w, sort_heap (fun a b => decide (key a < key b)) first last v = some w ∧
        w.length = v.length ∧ w.Perm v ∧
        (∀ i, i < first ∨ last ≤ i → w.getD i 0 = v.getD i 0) ∧
        (∀ j, first < j → j < E → key (w.getD first 0) ≤ key (w.getD j 0)) := by
  intro last
  induction last with
  | zero => intro v h; omega
  | succ last ih =>
    intro v hfl hlE hE hheap hupper
    unfold sort_heap
    by_cases hgt : last + 1 - first > 1
    · rw [if_pos hgt]
      obtain ⟨v1, hres1, p1, p2, p3, p4, p5⟩ :=
        pop_heap_spec key first last v (by omega) (by omega) hheap
      simp only [hres1, Option.bind_eq_bind, Option.some_bind]
      have htr := seg_transfer v v1 first (last + 1) (by omega) (by omega) p1 p2 p3
      have hroot := heap_root_max key v first (last + 1 - first) hheap
      obtain ⟨w, hres, r1, r2, r3, r4⟩ := ih v1 (by omega) (by omega) (by omega) p5
        (by
          intro i j hi hil hlj hjE
          obtain ⟨i', hi1, hi2, hi3⟩ := htr i hi (by omega)
          rw [hi3]
          by_cases hjl : j = last
          · rw [hjl, p4]
            have := hroot (i' - first) (by omega)
            have e : first + (i' - first) = i' := by omega
            rw [e] at this
            exact this
          · rw [p3 j (by omega)]
            exact hupper i' j hi1 hi2 (by omega) hjE)
      exact ⟨w, hres, by omega, r2.trans p2,
        fun i hi => by rw [r3 i (by omega)]; exact p3 i (by omega), r4⟩
    · rw [if_neg hgt]
      refine ⟨v, rfl, rfl, List.Perm.refl _, fun _ _ => rfl, ?_⟩
      intro j hj hjE
      exact hupper first j (le_refl _) (by omega) (by omega) hjE

/-- The heap sort `__partial_sort(first, last, last)` returns, rearranges the positions
`first .. last - 1` and leaves at `first` an element that is not above any other. -/
theorem partial_sort_spec (key : Nat → Int) (first last : Nat) (v : List Nat)
    (hfl : first < last) (hlen : last ≤ v.length) :
    ∃ w, partial_sort (fun a b => decide (key a < key b)) first last last v = some w ∧
      w.length = v.length ∧ w.Perm v ∧
      (∀ i, i < first ∨ last ≤ i → w.getD i 0 = v.getD i 0) ∧
      (∀ j, first < j → j < last → key (w.getD first 0) ≤ key (w.getD j 0)) := by
  obtain ⟨v1, hres1, p1, p2, p3, p4⟩ := make_heap_spec key first last v (by omega) hlen
  obtain ⟨w, hres, r1, r2, r3, r4⟩ :=
    sort_heap_spec key first last last v1 hfl (le_refl _) (by omega) p4
      (fun i j _ h1 h2 h3 => by omega)
  unfold partial_sort heap_select
  simp only [hres1, Nat.sub_self, List.range'_zero, List.foldlM_nil, Option.bind_eq_bind,
    Option.some_bind, Option.pure_def, hres]
  exact ⟨w, rfl, by omega, r2.trans p2, fun i hi => by rw [r3 i hi]; exact p3 i hi, r4⟩

end SortHeapSort

/-! ## `std::sort` returns a sorted rearrangement -/

section SortIntro

/-- The function `__introsort_loop` returns; it rearranges the positions
`first .. last - 1`, and every element from the 17th of them on has an element among the
first 16 that is not above it. -/
theorem introsort_loop_spec (key : Nat → Int) :
    ∀ (depth_limit first last : Nat) (v : List Nat), first ≤ last → last ≤ v.length →
      ∃ w, introsort_loop (fun a b => decide (key a < key b)) depth_limit first last v =
          some w ∧
        w.length = v.length ∧ w.Perm v ∧
        (∀ i, i < first ∨ last ≤ i → w.getD i 0 = v.getD i 0) ∧
        (∀ j, first + 16 ≤ j → j < last →
          ∃ i, first ≤ i ∧ i < first + 16 ∧ key (w.getD i 0) ≤ key (w.getD j 0)) := by
  intro d
  induction d with
  | zero =>
    intro first last v hfl hlen
    unfold introsort_loop
    simp only [S_threshold]
    by_cases hsize : last - first > 16
    · rw [if_pos hsize]
      obtain ⟨w, hres, r1, r2, r3, r4⟩ := partial_sort_spec key first last v (by omega) hlen
      exact ⟨w, hres, r1, r2, r3, fun j hj hjl =>
        ⟨first, le_refl _, by omega, r4 j (by omega) hjl⟩⟩
    · rw [if_neg hsize]
      exact ⟨v, rfl, rfl, List.Perm.refl _, fun _ _ => rfl, fun j hj hjl => by omega⟩
  | succ d ih =>
    intro first last v hfl hlen
    unfold introsort_loop
    simp only [S_threshold]
    by_cases hsize : last - first > 16
    · rw [if_pos hsize]
      obtain ⟨cut, v1, pv, hres1, c1, c2, p1, p2, p3, p4, p5⟩ :=
        unguarded_partition_pivot_spec key first last v hsize hlen
      obtain ⟨v2, hres2, q1, q2, q3, _⟩ := ih cut last v1 (by omega) (by omega)
      obtain ⟨w, hres3, r1, r2, r3, r4⟩ := ih first cut v2 (by omega) (by omega)
      simp only [hres1, hres2, hres3, Option.bind_eq_bind, Option.some_bind]
      refine ⟨w, rfl, by omega, (r2.trans q2).trans p2, ?_, ?_⟩
      · intro i hi
        rw [r3 i (by omega), q3 i (by omega)]
        exact p3 i hi
      · intro j hj hjl
        by_cases hjc : j < cut
        · exact r4 j hj hjc
        · refine ⟨first, le_refl _, by omega, ?_⟩
          obtain ⟨j', hj1, hj2, hj3⟩ :=
            seg_transfer v1 v2 cut last (by omega) (by omega) q1 q2 q3 j (by omega) hjl
          obtain ⟨i', hi1, hi2, hi3⟩ :=
            seg_transfer v2 w first cut (by omega) (by omega) r1 r2 r3 first (le_refl _) c1
          rw [r3 j (by omega), hj3, hi3, q3 i' (by omega)]
          have e1 := p4 i' hi1 hi2
          have e2 := p5 j' hj1 hj2
          omega
    · rw [if_neg hsize]
      exact ⟨v, rfl, rfl, List.Perm.refl _, fun _ _ => rfl, fun j hj hjl => by omega⟩

/-- The loop of `__unguarded_insertion_sort` behind a sorted part of 16 elements that
holds, for every later element, one that is not above it. -/
theorem unguarded_insertion_sort_loop (key : Nat → Int) (v : List Nat)
    (hguard : ∀ j, 16 ≤ j → j < v.length →
      ∃ i, i < 16 ∧ key (v.getD i 0) ≤ key (v.getD j 0)) :
    ∀ k, 16 + k ≤ v.length →
      (List.range' 16 k).foldlM
        (fun v i => unguarded_linear_insert (fun a b => decide (key a < key b)) i v)
        (stableSort (fun a b => decide (key a < key b)) (v.take 16) ++ v.drop 16) =
      some (stableSort (fun a b => decide (key a < key b)) (v.take (16 + k)) ++
        v.drop (16 + k)) := by
  intro k
  induction k with
  | zero => intro _; rfl
  | succ k ih =>
    intro hk
    rw [List.range'_concat, List.foldlM_append, ih (by omega)]
    obtain ⟨h1, h2⟩ := take_succ_drop v (16 + k) (by omega)
    have e : 16 + (k + 1) = 16 + k + 1 := by omega
    rw [e, h2, h1, stableSort_concat]
    obtain ⟨hperm, hS⟩ := stableSort_contract key (v.take (16 + k))
    have hlen : (stableSort (fun a b => decide (key a < key b)) (v.take (16 + k))).length
        = 16 + k := by
      rw [stableSort_length, List.length_take]
      omega
    obtain ⟨i, hi, hle⟩ := hguard (16 + k) (by omega) (by omega)
    have hmem : v.getD i 0 ∈ stableSort (fun a b => decide (key a < key b))
        (v.take (16 + k)) := by
      apply hperm.symm.subset
      rw [List.mem_iff_getElem?]
      refine ⟨i, ?_⟩
      rw [List.getElem?_take, if_pos (by omega)]
      exact getElem?_eq_getD v i (by omega)
    have hx : v[16 + k] = v.getD (16 + k) 0 := (List.getD_eq_getElem _ _ (by omega)).symm
    have := unguarded_linear_insert_spec key _ (v.drop (16 + k + 1)) v[16 + k] hS
      ⟨_, hmem, by rw [hx]; exact hle⟩
    rw [hlen] at this
    simpa using this

/-- The function `__final_insertion_sort` on the whole vector returns the stable order
of the vector it is given, provided that every element from the 17th on has an element
among the first 16 that is not above it. -/
theorem final_insertion_sort_spec (key : Nat → Int) (v : List Nat)
    (hguard : ∀ j, 16 ≤ j → j < v.length →
      ∃ i, i < 16 ∧ key (v.getD i 0) ≤ key (v.getD j 0)) :
    final_insertion_sort (fun a b => decide (key a < key b)) 0 v.length v =
      some (stableSort (fun a b => decide (key a < key b)) v) := by
  unfold final_insertion_sort
  simp only [S_threshold, Nat.sub_zero, Nat.zero_add]
  by_cases hsize : v.length > 16
  · rw [if_pos hsize, insertion_sort_spec key v 16 (by omega)]
    simp only [Option.bind_eq_bind, Option.some_bind]
    unfold unguarded_insertion_sort
    have := unguarded_insertion_sort_loop key v hguard (v.length - 16) (by omega)
    have e : 16 + (v.length - 16) = v.length := by omega
    rw [e] at this
    rw [this]
    simp
  · rw [if_neg hsize, insertion_sort_spec key v v.length (le_refl _)]
    simp

/-- The function `std::sort` returns for every vector and every comparator of keys:
no read or assignment leaves the vector.  The result is the stable order of the vector
that `__introsort_loop` leaves, a rearrangement of the input. -/
theorem sort_total (key : Nat → Int) (v : List Nat) :
    ∃ w, w.Perm v ∧ (v.length ≤ 16 → w = v) ∧
      sort (fun a b => decide (key a < key b)) v =
        some (stableSort (fun a b => decide (key a < key b)) w) := by
  unfold sort
  simp only []
  by_cases h0 : 0 ≠ v.length
  · rw [if_pos h0]
    obtain ⟨w, hres, r1, r2, r3, r4⟩ :=
      introsort_loop_spec key (lgLoop (v.length - 0) (v.length - 0) * 2) 0 v.length v
        (by omega) (le_refl _)
    have hsmall : v.length ≤ 16 → w = v := by
      intro h
      rw [introsort_loop_small _ _ 0 v.length v (by omega)] at hres
      exact (Option.some.inj hres).symm
    refine ⟨w, r2, hsmall, ?_⟩
    simp only [hres, Option.bind_eq_bind, Option.some_bind]
    rw [← r1]
    apply final_insertion_sort_spec key w
    intro j hj hjl
    obtain ⟨i, _, hi, hle⟩ := r4 j (by omega) (by omega)
    exact ⟨i, by omega, hle⟩
  · rw [if_neg h0]
    refine ⟨v, List.Perm.refl _, fun _ => rfl, ?_⟩
    have hv : v = [] := List.length_eq_zero.mp (by omega)
    rw [hv]
    rfl

end SortIntro

/-! ## The rank order -/

section RankOrder
variable {P : Type}

/-- The sort handed to `carveMultipleVolumes` meets the contract of `std::sort`. -/
theorem std_sort_contract : StdSortContract std_sort := by
  intro key l
  obtain ⟨w, hperm, _, hs⟩ := sort_total key l
  obtain ⟨hp, hsorted⟩ := stableSort_contract key w
  unfold std_sort
  rw [hs]
  exact ⟨hp.trans hperm, hsorted⟩

/-- C14, as amended (the rank order).  For every store `std::sort` returns, and the
ranked list that `carveMultipleVolumes` runs over is a rearrangement of the slots of the
store in which the `infill_mesh_order` values never decrease.  In a store of at most 16
solids, solids of equal value stand in their input order. -/
theorem rankedVolumes_std_sort (K : PolygonOps P) (alt : Bool) (volumes : List (Slicer P)) :
    ∃ ranked,
      sort (fun volume_1 volume_2 =>
          decide (infillMeshOrder volumes volume_1 < infillMeshOrder volumes volume_2))
        (List.range volumes.length) = some ranked ∧
      rankedVolumes std_sort volumes = ranked ∧
      carveMultipleVolumes K std_sort alt volumes =
        (List.range' 1 (volumes.length - 1)).foldlM (carveVolume K alt ranked) volumes ∧
      ranked.Perm (List.range volumes.length) ∧
      ranked.Pairwise (fun i j => infillMeshOrder volumes i ≤ infillMeshOrder volumes j) ∧
      (volumes.length ≤ 16 → ranked.Pairwise
        (fun i j => infillMeshOrder volumes i = infillMeshOrder volumes j → i < j)) := by
  obtain ⟨w, hperm, hsmall, hs⟩ :=
    sort_total (infillMeshOrder volumes) (List.range volumes.length)
  have hr : rankedVolumes std_sort volumes =
      stableSort (fun a b => decide (infillMeshOrder volumes a < infillMeshOrder volumes b))
        w := by
    unfold rankedVolumes std_sort
    rw [hs]
    rfl
  obtain ⟨hp, hsorted⟩ := stableSort_contract (infillMeshOrder volumes) w
  refine ⟨_, hs, hr, ?_, hp.trans hperm, hsorted, ?_⟩
  · unfold carveMultipleVolumes
    rw [hr]
  · intro hlen
    rw [hsmall (by rw [List.length_range]; exact hlen)]
    exact stableSort_stable (infillMeshOrder volumes) _ (List.pairwise_lt_range _)

end RankOrder

section RankOrderExamples

/-- The amended C14 at two bars, the one of order 1 placed first in the store. -/
theorem rankedVolumes_std_sort_witness :
    [twinHigh, twinLow].length ≤ 16 ∧
    ∃ ranked,
      sort (fun volume_1 volume_2 =>
          decide (infillMeshOrder [twinHigh, twinLow] volume_1 <
            infillMeshOrder [twinHigh, twinLow] volume_2))
        (List.range [twinHigh, twinLow].length) = some ranked ∧
      rankedVolumes std_sort [twinHigh, twinLow] = ranked ∧
      carveMultipleVolumes (pointSet boxPrims) std_sort true [twinHigh, twinLow] =
        (List.range' 1 ([twinHigh, twinLow].length - 1)).foldlM
          (carveVolume (pointSet boxPrims) true ranked) [twinHigh, twinLow] ∧
      ranked.Perm (List.range [twinHigh, twinLow].length) ∧
      ranked.Pairwise (fun i j =>
        infillMeshOrder [twinHigh, twinLow] i ≤ infillMeshOrder [twinHigh, twinLow] j) ∧
      ([twinHigh, twinLow].length ≤ 16 → ranked.Pairwise (fun i j =>
        infillMeshOrder [twinHigh, twinLow] i = infillMeshOrder [twinHigh, twinLow] j →
          i < j)) :=
  ⟨by decide, rankedVolumes_std_sort (pointSet boxPrims) true [twinHigh, twinLow]⟩

/-- C14, as stated, fails.  The seventeen solids of `tiedStore` have the same
`infill_mesh_order`; `std::sort` partitions a vector of more than 16 elements around a
pivot, and the ranked list it leaves starts with the solids 8 and 16 and ends with the
solid 1: equal values do not keep their input order. -/
theorem std_sort_ties_not_in_input_order :
    (∀ i ∈ List.range 17, infillMeshOrder tiedStore i = 0) ∧
    sort (fun volume_1 volume_2 =>
        decide (infillMeshOrder tiedStore volume_1 < infillMeshOrder tiedStore volume_2))
      (List.range tiedStore.length) =
        some [8, 16, 15, 14, 13, 12, 11, 10, 9, 0, 7, 6, 5, 4, 3, 2, 1] ∧
    rankedVolumes std_sort tiedStore =
      [8, 16, 15, 14, 13, 12, 11, 10, 9, 0, 7, 6, 5, 4, 3, 2, 1] := by
  decide

end RankOrderExamples

end cura
